import Mathlib

/-!
Verification development for the magpie debate orchestration engine.

The definitions below are a shallow embedding of `src/orchestrator/orchestrator.ts`
(class `DebateOrchestrator`) together with the small parts of
`src/providers/claude-code.ts` needed for the streaming/one-shot provider contract.

Modelling conventions:
* Agents (providers) are modelled as oracles `chatFn : List Message → String → String`
  taking the ordered messages and the system prompt and returning the response text.
  For streaming calls the orchestrator only ever uses the concatenation of the
  yielded chunks, so the same oracle models `chatStream` at orchestration level.
* JavaScript `Map` objects (insertion-ordered) are modelled as association lists
  (`List (String × α)`) with `alistGet`/`alistSet` reproducing `Map.get`/`Map.set`.
* `Date.now()` / `new Date()` timestamps are modelled by a logical clock
  (`OrchState.clock`), incremented at each appended turn; no orchestration
  decision reads a timestamp.
* The observer callbacks (`onMessage`, `onWaiting`, `onRoundComplete`,
  `onParallelStatus`) are pure observers in the source (they influence no
  decision) and are not modelled; instead the state carries `log`, a
  specification-only trace of the agent calls and interjection consultations
  performed, used to state temporal properties about the run.
* `estimatedCost` is a JS float in the source; it is modelled exactly as the
  rational expression the source computes, `(input + output) * 0.00001`.
* The interjection provider `onInteractive` (an async closure returning
  `string | null` per consultation) is modelled as a function from the
  consultation index to `Option String`; the post-analysis Q&A provider is
  modelled as the finite list of answers it returns before returning `null`.
-/

namespace Magpie

/-- `Array.prototype.join(sep)` (and `String.intercalate`): the list elements
separated by `sep`. Defined by structural recursion so that concrete runs
evaluate inside the kernel. -/
def jsJoin (sep : String) : List String → String
  | [] => ""
  | [x] => x
  | x :: y :: rest => x ++ sep ++ jsJoin sep (y :: rest)

/-- `String.prototype.trim()`: strip leading and trailing whitespace
(`Char.isWhitespace` models the JS `\s` class on the characters appearing in
this code base). -/
def jsTrim (s : String) : String :=
  String.mk ((((s.toList.dropWhile Char.isWhitespace).reverse.dropWhile
    Char.isWhitespace).reverse))

/-- `String.prototype.toUpperCase()` (ASCII-faithful). -/
def jsToUpper (s : String) : String :=
  String.mk (s.toList.map Char.toUpper)

/-- `String.prototype.toLowerCase()` (ASCII-faithful). -/
def jsToLower (s : String) : String :=
  String.mk (s.toList.map Char.toLower)

/-- Role of a provider message (`src/providers/types.ts`, `Message.role`). -/
inductive Role where
  | system
  | user
  | assistant
deriving DecidableEq

/-- Provider message (`src/providers/types.ts`). -/
structure Message where
  role : Role
  content : String
deriving DecidableEq

/-- A turn of the shared conversation history (`DebateMessage` in
`src/orchestrator/types.ts`); the wall-clock timestamp is modelled by a
logical clock value. -/
structure DebateMessage where
  reviewerId : String
  content : String
  timestamp : Nat
deriving DecidableEq

/-- Per-participant token usage record (`TokenUsage` in `src/orchestrator/types.ts`). -/
structure TokenUsage where
  reviewerId : String
  inputTokens : Nat
  outputTokens : Nat
  estimatedCost : ℚ
deriving DecidableEq

/-- A reviewer self-summary (`DebateSummary`). -/
structure DebateSummary where
  reviewerId : String
  summary : String
deriving DecidableEq

/-- The result of one debate run (`DebateResult`). -/
structure DebateResult where
  prNumber : String
  analysis : String
  messages : List DebateMessage
  summaries : List DebateSummary
  finalConclusion : String
  tokenUsage : List TokenUsage
  convergedAtRound : Option Nat
deriving DecidableEq

/-- A debate participant (`Reviewer` in `src/orchestrator/types.ts`).
`supportsSession` records whether the participant's provider implements the
optional session lifecycle (`startSession` setting `provider.sessionId`);
`chatFn` is the provider oracle (messages, system prompt ↦ response text). -/
structure Reviewer where
  id : String
  systemPrompt : String
  supportsSession : Bool
  chatFn : List Message → String → String

/-- Orchestrator construction data plus options
(`DebateOrchestrator` constructor and `OrchestratorOptions`). -/
structure Orchestrator where
  reviewers : List Reviewer
  summarizer : Reviewer
  analyzer : Reviewer
  maxRounds : Nat
  interactive : Bool
  checkConvergenceOpt : Bool
  onInteractive : Option (Nat → Option String)
  onPostAnalysisQA : Option (List (String × String))

/-- Specification-only trace of the calls a run performs, in order.
`reviewerCall` records the loop round, reviewer id, the request built for it,
the `previousRoundsMessages` set the request was derived from (`[]` on a
first call), and the response; `tokensEvent` records one `trackTokens`
increment (already converted to token counts). -/
inductive CallEvent where
  | analyzerCall (response : String)
  | qaCall (target : String) (matched : Option String)
  | interactCall (round : Nat) (reply : Option String)
  | reviewerCall (round : Nat) (id : String) (request : List Message)
      (visible : List DebateMessage) (response : String)
  | judgeCall (round : Nat) (verdict : Bool)
  | summaryCall (id : String) (response : String)
  | conclusionCall (response : String)
  | tokensEvent (id : String) (inTok : Nat) (outTok : Nat)
deriving DecidableEq

/-- Mutable state of one orchestrator run (the private fields of
`DebateOrchestrator`), plus the logical clock and the specification trace. -/
structure OrchState where
  conversationHistory : List DebateMessage
  tokenUsage : List (String × Nat × Nat)
  lastSeenIndex : List (String × Int)
  analysis : String
  taskPrompt : String
  clock : Nat
  log : List CallEvent

/-- `Map.get`: first binding of the key, if any. -/
def alistGet {α : Type} : List (String × α) → String → Option α
  | [], _ => none
  | (k', v) :: rest, k => if k' = k then some v else alistGet rest k

/-- `Map.set`: update the existing binding in place, else append. -/
def alistSet {α : Type} : List (String × α) → String → α → List (String × α)
  | [], k, v => [(k, v)]
  | (k', v') :: rest, k, v =>
      if k' = k then (k, v) :: rest else (k', v') :: alistSet rest k v

/-- `estimateTokens`: `Math.ceil(text.length / 4)`. -/
def estimateTokens (text : String) : Nat :=
  (text.length + 3) / 4

/-- Add one input/output token increment to a usage map (the body of
`trackTokens`: get the existing totals or `{input: 0, output: 0}`, add, set). -/
def bumpUsage (m : List (String × Nat × Nat)) (reviewerId : String) (i o : Nat) :
    List (String × Nat × Nat) :=
  let existing := (alistGet m reviewerId).getD (0, 0)
  alistSet m reviewerId (existing.1 + i, existing.2 + o)

/-- `trackTokens`: add the estimated input/output tokens to the participant's
running totals (and record the increment in the trace). -/
def trackTokens (st : OrchState) (reviewerId input output : String) : OrchState :=
  let i := estimateTokens input
  let o := estimateTokens output
  { st with
    tokenUsage := bumpUsage st.tokenUsage reviewerId i o
    log := st.log ++ [.tokensEvent reviewerId i o] }

/-- `getTokenUsage`: render the usage map in insertion order;
cost is `(input + output) * 0.00001`. -/
def getTokenUsage (st : OrchState) : List TokenUsage :=
  st.tokenUsage.map fun e =>
    { reviewerId := e.1
      inputTokens := e.2.1
      outputTokens := e.2.2
      estimatedCost := ((e.2.1 : ℚ) + (e.2.2 : ℚ)) * (1 / 100000) }

/-- Append one turn to the conversation history (a
`conversationHistory.push({...})` in the source). -/
def pushTurn (st : OrchState) (id content : String) : OrchState :=
  { st with
    conversationHistory := st.conversationHistory ++ [⟨id, content, st.clock⟩]
    clock := st.clock + 1 }

/-- `markAsSeen`: record the index of the last history entry for the reviewer. -/
def markAsSeen (st : OrchState) (reviewerId : String) : OrchState :=
  { st with
    lastSeenIndex :=
      alistSet st.lastSeenIndex reviewerId ((st.conversationHistory.length : Int) - 1) }

/-- The round-1 independent review prompt of `buildMessages`. -/
def independentPrompt (taskPrompt analysis id : String) : String :=
  "Task: " ++ taskPrompt ++ "\n\nHere is the analysis:\n\n" ++ analysis ++
  "\n\nYou are [" ++ id ++
  "]. Please review and provide your independent assessment.\nFocus on finding real issues - be thorough and critical."

/-- The session-mode incremental prompt of `buildMessages`. -/
def sessionUpdatePrompt (id newContent : String) : String :=
  "You are [" ++ id ++ "]. Here\x27s what others said in the previous round:\n\n" ++
  newContent ++ "\n\nRespond to their points - agree where valid, challenge where you disagree."

/-- The `debateContext` framing of the non-session branch of `buildMessages`. -/
def debateContext (id : String) (otherReviewerIds : List String) : String :=
  "You are [" ++ id ++ "] in a code review debate with [" ++
  jsJoin "], [" otherReviewerIds ++
  "].\nYour shared goal: find real issues in the code and reach the best conclusion.\n\nIMPORTANT:\n- You are [" ++
  id ++ "], the other reviewer" ++
  (if otherReviewerIds.length > 1 then "s are" else " is") ++ " [" ++
  jsJoin "], [" otherReviewerIds ++
  "]\n- Challenge weak arguments - don\x27t agree just to be polite\n- Acknowledge good points and build on them\n- If you disagree, explain why with evidence"

/-- The stateful filter producing `previousRoundsMessages` in `buildMessages`:
drop the current reviewer's own turns, keep human (`"user"`) turns, and keep at
most `myCount` turns per other author (counted via the `messageCountByReviewer`
map threaded through). -/
def prevRoundsFilter (cur : String) (myCount : Nat) :
    List (String × Nat) → List DebateMessage → List DebateMessage
  | _, [] => []
  | counts, m :: rest =>
    if m.reviewerId = cur then prevRoundsFilter cur myCount counts rest
    else if m.reviewerId = "user" then m :: prevRoundsFilter cur myCount counts rest
    else
      let c := (alistGet counts m.reviewerId).getD 0
      if c < myCount then
        m :: prevRoundsFilter cur myCount (alistSet counts m.reviewerId (c + 1)) rest
      else prevRoundsFilter cur myCount counts rest

/-- The session-mode second filter of `buildMessages` (`newMessages`): keep
human turns, and per other author keep the turns whose per-author index is at
least `prevRoundCount` (the counter map is updated on every non-human turn). -/
def newMessagesFilter (prevRoundCount : Int) :
    List (String × Nat) → List DebateMessage → List DebateMessage
  | _, [] => []
  | counts, m :: rest =>
    if m.reviewerId = "user" then m :: newMessagesFilter prevRoundCount counts rest
    else
      let c := (alistGet counts m.reviewerId).getD 0
      let counts2 := alistSet counts m.reviewerId (c + 1)
      if prevRoundCount ≤ (c : Int) then m :: newMessagesFilter prevRoundCount counts2 rest
      else newMessagesFilter prevRoundCount counts2 rest

/-- `this.conversationHistory.filter(m => m.reviewerId === currentReviewerId).length`. -/
def myMessageCount (st : OrchState) (currentReviewerId : String) : Nat :=
  (st.conversationHistory.filter fun m => m.reviewerId == currentReviewerId).length

/-- The `previousRoundsMessages` value `buildMessages` computes for a reviewer
on a non-first call. -/
def visibleOthers (st : OrchState) (currentReviewerId : String) : List DebateMessage :=
  prevRoundsFilter currentReviewerId (myMessageCount st currentReviewerId) []
    st.conversationHistory

/-- The session-mode `newMessages` value of `buildMessages`. -/
def newVisible (st : OrchState) (currentReviewerId : String) : List DebateMessage :=
  newMessagesFilter ((myMessageCount st currentReviewerId : Int) - 1) []
    (visibleOthers st currentReviewerId)

/-- Whether `reviewer?.provider.sessionId !== undefined` holds for this
reviewer: its provider implements the session lifecycle and the run has started
sessions (`runStreaming` does, `run` does not). -/
def hasSessionFor (env : Orchestrator) (sessionsActive : Bool) (currentReviewerId : String) :
    Bool :=
  match env.reviewers.find? fun r => r.id == currentReviewerId with
  | some r => r.supportsSession && sessionsActive
  | none => false

/-- `lastSeen < 0`, i.e. the reviewer has no `lastSeenIndex` entry yet. -/
def isFirstCallFor (st : OrchState) (currentReviewerId : String) : Bool :=
  decide ((alistGet st.lastSeenIndex currentReviewerId).getD (-1) < 0)

/-- `buildMessages` (the Visibility Policy), returning the request together
with the `previousRoundsMessages` set it was derived from (`[]` on the
first-call branch) — the second component is specification instrumentation. -/
def buildMessagesV (env : Orchestrator) (sessionsActive : Bool) (st : OrchState)
    (currentReviewerId : String) : List Message × List DebateMessage :=
  let otherReviewerIds :=
    (env.reviewers.filter fun r => r.id ≠ currentReviewerId).map (·.id)
  if isFirstCallFor st currentReviewerId then
    ([⟨.user, independentPrompt st.taskPrompt st.analysis currentReviewerId⟩], [])
  else
    let previousRoundsMessages := visibleOthers st currentReviewerId
    if hasSessionFor env sessionsActive currentReviewerId then
      let newMessages := newVisible st currentReviewerId
      if newMessages = [] then
        ([⟨.user, "Please continue with your review."⟩], previousRoundsMessages)
      else
        let newContent := jsJoin "\n\n---\n\n"
          (newMessages.map fun m => "[" ++ m.reviewerId ++ "]: " ++ m.content)
        ([⟨.user, sessionUpdatePrompt currentReviewerId newContent⟩], previousRoundsMessages)
    else
      let prompt := "Task: " ++ st.taskPrompt ++ "\n\nHere is the analysis:\n\n" ++
        st.analysis ++ "\n\n" ++ debateContext currentReviewerId otherReviewerIds ++
        "\n\nPrevious rounds discussion:"
      let ctxMsgs := previousRoundsMessages.map fun m =>
        Message.mk .user
          ((if m.reviewerId == "user" then "[Human]: " else "[" ++ m.reviewerId ++ "]: ") ++
            m.content)
      let myMessages :=
        st.conversationHistory.filter fun m => m.reviewerId == currentReviewerId
      (⟨.user, prompt⟩ :: (ctxMsgs ++ myMessages.map fun m => Message.mk .assistant m.content),
        previousRoundsMessages)

/-- The request component of `buildMessages`. -/
def buildMessages (env : Orchestrator) (sessionsActive : Bool) (st : OrchState)
    (currentReviewerId : String) : List Message :=
  (buildMessagesV env sessionsActive st currentReviewerId).1

/-- The first `\s+`-delimited field of a string, `result.split(/\s+/)[0]`:
on a string with no leading whitespace (the argument has been trimmed) this is
the maximal leading run of non-whitespace characters. -/
def firstWsToken (s : String) : String :=
  String.mk (s.toList.takeWhile fun c => !c.isWhitespace)

/-- The verdict parser at the end of `checkConvergence`:
`response.trim().toUpperCase()`, first whitespace-delimited word, compared to
`CONVERGED`. -/
def parseConverged (response : String) : Bool :=
  firstWsToken (jsToUpper (jsTrim response)) == "CONVERGED"

/-- The consensus-judge prompt of `checkConvergence` (rubric text verbatim). -/
def convergencePrompt (reviewerCount roundsCompleted : Nat) (messagesText : String) :
    String :=
  "You are a strict consensus judge. Analyze whether these " ++
  toString reviewerCount ++
  " reviewers have reached TRUE CONSENSUS.\n\nIMPORTANT: This is Round " ++
  toString roundsCompleted ++
  ". Reviewers have now seen each other\x27s opinions.\n\nTRUE CONSENSUS requires ALL of the following:\n1. All reviewers agree on the SAME final verdict (all approve OR all request changes)\n2. Critical/blocking issues identified by ANY reviewer are acknowledged by ALL others\n3. No reviewer has raised a concern that others have ignored or dismissed without addressing\n4. They explicitly agree on what actions to take (not just \"no disagreement\")\n\nNOT CONSENSUS if ANY of these:\n- One reviewer identified a Critical/Important issue that others didn\x27t address\n- Reviewers found DIFFERENT sets of issues without cross-validating each other\x27s findings\n- One reviewer says \"I disagree\" or challenges another\x27s reasoning\n- Reviewers give different verdicts or severity assessments\n- Silence on another\x27s point (not responding to it) - silence is NOT agreement\n- They list problems but haven\x27t confirmed they agree on the complete list\n\nReviews from Round " ++
  toString roundsCompleted ++ ":\n" ++ messagesText ++
  "\n\nRespond with EXACTLY one word on its own line: CONVERGED or NOT_CONVERGED"

/-- The system instruction sent with the consensus-judge call. -/
def judgeSystemInstruction : String :=
  "You are a strict consensus judge. Be VERY conservative - if there is ANY doubt, respond NOT_CONVERGED. Respond with exactly one word: CONVERGED or NOT_CONVERGED. Nothing else."

/-- `checkConvergence`: needs at least one full round of turns and at least two
completed rounds before consulting the judge (the summarizer agent); notes the
judged verdict in the trace, tagged with the loop round passed in (the source
logs nothing; the tag is specification instrumentation). No tokens are tracked
for this call in the source. For an empty reviewer list JS would compute
`Infinity` rounds and take `slice(-0) = ` the whole history; the embedding is
used only with nonempty reviewer lists. -/
def checkConvergenceRun (env : Orchestrator) (st : OrchState) (round : Nat) :
    OrchState × Bool :=
  if st.conversationHistory.length < env.reviewers.length then (st, false)
  else
    let roundsCompleted := st.conversationHistory.length / env.reviewers.length
    if roundsCompleted < 2 then (st, false)
    else
      let lastRoundMessages :=
        st.conversationHistory.drop (st.conversationHistory.length - env.reviewers.length)
      let messagesText := jsJoin "\n\n---\n\n"
        (lastRoundMessages.map fun m => "[" ++ m.reviewerId ++ "]: " ++ m.content)
      let prompt := convergencePrompt env.reviewers.length roundsCompleted messagesText
      let response := env.summarizer.chatFn [⟨.user, prompt⟩] judgeSystemInstruction
      let verdict := parseConverged response
      ({ st with log := st.log ++ [.judgeCall round verdict] }, verdict)

/-- Initial run state (`run`/`runStreaming` reset all fields and store the
task prompt). -/
def initState (prompt : String) : OrchState :=
  { conversationHistory := []
    tokenUsage := []
    lastSeenIndex := []
    analysis := ""
    taskPrompt := prompt
    clock := 0
    log := [] }

/-- `preAnalyze`: one analyzer call with the task prompt, tracked under the
fixed id `"analyzer"`. -/
def preAnalyze (env : Orchestrator) (st : OrchState) (prompt : String) :
    OrchState × String :=
  let response := env.analyzer.chatFn [⟨.user, prompt⟩] env.analyzer.systemPrompt
  let st := { st with log := st.log ++ [.analyzerCall response] }
  let st := trackTokens st "analyzer" (prompt ++ env.analyzer.systemPrompt) response
  (st, response)

/-- Interjection handling shared by both round loops: consult the provider
(one consultation index per check), abort on `'q'`, append a human turn on any
other non-empty reply. Returns (state, next consultation index, aborted?). -/
def interactStep (env : Orchestrator) (st : OrchState) (ictr round : Nat) :
    OrchState × Nat × Bool :=
  match env.interactive, env.onInteractive with
  | true, some f =>
    let reply := f ictr
    let st1 := { st with log := st.log ++ [.interactCall round reply] }
    if reply = some "q" then (st1, ictr + 1, true)
    else
      match reply with
      | some s => (if s = "" then st1 else pushTurn st1 "user" s, ictr + 1, false)
      | none => (st1, ictr + 1, false)
  | _, _ => (st, ictr, false)

/-- One reviewer turn of the buffered `run`: build the request, call the
provider, track tokens, commit the turn and advance the cursor. -/
def reviewerStepB (env : Orchestrator) (round : Nat) (reviewer : Reviewer)
    (st : OrchState) : OrchState :=
  let bm := buildMessagesV env false st reviewer.id
  let response := reviewer.chatFn bm.1 reviewer.systemPrompt
  let st1 := { st with
    log := st.log ++ [.reviewerCall round reviewer.id bm.1 bm.2 response] }
  let inputText := jsJoin "\n" (bm.1.map (·.content)) ++ reviewer.systemPrompt
  let st2 := trackTokens st1 reviewer.id inputText response
  let st3 := pushTurn st2 reviewer.id response
  markAsSeen st3 reviewer.id

/-- The inner per-reviewer loop of the buffered `run` for one round: for each
reviewer, first the interactive check (`'q'` breaks this inner loop only),
then the reviewer turn. -/
def runReviewersB (env : Orchestrator) (round : Nat) :
    List Reviewer → OrchState → Nat → OrchState × Nat
  | [], st, ictr => (st, ictr)
  | reviewer :: rest, st, ictr =>
    let pre := interactStep env st ictr round
    if pre.2.2 then (pre.1, pre.2.1)
    else runReviewersB env round rest (reviewerStepB env round reviewer pre.1) pre.2.1

/-- The round loop of the buffered `run`, `for round = 1..maxRounds`, with
`remaining` the number of rounds still to run. After each round's inner loop,
the convergence check runs when enabled and not on the final round; a
converged verdict records the round and stops the loop. -/
def runRoundsB (env : Orchestrator) :
    Nat → OrchState → Nat → Nat → OrchState × Nat × Option Nat
  | 0, st, ictr, _ => (st, ictr, none)
  | remaining + 1, st, ictr, round =>
    let inner := runReviewersB env round env.reviewers st ictr
    let conv :=
      if env.checkConvergenceOpt && decide (round < env.maxRounds) then
        checkConvergenceRun env inner.1 round
      else (inner.1, false)
    if conv.2 then (conv.1, inner.2, some round)
    else runRoundsB env remaining conv.1 inner.2 (round + 1)

/-- The fixed summary-phase instruction. -/
def summaryPromptText : String :=
  "Please summarize your key points and conclusions. Do not reveal your identity or role."

/-- `collectSummaries`: one more request per reviewer (visibility rules as
usual plus the fixed summary instruction); responses are not committed to the
conversation history, and cursors are not advanced. -/
def collectSummaries (env : Orchestrator) (sessionsActive : Bool) :
    List Reviewer → OrchState → OrchState × List DebateSummary
  | [], st => (st, [])
  | reviewer :: rest, st =>
    let messages := buildMessages env sessionsActive st reviewer.id ++
      [⟨.user, summaryPromptText⟩]
    let summary := reviewer.chatFn messages reviewer.systemPrompt
    let st := { st with log := st.log ++ [.summaryCall reviewer.id summary] }
    let inputText := jsJoin "\n" (messages.map (·.content)) ++ reviewer.systemPrompt
    let st := trackTokens st reviewer.id inputText summary
    let next := collectSummaries env sessionsActive rest st
    (next.1, ⟨reviewer.id, summary⟩ :: next.2)

/-- `getFinalConclusion`: anonymized, numbered summaries concatenated into one
summarizer call. -/
def getFinalConclusion (env : Orchestrator) (st : OrchState)
    (summaries : List DebateSummary) : OrchState × String :=
  let summaryText := jsJoin "\n\n---\n\n"
    (summaries.enum.map fun e => "Reviewer " ++ toString (e.1 + 1) ++ ":\n" ++ e.2.summary)
  let prompt := "There are exactly " ++ toString summaries.length ++
    " reviewers in this debate. Based on their anonymous summaries below, provide a final conclusion including:\n- Points of consensus\n- Points of disagreement with analysis\n- Recommended action items\n\n" ++
    summaryText
  let response := env.summarizer.chatFn [⟨.user, prompt⟩] env.summarizer.systemPrompt
  let st := { st with log := st.log ++ [.conclusionCall response] }
  let st := trackTokens st "summarizer" (prompt ++ env.summarizer.systemPrompt) response
  (st, response)

/-- The state of the buffered `run` after the pre-analysis phase
(`this.analysis = await this.preAnalyze(prompt)`). -/
def preStB (env : Orchestrator) (prompt : String) : OrchState :=
  { (preAnalyze env (initState prompt) prompt).1 with
    analysis := (preAnalyze env (initState prompt) prompt).2 }

/-- The round loop of the buffered `run`, started at round 1. -/
def loopB (env : Orchestrator) (prompt : String) : OrchState × Nat × Option Nat :=
  runRoundsB env env.maxRounds (preStB env prompt) 0 1

/-- The summary phase of the buffered `run`. -/
def summB (env : Orchestrator) (prompt : String) : OrchState × List DebateSummary :=
  collectSummaries env false env.reviewers (loopB env prompt).1

/-- The final-conclusion phase of the buffered `run`. -/
def fcB (env : Orchestrator) (prompt : String) : OrchState × String :=
  getFinalConclusion env (summB env prompt).1 (summB env prompt).2

/-- The buffered `run(label, prompt)`: pre-analysis, round loop, summaries,
final conclusion (staged through `preStB`/`loopB`/`summB`/`fcB`). Sessions
are never started on this path, so `buildMessages` sees no active sessions.
Returns the `DebateResult` and the call trace. -/
def runB (env : Orchestrator) (label prompt : String) : DebateResult × List CallEvent :=
  ({ prNumber := label
     analysis := (fcB env prompt).1.analysis
     messages := (fcB env prompt).1.conversationHistory
     summaries := (summB env prompt).2
     finalConclusion := (fcB env prompt).2
     tokenUsage := getTokenUsage (fcB env prompt).1
     convergedAtRound := (loopB env prompt).2.2 }, (fcB env prompt).1.log)

/-- `qa.target.replace(/^@/, '')`: strip at most one leading `@`. -/
def stripLeadingAt (s : String) : String :=
  match s.toList with
  | '@' :: rest => String.mk rest
  | _ => s

/-- The Q&A target lookup: case-insensitive match of the stripped target
against the reviewer ids. -/
def qaFindTarget (env : Orchestrator) (target : String) : Option Reviewer :=
  env.reviewers.find? fun r => jsToLower r.id == jsToLower (stripLeadingAt target)

/-- The user-role message sent for a Q&A question. -/
def qaTurnPrompt (question : String) : String :=
  "Based on the analysis above, please answer this question:\n\n" ++ question

/-- The post-analysis Q&A loop of `runStreaming`: each `(target, question)`
reply of the caller is routed to the matching reviewer; an unmatched target is
skipped (`continue`); a match produces a streamed answer, a token increment
for that reviewer only, two committed turns (the human question and the
answer) and a cursor advance for the answering reviewer. -/
def runQALoop (env : Orchestrator) : List (String × String) → OrchState → OrchState
  | [], st => st
  | (target, question) :: rest, st =>
    match qaFindTarget env target with
    | none =>
      runQALoop env rest { st with log := st.log ++ [.qaCall target none] }
    | some targetReviewer =>
      let qaMessages : List Message := [⟨.user, qaTurnPrompt question⟩]
      let qaResponse := targetReviewer.chatFn qaMessages targetReviewer.systemPrompt
      let st := { st with log := st.log ++ [.qaCall target (some targetReviewer.id)] }
      let st := trackTokens st targetReviewer.id question qaResponse
      let st := pushTurn st "user" ("[Question to " ++ targetReviewer.id ++ "]: " ++ question)
      let st := pushTurn st targetReviewer.id qaResponse
      let st := markAsSeen st targetReviewer.id
      runQALoop env rest st

/-- One round task of `runStreaming`: the request is built from the
round-start snapshot, then the provider streams the response (modelled by its
concatenation). -/
structure RoundTask where
  reviewer : Reviewer
  request : List Message
  visible : List DebateMessage
  response : String

/-- Build all of a round's requests from the same history snapshot and run
them (`reviewerTasks` + the `Promise.all` fan-out of `runStreaming`). -/
def roundTasksS (env : Orchestrator) (st : OrchState) : List RoundTask :=
  env.reviewers.map fun reviewer =>
    let bm := buildMessagesV env true st reviewer.id
    { reviewer := reviewer
      request := bm.1
      visible := bm.2
      response := reviewer.chatFn bm.1 reviewer.systemPrompt }

/-- Commit one completed task: track tokens, append the turn, advance the
cursor (the post-`Promise.all` loop body of `runStreaming`). -/
def commitTask (st : OrchState) (t : RoundTask) : OrchState :=
  let inputText := jsJoin "\n" (t.request.map (·.content)) ++ t.reviewer.systemPrompt
  let st := trackTokens st t.reviewer.id inputText t.response
  let st := pushTurn st t.reviewer.id t.response
  markAsSeen st t.reviewer.id

/-- One full round of `runStreaming`: all requests built before any result is
committed; results committed in constructor order. -/
def roundBodyS (env : Orchestrator) (st : OrchState) (round : Nat) : OrchState :=
  let tasks := roundTasksS env st
  let st := { st with log := st.log ++ tasks.map fun t =>
      CallEvent.reviewerCall round t.reviewer.id t.request t.visible t.response }
  tasks.foldl commitTask st

/-- The round loop of `runStreaming`: interjection check at the round
boundary (`'q'` breaks the round loop), then the concurrent round, then the
convergence check. -/
def runRoundsS (env : Orchestrator) :
    Nat → OrchState → Nat → Nat → OrchState × Nat × Option Nat
  | 0, st, ictr, _ => (st, ictr, none)
  | remaining + 1, st, ictr, round =>
    let pre := interactStep env st ictr round
    if pre.2.2 then (pre.1, pre.2.1, none)
    else
      let st1 := roundBodyS env pre.1 round
      let conv :=
        if env.checkConvergenceOpt && decide (round < env.maxRounds) then
          checkConvergenceRun env st1 round
        else (st1, false)
      if conv.2 then (conv.1, pre.2.1, some round)
      else runRoundsS env remaining conv.1 pre.2.1 (round + 1)

/-- The state of `runStreaming` after the streamed pre-analysis
(`this.analysis` accumulated chunk by chunk equals the oracle response,
tracked afterwards). -/
def preAnalyzedS (env : Orchestrator) (prompt : String) : OrchState :=
  let analysisResponse := env.analyzer.chatFn [⟨.user, prompt⟩] env.analyzer.systemPrompt
  let st1 := { initState prompt with
    analysis := analysisResponse
    log := (initState prompt).log ++ [.analyzerCall analysisResponse] }
  trackTokens st1 "analyzer" (prompt ++ env.analyzer.systemPrompt) analysisResponse

/-- The state of `runStreaming` after the optional post-analysis Q&A phase. -/
def preStS (env : Orchestrator) (prompt : String) : OrchState :=
  match env.onPostAnalysisQA with
  | some qs => runQALoop env qs (preAnalyzedS env prompt)
  | none => preAnalyzedS env prompt

/-- The round loop of `runStreaming`, started at round 1. -/
def loopS (env : Orchestrator) (prompt : String) : OrchState × Nat × Option Nat :=
  runRoundsS env env.maxRounds (preStS env prompt) 0 1

/-- The summary phase of `runStreaming` (sessions are active). -/
def summS (env : Orchestrator) (prompt : String) : OrchState × List DebateSummary :=
  collectSummaries env true env.reviewers (loopS env prompt).1

/-- The final-conclusion phase of `runStreaming`. -/
def fcS (env : Orchestrator) (prompt : String) : OrchState × String :=
  getFinalConclusion env (summS env prompt).1 (summS env prompt).2

/-- `runStreaming(label, prompt)`: sessions started for all participants
(modelled by `sessionsActive = true` in every build), streamed pre-analysis,
optional post-analysis Q&A, round loop, summaries, final conclusion (staged
through `preStS`/`loopS`/`summS`/`fcS`). -/
def runS (env : Orchestrator) (label prompt : String) : DebateResult × List CallEvent :=
  ({ prNumber := label
     analysis := (fcS env prompt).1.analysis
     messages := (fcS env prompt).1.conversationHistory
     summaries := (summS env prompt).2
     finalConclusion := (fcS env prompt).2
     tokenUsage := getTokenUsage (fcS env prompt).1
     convergedAtRound := (loopS env prompt).2.2 }, (fcS env prompt).1.log)

/-- `${msg.role}` as rendered into a CLI prompt. -/
def roleText : Role → String
  | .system => "system"
  | .user => "user"
  | .assistant => "assistant"

/-- `ClaudeCodeProvider.buildPrompt`: optional `System:` header (skipped for a
missing or empty system prompt — JS truthiness) followed by `role: content`
lines. -/
def claudeBuildPrompt (messages : List Message) (systemPrompt : Option String) : String :=
  let base := match systemPrompt with
    | some sp => if sp = "" then "" else "System: " ++ sp ++ "\n\n"
    | none => ""
  messages.foldl (fun prompt msg => prompt ++ roleText msg.role ++ ": " ++ msg.content ++ "\n\n")
    base

/-- `runClaude`: the one-shot subprocess call, abstracted over the subprocess
behavior (the stdout chunks it emits, its exit code, its stderr text). The
accumulated output is trimmed on success. -/
def runClaude (stdoutData : List String) (exitCode : Int) (stderrData : String) :
    Except String String :=
  if exitCode ≠ 0 then
    .error ("Claude CLI exited with code " ++ toString exitCode ++ ": " ++ stderrData)
  else
    .ok (jsTrim (jsJoin "" stdoutData))

/-- `runClaudeStream`: the streaming subprocess call yields every stdout chunk
in arrival order (whether buffered in `chunks` or awaited), then, once the
process closes, throws iff the exit code was nonzero. The inactivity-timeout
branch is real-time behavior and is not modelled. Returns the yielded chunks
and the terminal error, if any. -/
def runClaudeStream (stdoutData : List String) (exitCode : Int) :
    List String × Option String :=
  (stdoutData,
    if exitCode ≠ 0 then some ("Claude CLI exited with code " ++ toString exitCode) else none)

/-- `CodexCliProvider.runCodex`: the one-shot subprocess call of the Codex CLI
provider, abstracted over the subprocess behavior exactly as `runClaude`: on a
nonzero exit code it rejects with the stderr text, otherwise it resolves the
accumulated output trimmed. -/
def runCodex (stdoutData : List String) (exitCode : Int) (stderrData : String) :
    Except String String :=
  if exitCode ≠ 0 then
    .error ("Codex CLI exited with code " ++ toString exitCode ++ ": " ++ stderrData)
  else
    .ok (jsTrim (jsJoin "" stdoutData))

/-- `CodexCliProvider.runCodexStream`: yields every stdout chunk in arrival
order, then, once the process closes, throws iff the exit code was nonzero.
The inactivity-timeout branch is real-time behavior and is not modelled.
Returns the yielded chunks and the terminal error, if any. -/
def runCodexStream (stdoutData : List String) (exitCode : Int) :
    List String × Option String :=
  (stdoutData,
    if exitCode ≠ 0 then some ("Codex CLI exited with code " ++ toString exitCode) else none)

/-! Specification-side helpers (not part of the embedded program): trace
extractors, the token-usage aggregation used to state the accounting
invariant, a substring test, and concrete fixtures for witnesses and
counterexamples. -/

/-- The round tag of a trace event, when it has one. -/
def roundOf : CallEvent → Option Nat
  | .reviewerCall r _ _ _ _ => some r
  | .judgeCall r _ => some r
  | .interactCall r _ => some r
  | _ => none

/-- The `previousRoundsMessages` set recorded for the (first) request built
for reviewer `id` in round `r` of a trace. -/
def visFor (L : List CallEvent) (r : Nat) (id : String) : Option (List DebateMessage) :=
  (L.filterMap fun e => match e with
    | .reviewerCall r' i _ vis _ => if r' = r ∧ i = id then some vis else none
    | _ => none).head?

/-- The (first) request built for reviewer `id` in round `r` of a trace. -/
def reqFor (L : List CallEvent) (r : Nat) (id : String) : Option (List Message) :=
  (L.filterMap fun e => match e with
    | .reviewerCall r' i req _ _ => if r' = r ∧ i = id then some req else none
    | _ => none).head?

/-- The round of a reviewer-request event, if it is one. -/
def revCallRound : CallEvent → Option Nat
  | .reviewerCall r _ _ _ _ => some r
  | _ => none

/-- The round and verdict of a judge-consultation event, if it is one. -/
def judgeOf : CallEvent → Option (Nat × Bool)
  | .judgeCall r v => some (r, v)
  | _ => none

/-- An event that is neither a reviewer request nor a judge consultation. -/
def quietEvent (e : CallEvent) : Prop :=
  revCallRound e = none ∧ judgeOf e = none

/-- The token increment recorded by a trace event, if it is one. -/
def tokensOfEvent : CallEvent → Option (String × Nat × Nat)
  | .tokensEvent id i o => some (id, i, o)
  | _ => none

/-- Fold one event into an accumulated usage map. -/
def aggStep (acc : List (String × Nat × Nat)) (e : CallEvent) : List (String × Nat × Nat) :=
  match tokensOfEvent e with
  | some (id, i, o) => bumpUsage acc id i o
  | none => acc

/-- The usage map determined by the increments recorded in a trace. -/
def aggTokens (events : List CallEvent) : List (String × Nat × Nat) :=
  events.foldl aggStep []

/-- Render a usage map as `getTokenUsage` does. -/
def renderUsage (m : List (String × Nat × Nat)) : List TokenUsage :=
  m.map fun e =>
    { reviewerId := e.1
      inputTokens := e.2.1
      outputTokens := e.2.2
      estimatedCost := ((e.2.1 : ℚ) + (e.2.2 : ℚ)) * (1 / 100000) }

/-- The cumulative (input, output) pair a usage map holds for a participant. -/
def usagePair (m : List (String × Nat × Nat)) (id : String) : Nat × Nat :=
  (alistGet m id).getD (0, 0)

/-- The componentwise sum of a list of (input, output) increments. -/
def sumPairs (l : List (Nat × Nat)) : Nat × Nat :=
  l.foldl (fun p e => (p.1 + e.1, p.2 + e.2)) (0, 0)

/-- Componentwise addition of (input, output) pairs. -/
def addPair (p q : Nat × Nat) : Nat × Nat :=
  (p.1 + q.1, p.2 + q.2)

/-- The token-accounting invariant: the usage map equals the aggregation of
the increments recorded so far in the trace. -/
def usageInv (st : OrchState) : Prop :=
  st.tokenUsage = aggTokens st.log

/-- All (input, output) increments recorded for `id` in a trace, in order. -/
def incrementsFor (L : List CallEvent) (id : String) : List (Nat × Nat) :=
  (L.filterMap tokensOfEvent).filterMap fun e => if e.1 = id then some e.2 else none

/-- Whether `pat` occurs as a contiguous substring (character-wise). -/
def charSub : List Char → List Char → Bool
  | pat, [] => pat.isEmpty
  | pat, c :: rest => pat.isPrefixOf (c :: rest) || charSub pat rest

/-- Whether `pat` occurs inside `s`. -/
def strOccurs (pat s : String) : Bool :=
  charSub pat.toList s.toList

/-- A stateless reviewer fixture answering `resp` to every request. -/
def mkRev (id resp : String) : Reviewer :=
  { id := id, systemPrompt := "sp-" ++ id, supportsSession := false,
    chatFn := fun _ _ => resp }

/-- A session-capable reviewer fixture answering `resp` to every request. -/
def mkRevS (id resp : String) : Reviewer :=
  { id := id, systemPrompt := "sp-" ++ id, supportsSession := true,
    chatFn := fun _ _ => resp }

/-- Two stateless reviewers, two rounds, nothing optional enabled. -/
def envTwo : Orchestrator :=
  { reviewers := [mkRev "a" "ra", mkRev "b" "rb"]
    summarizer := mkRev "summarizer" "SUMM"
    analyzer := mkRev "analyzer" "ANAL"
    maxRounds := 2
    interactive := false
    checkConvergenceOpt := false
    onInteractive := none
    onPostAnalysisQA := none }

/-- Three stateless reviewers, two rounds, no Q&A. -/
def envThree : Orchestrator :=
  { envTwo with reviewers := [mkRev "a" "ra", mkRev "b" "rb", mkRev "c" "rc"] }

/-- Three stateless reviewers with a Q&A phase questioning `a` and `b` only. -/
def envThreeQA : Orchestrator :=
  { envThree with onPostAnalysisQA := some [("@a", "qa1"), ("@b", "qb1")] }

/-- Two stateless reviewers, one round, with a Q&A phase questioning `b`. -/
def envTwoQA : Orchestrator :=
  { envTwo with maxRounds := 1, onPostAnalysisQA := some [("@b", "qq")] }

/-- Interactive fixture whose interjection provider answers `'q'` on the very
first consultation, `"hi"` on the second, and nothing afterwards. -/
def envQuitFirst : Orchestrator :=
  { envTwo with
    interactive := true
    onInteractive :=
      some (fun n => if n = 0 then some "q" else if n = 1 then some "hi" else none) }

/-- Interactive fixture whose interjection provider always answers `'q'`. -/
def envQuitAll : Orchestrator :=
  { envTwo with interactive := true, onInteractive := some (fun _ => some "q") }

/-- Convergence checking enabled over three rounds, with a judge that always
answers `CONVERGED`. -/
def envConv : Orchestrator :=
  { envTwo with
    maxRounds := 3
    checkConvergenceOpt := true
    summarizer := mkRev "summarizer" "CONVERGED" }

/-- One session-backed reviewer. -/
def envSession : Orchestrator :=
  { envTwo with reviewers := [mkRevS "a" "ra"] }

/-- A state in which reviewer `a` has already spoken and has seen everything:
no qualifying new turns exist for it. -/
def stOneSeen : OrchState :=
  { conversationHistory := [⟨"a", "ra", 0⟩]
    tokenUsage := []
    lastSeenIndex := [("a", 0)]
    analysis := "ANAL"
    taskPrompt := "P"
    clock := 1
    log := [] }

/-- The state fields other than the trace (used to state that the trace is
inert: no orchestration decision reads it). -/
def core (st : OrchState) :
    List DebateMessage × List (String × Nat × Nat) × List (String × Int) ×
      String × String × Nat :=
  (st.conversationHistory, st.tokenUsage, st.lastSeenIndex, st.analysis,
    st.taskPrompt, st.clock)

/-- The cross-reviewer visibility symmetry of a trace: any two reviewer
requests of the same round saw the same set of a third author\x27s turns. -/
def visPairOK (L : List CallEvent) : Prop :=
  ∀ (ρ : Nat) (x : String) (reqx : List Message) (visx : List DebateMessage)
    (respx : String) (y : String) (reqy : List Message) (visy : List DebateMessage)
    (respy : String),
    CallEvent.reviewerCall ρ x reqx visx respx ∈ L →
    CallEvent.reviewerCall ρ y reqy visy respy ∈ L →
    ∀ j, j ≠ x → j ≠ y → j ≠ "user" →
      visx.filter (fun m => m.reviewerId == j) =
        visy.filter (fun m => m.reviewerId == j)

/-! Basic lemmas about the state primitives. -/

@[simp]
lemma trackTokens_history (st : OrchState) (id i o : String) :
    (trackTokens st id i o).conversationHistory = st.conversationHistory := rfl

@[simp]
lemma trackTokens_lastSeen (st : OrchState) (id i o : String) :
    (trackTokens st id i o).lastSeenIndex = st.lastSeenIndex := rfl

@[simp]
lemma trackTokens_analysis (st : OrchState) (id i o : String) :
    (trackTokens st id i o).analysis = st.analysis := rfl

@[simp]
lemma trackTokens_taskPrompt (st : OrchState) (id i o : String) :
    (trackTokens st id i o).taskPrompt = st.taskPrompt := rfl

@[simp]
lemma trackTokens_clock (st : OrchState) (id i o : String) :
    (trackTokens st id i o).clock = st.clock := rfl

@[simp]
lemma trackTokens_usage (st : OrchState) (id i o : String) :
    (trackTokens st id i o).tokenUsage =
      bumpUsage st.tokenUsage id (estimateTokens i) (estimateTokens o) := rfl

@[simp]
lemma trackTokens_log (st : OrchState) (id i o : String) :
    (trackTokens st id i o).log =
      st.log ++ [.tokensEvent id (estimateTokens i) (estimateTokens o)] := rfl

@[simp]
lemma pushTurn_history (st : OrchState) (id c : String) :
    (pushTurn st id c).conversationHistory =
      st.conversationHistory ++ [⟨id, c, st.clock⟩] := rfl

@[simp]
lemma pushTurn_lastSeen (st : OrchState) (id c : String) :
    (pushTurn st id c).lastSeenIndex = st.lastSeenIndex := rfl

@[simp]
lemma pushTurn_usage (st : OrchState) (id c : String) :
    (pushTurn st id c).tokenUsage = st.tokenUsage := rfl

@[simp]
lemma pushTurn_log (st : OrchState) (id c : String) :
    (pushTurn st id c).log = st.log := rfl

@[simp]
lemma pushTurn_analysis (st : OrchState) (id c : String) :
    (pushTurn st id c).analysis = st.analysis := rfl

@[simp]
lemma pushTurn_taskPrompt (st : OrchState) (id c : String) :
    (pushTurn st id c).taskPrompt = st.taskPrompt := rfl

@[simp]
lemma pushTurn_clock (st : OrchState) (id c : String) :
    (pushTurn st id c).clock = st.clock + 1 := rfl

@[simp]
lemma markAsSeen_history (st : OrchState) (id : String) :
    (markAsSeen st id).conversationHistory = st.conversationHistory := rfl

@[simp]
lemma markAsSeen_lastSeen (st : OrchState) (id : String) :
    (markAsSeen st id).lastSeenIndex =
      alistSet st.lastSeenIndex id ((st.conversationHistory.length : Int) - 1) := rfl

@[simp]
lemma markAsSeen_usage (st : OrchState) (id : String) :
    (markAsSeen st id).tokenUsage = st.tokenUsage := rfl

@[simp]
lemma markAsSeen_log (st : OrchState) (id : String) :
    (markAsSeen st id).log = st.log := rfl

@[simp]
lemma markAsSeen_analysis (st : OrchState) (id : String) :
    (markAsSeen st id).analysis = st.analysis := rfl

@[simp]
lemma markAsSeen_taskPrompt (st : OrchState) (id : String) :
    (markAsSeen st id).taskPrompt = st.taskPrompt := rfl

@[simp]
lemma markAsSeen_clock (st : OrchState) (id : String) :
    (markAsSeen st id).clock = st.clock := rfl

lemma alistGet_alistSet {α : Type} (m : List (String × α)) (k j : String) (v : α) :
    alistGet (alistSet m k v) j = if k = j then some v else alistGet m j := by
  induction m with
  | nil => simp [alistSet, alistGet]
  | cons e rest ih =>
    obtain ⟨k', v'⟩ := e
    by_cases hk : k' = k
    · subst hk
      by_cases hj : k' = j <;> simp [alistSet, alistGet, hj]
    · by_cases hj : k' = j
      · subst hj
        have : ¬ k = k' := fun h => hk h.symm
        simp [alistSet, alistGet, hk, this]
      · simp [alistSet, alistGet, hk, hj, ih]

/-! ### C5 — the convergence-verdict parser -/

lemma takeWhile_eq_append_iff (p : Char → Bool) :
    ∀ w : List Char, (∀ c ∈ w, p c = true) →
    ∀ l : List Char, l.takeWhile p = w ↔
      ∃ rest, l = w ++ rest ∧ ∀ c, rest.head? = some c → p c = false := by
  intro w
  induction w with
  | nil =>
    intro _ l
    cases l with
    | nil => simp
    | cons c t =>
      by_cases hc : p c
      · simp only [List.takeWhile_cons, hc, if_true]
        constructor
        · intro h; cases h
        · rintro ⟨rest, heq, h⟩
          simp only [List.nil_append] at heq
          subst heq
          have := h c rfl
          rw [hc] at this
          cases this
      · simp only [List.takeWhile_cons, hc]
        constructor
        · intro _
          exact ⟨c :: t, rfl, by intro x hx; cases hx; simpa using hc⟩
        · intro _; simp [hc]
  | cons a w' ih =>
    intro hw l
    have ha : p a = true := hw a (by simp)
    have hw' : ∀ c ∈ w', p c = true := fun c hc => hw c (by simp [hc])
    cases l with
    | nil =>
      constructor
      · intro h; cases h
      · rintro ⟨rest, heq, _⟩; cases heq
    | cons c t =>
      by_cases hc : p c
      · simp only [List.takeWhile_cons, hc, if_true, List.cons_append, List.cons.injEq]
        constructor
        · rintro ⟨rfl, htw⟩
          obtain ⟨rest, rfl, h⟩ := (ih hw' t).mp htw
          exact ⟨rest, ⟨rfl, rfl⟩, h⟩
        · rintro ⟨rest, ⟨rfl, rfl⟩, h⟩
          exact ⟨rfl, (ih hw' (w' ++ rest)).mpr ⟨rest, rfl, h⟩⟩
      · simp only [List.takeWhile_cons, hc]
        constructor
        · intro h; cases h
        · rintro ⟨rest, heq, _⟩
          simp only [List.cons_append, List.cons.injEq] at heq
          rw [heq.1] at hc
          rw [ha] at hc
          cases hc rfl

/-- C5 (amended): `checkConvergence` yields converged exactly when the first
whitespace-delimited token of the trimmed response, compared after
uppercasing, is `CONVERGED`: equivalently, the trimmed-and-uppercased
response is `CONVERGED` followed by nothing or by whitespace. The parser is a
total function, so no response raises an error. -/
theorem claim_C5 (response : String) :
    parseConverged response = true ↔
      ∃ rest : List Char,
        (jsToUpper (jsTrim response)).toList = "CONVERGED".toList ++ rest ∧
          ∀ c, rest.head? = some c → c.isWhitespace = true := by
  unfold parseConverged firstWsToken
  rw [beq_iff_eq]
  have hmk : ∀ l : List Char, String.mk l = "CONVERGED" ↔ l = "CONVERGED".toList := by
    intro l
    constructor
    · intro h; exact congrArg String.toList h
    · intro h; exact congrArg String.mk h
  rw [hmk]
  have hw : ∀ c ∈ "CONVERGED".toList, (!c.isWhitespace) = true := by decide
  rw [takeWhile_eq_append_iff (fun c => !c.isWhitespace) _ hw]
  constructor
  · rintro ⟨rest, heq, h⟩
    exact ⟨rest, heq, fun c hc => by simpa using h c hc⟩
  · rintro ⟨rest, heq, h⟩
    exact ⟨rest, heq, fun c hc => by simpa using h c hc⟩

/-- C5 counterexample: on the response `"converged"` the parser yields
converged, yet the first whitespace-delimited token of the trimmed response is
`"converged"`, which does not equal the token `CONVERGED` — the claim omits
the case-insensitivity introduced by `toUpperCase()`. -/
theorem claim_C5_cex :
    parseConverged "converged" = true ∧
      firstWsToken (jsTrim "converged") ≠ "CONVERGED" := by
  constructor
  · decide
  · decide

/-! ### C9 — the CLI provider streaming/one-shot contract -/

/-- C9 counterexample: with the subprocess emitting the single chunk
`"hello\n"` and exiting 0, `chat` returns the trimmed `"hello"` while the
concatenation of the chunks yielded by `chatStream` is `"hello\n"`; the two
disagree, so chunk concatenation does not equal the one-shot result. The same
input exhibits the same mismatch on the Codex CLI provider. -/
theorem claim_C9_cex :
    runClaude ["hello\n"] 0 "" = .ok "hello" ∧
      jsJoin "" (runClaudeStream ["hello\n"] 0).1 = "hello\n" ∧
      ("hello" : String) ≠ "hello\n" ∧
      (runClaudeStream ["hello\n"] 0).2 = none ∧
      runCodex ["hello\n"] 0 "" = .ok "hello" ∧
      jsJoin "" (runCodexStream ["hello\n"] 0).1 = "hello\n" ∧
      (runCodexStream ["hello\n"] 0).2 = none := by
  refine ⟨rfl, by decide, by decide, rfl, rfl, by decide, rfl⟩

/-- C9 (amended): for every CLI-backed provider of the repository — the
Claude CLI provider and the Codex CLI provider — given the same subprocess
byte sequence, `chat` succeeds exactly when the stream terminates without
error, and the successful `chat` result is the *trimmed* concatenation of the
chunks yielded by `chatStream`. -/
theorem claim_C9 (stdoutData : List String) (stderrData : String) :
    (runClaude stdoutData 0 stderrData =
      .ok (jsTrim (jsJoin "" (runClaudeStream stdoutData 0).1))) ∧
    ((runClaudeStream stdoutData 0).2 = none) ∧
    (∀ exitCode : Int,
      (∃ s, runClaude stdoutData exitCode stderrData = .ok s) ↔
        (runClaudeStream stdoutData exitCode).2 = none) ∧
    (runCodex stdoutData 0 stderrData =
      .ok (jsTrim (jsJoin "" (runCodexStream stdoutData 0).1))) ∧
    ((runCodexStream stdoutData 0).2 = none) ∧
    (∀ exitCode : Int,
      (∃ s, runCodex stdoutData exitCode stderrData = .ok s) ↔
        (runCodexStream stdoutData exitCode).2 = none) := by
  refine ⟨by simp [runClaude, runClaudeStream], by simp [runClaudeStream], ?_,
    by simp [runCodex, runCodexStream], by simp [runCodexStream], ?_⟩
  · intro exitCode
    by_cases h : exitCode = 0
    · subst h
      simp [runClaude, runClaudeStream]
    · simp [runClaude, runClaudeStream, h]
  · intro exitCode
    by_cases h : exitCode = 0
    · subst h
      simp [runCodex, runCodexStream]
    · simp [runCodex, runCodexStream, h]

/-! ### C8 — totality of the Visibility Policy -/

/-- C8: `buildMessages` is a total function (the embedding is a Lean function,
so it cannot raise) returning a nonempty request for every reviewer id and
every state; in particular a session-backed reviewer past its first call with
no qualifying new turns receives exactly the explicit continue instruction. -/
theorem claim_C8 (env : Orchestrator) (sessionsActive : Bool) (st : OrchState)
    (id : String) :
    buildMessages env sessionsActive st id ≠ [] ∧
      (hasSessionFor env sessionsActive id = true →
        isFirstCallFor st id = false →
        newVisible st id = [] →
        buildMessages env sessionsActive st id =
          [⟨.user, "Please continue with your review."⟩]) := by
  constructor
  · unfold buildMessages buildMessagesV
    by_cases h1 : isFirstCallFor st id
    · simp [h1]
    · simp only [Bool.not_eq_true] at h1
      by_cases h2 : hasSessionFor env sessionsActive id
      · by_cases h3 : newVisible st id = [] <;> simp [h1, h2, h3]
      · simp only [Bool.not_eq_true] at h2
        simp [h1, h2]
  · intro h2 h1 h3
    unfold buildMessages buildMessagesV
    simp [h1, h2, h3]

/-! ### C10 — invalid Q&A targets are skipped without side effects -/

lemma runQALoop_core_congr (env : Orchestrator) :
    ∀ (qs : List (String × String)) (st₁ st₂ : OrchState), core st₁ = core st₂ →
      core (runQALoop env qs st₁) = core (runQALoop env qs st₂) := by
  intro qs
  induction qs with
  | nil => intro st₁ st₂ h; exact h
  | cons item rest ih =>
    obtain ⟨target, question⟩ := item
    intro st₁ st₂ h
    obtain ⟨e1, e2, e3, e4, e5, e6⟩ : st₁.conversationHistory = st₂.conversationHistory ∧
        st₁.tokenUsage = st₂.tokenUsage ∧ st₁.lastSeenIndex = st₂.lastSeenIndex ∧
        st₁.analysis = st₂.analysis ∧ st₁.taskPrompt = st₂.taskPrompt ∧
        st₁.clock = st₂.clock := by
      simpa [core, Prod.ext_iff] using h
    unfold runQALoop
    cases hfind : qaFindTarget env target with
    | none =>
      apply ih
      simp [core, e1, e2, e3, e4, e5, e6]
    | some tr =>
      apply ih
      simp [core, e1, e2, e3, e4, e5, e6]

/-- C10: a Q&A question whose target (after stripping at most one leading `@`,
compared case-insensitively) matches no reviewer is skipped: processing it is
exactly processing the rest of the questions with only a trace note added, so
the conversation history, the per-reviewer cursors, the token usage table and
the clock are left unchanged and the loop continues. The last conjuncts pin
the stripping rule (exactly one leading `@` is removed) and the
case-insensitive, `@`-optional match on a concrete reviewer set. -/
theorem claim_C10 (env : Orchestrator) (target question : String)
    (rest : List (String × String)) (st : OrchState)
    (hmiss : qaFindTarget env target = none) :
    (runQALoop env ((target, question) :: rest) st =
      runQALoop env rest { st with log := st.log ++ [.qaCall target none] }) ∧
    core (runQALoop env ((target, question) :: rest) st) =
      core (runQALoop env rest st) ∧
    stripLeadingAt "@gemini" = "gemini" ∧
    stripLeadingAt "@@gemini" = "@gemini" ∧
    stripLeadingAt "gemini" = "gemini" ∧
    ((qaFindTarget envTwo "@B").map fun r => r.id) = some "b" ∧
    ((qaFindTarget envTwo "A").map fun r => r.id) = some "a" := by
  have h1 : runQALoop env ((target, question) :: rest) st =
      runQALoop env rest { st with log := st.log ++ [.qaCall target none] } := by
    conv_lhs => rw [runQALoop, hmiss]
  refine ⟨h1, ?_, by decide, by decide, by decide, by decide, by decide⟩
  rw [h1]
  exact runQALoop_core_congr env rest _ _ (by simp [core])

/-- C10 witness: a question addressed to the unknown reviewer `@zed` leaves
the run state unchanged. -/
theorem claim_C10_witness :
    qaFindTarget envTwo "@zed" = none ∧
    runQALoop envTwo [("@zed", "who?")] (initState "P") =
      runQALoop envTwo []
        { initState "P" with log := (initState "P").log ++ [.qaCall "@zed" none] } ∧
    core (runQALoop envTwo [("@zed", "who?")] (initState "P")) =
      core (runQALoop envTwo [] (initState "P")) := by
  refine ⟨rfl, ?_, ?_⟩
  · exact (claim_C10 envTwo "@zed" "who?" [] (initState "P") rfl).1
  · exact (claim_C10 envTwo "@zed" "who?" [] (initState "P") rfl).2.1

/-! ### Closed counterexamples for C1, C2, C6 -/

/-- C1 counterexample: in a streaming run with three reviewers where the
post-analysis Q&A questioned `a` and `b` (but not `c`), the round-2 requests
of reviewers `a` and `c` include *different* sets of reviewer `b`'s turns:
`a` sees two of `b`'s turns (the Q&A answer and the round-1 review) while `c`
sees only one (the Q&A answer) — the rendered requests contain `[b]: rb`
twice and once respectively. -/
theorem claim_C1_cex :
    (visFor (runS envThreeQA "L" "P").2 2 "a").isSome = true ∧
    (visFor (runS envThreeQA "L" "P").2 2 "c").isSome = true ∧
    (((visFor (runS envThreeQA "L" "P").2 2 "a").getD []).filter
        fun m => m.reviewerId == "b") ≠
      (((visFor (runS envThreeQA "L" "P").2 2 "c").getD []).filter
        fun m => m.reviewerId == "b") ∧
    (((reqFor (runS envThreeQA "L" "P").2 2 "a").getD []).count ⟨.user, "[b]: rb"⟩) = 2 ∧
    (((reqFor (runS envThreeQA "L" "P").2 2 "c").getD []).count ⟨.user, "[b]: rb"⟩) = 1 := by
  refine ⟨by decide, by decide, by decide, by decide, by decide⟩

/-- C2 counterexample: in a streaming run where the post-analysis Q&A
questioned reviewer `b`, the round-1 request built for `b` is no longer its
first call, so it takes the debate-framing branch and names the other
reviewer: the substring `[a]` occurs in it. -/
theorem claim_C2_cex :
    (reqFor (runS envTwoQA "L" "P").2 1 "b").isSome = true ∧
    strOccurs "[a]"
      ((((reqFor (runS envTwoQA "L" "P").2 1 "b").getD []).headD ⟨.user, ""⟩).content) =
      true := by
  refine ⟨by decide, by decide⟩

/-- C6 counterexample: in a buffered `run` whose interjection provider answers
`'q'` on the very first consultation (before any request of round 1), the
round loop does *not* stop: round 2 is still consulted (receiving `"hi"`,
which is committed as a human turn) and both reviewers execute in round 2 —
`'q'` only breaks the inner per-reviewer loop of the current round. -/
theorem claim_C6_cex :
    (envQuitFirst.onInteractive.getD fun _ => none) 0 = some "q" ∧
    ((runB envQuitFirst "L" "P").2.filterMap fun e => match e with
      | .reviewerCall r i _ _ _ => some (r, i)
      | _ => none) = [(2, "a"), (2, "b")] ∧
    ((runB envQuitFirst "L" "P").1.messages.map fun m => m.reviewerId) =
      ["user", "a", "b"] := by
  refine ⟨by decide, by decide, by decide⟩

/-! ### C3 — committed turns of a run without convergence or interaction -/

lemma interactStep_noninteractive (env : Orchestrator) (st : OrchState) (ictr round : Nat)
    (h : env.interactive = false) :
    interactStep env st ictr round = (st, ictr, false) := by
  unfold interactStep
  rw [h]

lemma reviewerStepB_history (env : Orchestrator) (round : Nat) (r : Reviewer)
    (st : OrchState) :
    (reviewerStepB env round r st).conversationHistory =
      st.conversationHistory ++
        [⟨r.id, r.chatFn (buildMessagesV env false st r.id).1 r.systemPrompt, st.clock⟩] := rfl

lemma reviewerStepB_analysis (env : Orchestrator) (round : Nat) (r : Reviewer)
    (st : OrchState) :
    (reviewerStepB env round r st).analysis = st.analysis := rfl

lemma reviewerStepB_taskPrompt (env : Orchestrator) (round : Nat) (r : Reviewer)
    (st : OrchState) :
    (reviewerStepB env round r st).taskPrompt = st.taskPrompt := rfl

lemma reviewerStepB_lastSeen (env : Orchestrator) (round : Nat) (r : Reviewer)
    (st : OrchState) :
    (reviewerStepB env round r st).lastSeenIndex =
      alistSet st.lastSeenIndex r.id
        (((st.conversationHistory ++
            [DebateMessage.mk r.id
              (r.chatFn (buildMessagesV env false st r.id).1 r.systemPrompt)
              st.clock]).length : Int) - 1) := rfl

lemma reviewerStepB_log (env : Orchestrator) (round : Nat) (r : Reviewer)
    (st : OrchState) :
    (reviewerStepB env round r st).log =
      st.log ++
        [.reviewerCall round r.id (buildMessagesV env false st r.id).1
            (buildMessagesV env false st r.id).2
            (r.chatFn (buildMessagesV env false st r.id).1 r.systemPrompt),
          .tokensEvent r.id
            (estimateTokens (jsJoin "\n"
              ((buildMessagesV env false st r.id).1.map (·.content)) ++ r.systemPrompt))
            (estimateTokens (r.chatFn (buildMessagesV env false st r.id).1 r.systemPrompt))] := by
  simp [reviewerStepB, List.append_assoc]

lemma reviewerStepB_usage (env : Orchestrator) (round : Nat) (r : Reviewer)
    (st : OrchState) :
    (reviewerStepB env round r st).tokenUsage =
      bumpUsage st.tokenUsage r.id
        (estimateTokens (jsJoin "\n"
          ((buildMessagesV env false st r.id).1.map (·.content)) ++ r.systemPrompt))
        (estimateTokens (r.chatFn (buildMessagesV env false st r.id).1 r.systemPrompt)) := rfl

lemma runReviewersB_history_ids (env : Orchestrator) (round : Nat)
    (h : env.interactive = false) :
    ∀ (revs : List Reviewer) (st : OrchState) (ictr : Nat),
      ((runReviewersB env round revs st ictr).1.conversationHistory.map
          fun m => m.reviewerId) =
        (st.conversationHistory.map fun m => m.reviewerId) ++ revs.map (·.id) := by
  intro revs
  induction revs with
  | nil => intro st ictr; simp [runReviewersB]
  | cons r rest ih =>
    intro st ictr
    rw [runReviewersB, interactStep_noninteractive env st ictr round h]
    simp [ih, reviewerStepB_history]

lemma collectSummaries_history (env : Orchestrator) (sA : Bool) :
    ∀ (revs : List Reviewer) (st : OrchState),
      (collectSummaries env sA revs st).1.conversationHistory =
        st.conversationHistory := by
  intro revs
  induction revs with
  | nil => intro st; rfl
  | cons r rest ih =>
    intro st
    rw [collectSummaries]
    simpa using ih _

lemma collectSummaries_length (env : Orchestrator) (sA : Bool) :
    ∀ (revs : List Reviewer) (st : OrchState),
      (collectSummaries env sA revs st).2.length = revs.length := by
  intro revs
  induction revs with
  | nil => intro st; rfl
  | cons r rest ih =>
    intro st
    rw [collectSummaries]
    simpa using ih _

lemma getFinalConclusion_history (env : Orchestrator) (st : OrchState)
    (ss : List DebateSummary) :
    (getFinalConclusion env st ss).1.conversationHistory = st.conversationHistory := rfl

lemma runRoundsB_plain (env : Orchestrator)
    (h : env.interactive = false) (hc : env.checkConvergenceOpt = false) :
    ∀ (rem : Nat) (st : OrchState) (ictr round : Nat),
      (((runRoundsB env rem st ictr round).1.conversationHistory.map
          fun m => m.reviewerId) =
        (st.conversationHistory.map fun m => m.reviewerId) ++
          (List.replicate rem (env.reviewers.map (·.id))).flatten) ∧
      (runRoundsB env rem st ictr round).2.2 = none := by
  intro rem
  induction rem with
  | zero => intro st ictr round; simp [runRoundsB]
  | succ n ih =>
    intro st ictr round
    rw [runRoundsB]
    simp only [hc, Bool.false_and, Bool.false_eq_true, if_false]
    refine ⟨?_, (ih _ _ _).2⟩
    rw [(ih _ _ _).1, runReviewersB_history_ids env round h]
    simp [List.replicate_succ, List.append_assoc]

lemma commitTasks_history_ids :
    ∀ (tasks : List RoundTask) (st : OrchState),
      ((tasks.foldl commitTask st).conversationHistory.map fun m => m.reviewerId) =
        (st.conversationHistory.map fun m => m.reviewerId) ++
          tasks.map (·.reviewer.id) := by
  intro tasks
  induction tasks with
  | nil => intro st; simp
  | cons t rest ih =>
    intro st
    simp only [List.foldl_cons, List.map_cons]
    rw [ih]
    simp [commitTask, List.append_assoc]

lemma roundBodyS_history_ids (env : Orchestrator) (st : OrchState) (round : Nat) :
    ((roundBodyS env st round).conversationHistory.map fun m => m.reviewerId) =
      (st.conversationHistory.map fun m => m.reviewerId) ++
        env.reviewers.map (·.id) := by
  unfold roundBodyS
  rw [commitTasks_history_ids]
  simp [roundTasksS, List.map_map, Function.comp]

lemma runRoundsS_plain (env : Orchestrator)
    (h : env.interactive = false) (hc : env.checkConvergenceOpt = false) :
    ∀ (rem : Nat) (st : OrchState) (ictr round : Nat),
      (((runRoundsS env rem st ictr round).1.conversationHistory.map
          fun m => m.reviewerId) =
        (st.conversationHistory.map fun m => m.reviewerId) ++
          (List.replicate rem (env.reviewers.map (·.id))).flatten) ∧
      (runRoundsS env rem st ictr round).2.2 = none := by
  intro rem
  induction rem with
  | zero => intro st ictr round; simp [runRoundsS]
  | succ n ih =>
    intro st ictr round
    rw [runRoundsS, interactStep_noninteractive env st ictr round h]
    simp only [hc, Bool.false_and, Bool.false_eq_true, if_false]
    refine ⟨?_, (ih _ _ _).2⟩
    rw [(ih _ _ _).1, roundBodyS_history_ids]
    simp [List.replicate_succ, List.append_assoc]

/-- C3: a non-interactive run with two reviewers, convergence checking
disabled and no Q&A phase commits exactly `maxRounds × 2` reviewer turns, in
round order, each round contributing one turn per reviewer in
constructor-listed order — for both the buffered `run` and `runStreaming`. -/
theorem claim_C3 (env : Orchestrator) (label prompt : String)
    (hint : env.interactive = false) (hconv : env.checkConvergenceOpt = false)
    (hqa : env.onPostAnalysisQA = none) (hn : env.reviewers.length = 2)
    (hr : 1 ≤ env.maxRounds) :
    (((runB env label prompt).1.messages.map fun m => m.reviewerId) =
      (List.replicate env.maxRounds (env.reviewers.map (·.id))).flatten) ∧
    (runB env label prompt).1.messages.length = env.maxRounds * 2 ∧
    (((runS env label prompt).1.messages.map fun m => m.reviewerId) =
      (List.replicate env.maxRounds (env.reviewers.map (·.id))).flatten) ∧
    (runS env label prompt).1.messages.length = env.maxRounds * 2 := by
  have hB : ((runB env label prompt).1.messages.map fun m => m.reviewerId) =
      (List.replicate env.maxRounds (env.reviewers.map (·.id))).flatten := by
    unfold runB fcB summB loopB preStB
    simp only [getFinalConclusion_history, collectSummaries_history]
    rw [(runRoundsB_plain env hint hconv _ _ _ _).1]
    simp [preAnalyze, initState]
  have hS : ((runS env label prompt).1.messages.map fun m => m.reviewerId) =
      (List.replicate env.maxRounds (env.reviewers.map (·.id))).flatten := by
    unfold runS fcS summS loopS preStS preAnalyzedS
    rw [hqa]
    simp only [getFinalConclusion_history, collectSummaries_history]
    rw [(runRoundsS_plain env hint hconv _ _ _ _).1]
    simp [initState]
  have hlen : ((List.replicate env.maxRounds (env.reviewers.map (·.id))).flatten).length =
      env.maxRounds * 2 := by
    simp [List.length_flatten, List.map_replicate, List.sum_replicate, smul_eq_mul, hn]
  refine ⟨hB, ?_, hS, ?_⟩
  · have := congrArg List.length hB
    simpa [hlen] using this
  · have := congrArg List.length hS
    simpa [hlen] using this

/-- C3 witness: the two-reviewer fixture with `maxRounds = 2` commits exactly
the four turns `a, b, a, b`. -/
theorem claim_C3_witness :
    (envTwo.interactive = false ∧ envTwo.checkConvergenceOpt = false ∧
      envTwo.onPostAnalysisQA = none ∧ envTwo.reviewers.length = 2 ∧
      1 ≤ envTwo.maxRounds) ∧
    ((runB envTwo "L" "P").1.messages.map fun m => m.reviewerId) =
      (List.replicate envTwo.maxRounds (envTwo.reviewers.map (·.id))).flatten ∧
    (runS envTwo "L" "P").1.messages.length = envTwo.maxRounds * 2 := by
  refine ⟨⟨rfl, rfl, rfl, rfl, by decide⟩, ?_, ?_⟩
  · exact (claim_C3 envTwo "L" "P" rfl rfl rfl rfl (by decide)).1
  · exact (claim_C3 envTwo "L" "P" rfl rfl rfl rfl (by decide)).2.2.2

/-! ### C4 — early stop on a converged verdict -/

lemma checkConvergenceRun_decomp (env : Orchestrator) (st : OrchState) (round : Nat) :
    ∃ J, (checkConvergenceRun env st round).1 = { st with log := st.log ++ J } ∧
      (J = [] ∧ (checkConvergenceRun env st round).2 = false ∨
        J = [.judgeCall round (checkConvergenceRun env st round).2]) := by
  by_cases h1 : st.conversationHistory.length < env.reviewers.length
  · refine ⟨[], ?_, Or.inl ⟨rfl, ?_⟩⟩ <;> simp [checkConvergenceRun, h1]
  · by_cases h2 : st.conversationHistory.length / env.reviewers.length < 2
    · refine ⟨[], ?_, Or.inl ⟨rfl, ?_⟩⟩ <;> simp [checkConvergenceRun, h1, h2]
    · refine ⟨[.judgeCall round (checkConvergenceRun env st round).2], ?_, Or.inr rfl⟩
      simp [checkConvergenceRun, h1, h2]

lemma checkConvergenceRun_history (env : Orchestrator) (st : OrchState) (round : Nat) :
    (checkConvergenceRun env st round).1.conversationHistory =
      st.conversationHistory := by
  obtain ⟨J, hJ, -⟩ := checkConvergenceRun_decomp env st round
  rw [hJ]

lemma interactStep_mem (env : Orchestrator) (st : OrchState) (ictr round : Nat) :
    ∀ e ∈ (interactStep env st ictr round).1.log, e ∈ st.log ∨ quietEvent e := by
  unfold interactStep
  cases hi : env.interactive
  · exact fun e he => Or.inl he
  · cases ho : env.onInteractive with
    | none => exact fun e he => Or.inl he
    | some f =>
      intro e he
      have he' : e ∈ st.log ++ [CallEvent.interactCall round (f ictr)] := by
        rcases hr : f ictr with _ | s
        · simpa [hr] using he
        · by_cases hq : (some s = some "q")
          · simpa [hr, hq] using he
          · by_cases hs : s = "" <;> simpa [hr, hq, hs] using he
      rcases List.mem_append.mp he' with h | h
      · exact Or.inl h
      · simp only [List.mem_singleton] at h
        subst h
        exact Or.inr ⟨rfl, rfl⟩

lemma runReviewersB_mem (env : Orchestrator) (round : Nat) :
    ∀ (revs : List Reviewer) (st : OrchState) (ictr : Nat),
      ∀ e ∈ (runReviewersB env round revs st ictr).1.log,
        e ∈ st.log ∨
          ((∀ r', revCallRound e = some r' → r' = round) ∧ judgeOf e = none) := by
  intro revs
  induction revs with
  | nil => intro st ictr e he; exact Or.inl he
  | cons r rest ih =>
    intro st ictr e he
    rw [runReviewersB] at he
    by_cases hb : (interactStep env st ictr round).2.2 = true
    · rw [if_pos hb] at he
      rcases interactStep_mem env st ictr round e he with h | h
      · exact Or.inl h
      · exact Or.inr ⟨fun r' hr' => (by rw [h.1] at hr'; cases hr'), h.2⟩
    · rw [if_neg hb] at he
      rcases ih _ _ e he with h | h
      · rw [reviewerStepB_log] at h
        rcases List.mem_append.mp h with h | h
        · rcases interactStep_mem env st ictr round e h with h' | h'
          · exact Or.inl h'
          · exact Or.inr ⟨fun r' hr' => (by rw [h'.1] at hr'; cases hr'), h'.2⟩
        · simp only [List.mem_cons, List.mem_singleton] at h
          rcases h with h | h | h
          · subst h
            exact Or.inr ⟨fun r' hr' => (by
              simp only [revCallRound, Option.some.injEq] at hr'
              omega), rfl⟩
          · subst h; exact Or.inr ⟨fun r' hr' => (by cases hr'), rfl⟩
          · cases h
      · exact Or.inr h

lemma commitTasks_mem :
    ∀ (tasks : List RoundTask) (st : OrchState),
      ∀ e ∈ (tasks.foldl commitTask st).log, e ∈ st.log ∨ quietEvent e := by
  intro tasks
  induction tasks with
  | nil => intro st e he; exact Or.inl he
  | cons t rest ih =>
    intro st e he
    simp only [List.foldl_cons] at he
    rcases ih _ e he with h | h
    · have : e ∈ st.log ++ [CallEvent.tokensEvent t.reviewer.id
          (estimateTokens (jsJoin "\n" (t.request.map (·.content)) ++ t.reviewer.systemPrompt))
          (estimateTokens t.response)] := by
        simpa [commitTask] using h
      rcases List.mem_append.mp this with h' | h'
      · exact Or.inl h'
      · simp only [List.mem_singleton] at h'
        subst h'
        exact Or.inr ⟨rfl, rfl⟩
    · exact Or.inr h

lemma roundBodyS_mem (env : Orchestrator) (st : OrchState) (round : Nat) :
    ∀ e ∈ (roundBodyS env st round).log,
      e ∈ st.log ∨
        ((∀ r', revCallRound e = some r' → r' = round) ∧ judgeOf e = none) := by
  intro e he
  unfold roundBodyS at he
  rcases commitTasks_mem _ _ e he with h | h
  · rcases List.mem_append.mp h with h' | h'
    · exact Or.inl h'
    · obtain ⟨t, -, rfl⟩ := List.mem_map.mp h'
      exact Or.inr ⟨fun r' hr' => (by
        simp only [revCallRound, Option.some.injEq] at hr'
        omega), rfl⟩
  · exact Or.inr ⟨fun r' hr' => (by rw [h.1] at hr'; cases hr'), h.2⟩

lemma runRoundsB_mem (env : Orchestrator) :
    ∀ (rem : Nat) (st : OrchState) (ictr round : Nat),
      (∀ e ∈ (runRoundsB env rem st ictr round).1.log,
        e ∈ st.log ∨
          ((∀ r', revCallRound e = some r' → round ≤ r') ∧
            (∀ r' v, judgeOf e = some (r', v) →
              round ≤ r' ∧ r' < env.maxRounds ∧ env.checkConvergenceOpt = true))) ∧
      (∀ k, (runRoundsB env rem st ictr round).2.2 = some k →
        round ≤ k ∧ k < env.maxRounds ∧ env.checkConvergenceOpt = true ∧
        ∀ e ∈ (runRoundsB env rem st ictr round).1.log,
          e ∈ st.log ∨
            ((∀ r', revCallRound e = some r' → r' ≤ k) ∧
              (∀ r' v, judgeOf e = some (r', v) → r' ≤ k))) ∧
      (∀ k, CallEvent.judgeCall k true ∈ (runRoundsB env rem st ictr round).1.log →
        CallEvent.judgeCall k true ∈ st.log ∨
          (runRoundsB env rem st ictr round).2.2 = some k) := by
  intro rem
  induction rem with
  | zero =>
    intro st ictr round
    refine ⟨fun e he => Or.inl he, fun k hk => (by cases hk), fun k hk => Or.inl hk⟩
  | succ n ih =>
    intro st ictr round
    have hinner := runReviewersB_mem env round env.reviewers st ictr
    rw [runRoundsB]
    by_cases hc : (env.checkConvergenceOpt && decide (round < env.maxRounds)) = true
    · obtain ⟨hopt, hlt⟩ : env.checkConvergenceOpt = true ∧ round < env.maxRounds := by
        simpa [Bool.and_eq_true, decide_eq_true_eq] using hc
      rw [if_pos hc]
      obtain ⟨J, hJst, hJ⟩ :=
        checkConvergenceRun_decomp env (runReviewersB env round env.reviewers st ictr).1 round
      have hconvmem : ∀ e ∈ (checkConvergenceRun env
          (runReviewersB env round env.reviewers st ictr).1 round).1.log,
          e ∈ st.log ∨
            ((∀ r', revCallRound e = some r' → r' = round) ∧ judgeOf e = none) ∨
            e = CallEvent.judgeCall round (checkConvergenceRun env
              (runReviewersB env round env.reviewers st ictr).1 round).2 := by
        intro e he
        rw [hJst] at he
        rcases List.mem_append.mp he with h | h
        · rcases hinner e h with h' | h'
          · exact Or.inl h'
          · exact Or.inr (Or.inl h')
        · rcases hJ with ⟨hnil, -⟩ | hJe
          · rw [hnil] at h; cases h
          · rw [hJe] at h
            simp only [List.mem_singleton] at h
            exact Or.inr (Or.inr h)
      by_cases hv : (checkConvergenceRun env
          (runReviewersB env round env.reviewers st ictr).1 round).2 = true
      · rw [if_pos hv]
        refine ⟨?_, ?_, ?_⟩
        · intro e he
          rcases hconvmem e he with h | h | h
          · exact Or.inl h
          · exact Or.inr ⟨fun r' hr' => le_of_eq (h.1 r' hr').symm,
              fun r' v hr' => by rw [h.2] at hr'; cases hr'⟩
          · subst h
            exact Or.inr ⟨fun r' hr' => (by cases hr'),
              fun r' v hr' => by
                simp only [judgeOf, Option.some.injEq, Prod.mk.injEq] at hr'
                exact ⟨le_of_eq hr'.1, by omega, hopt⟩⟩
        · intro k hk
          simp only [Option.some.injEq] at hk
          subst hk
          refine ⟨le_refl _, hlt, hopt, ?_⟩
          intro e he
          rcases hconvmem e he with h | h | h
          · exact Or.inl h
          · exact Or.inr ⟨fun r' hr' => le_of_eq (h.1 r' hr'),
              fun r' v hr' => by rw [h.2] at hr'; cases hr'⟩
          · subst h
            exact Or.inr ⟨fun r' hr' => (by cases hr'),
              fun r' v hr' => by
                simp only [judgeOf, Option.some.injEq, Prod.mk.injEq] at hr'
                omega⟩
        · intro k hk
          rcases hconvmem _ hk with h | h | h
          · exact Or.inl h
          · exact absurd h.2 (by simp [judgeOf])
          · rw [hv] at h
            simp only [CallEvent.judgeCall.injEq] at h
            exact Or.inr (by simp [h.1])
      · rw [if_neg hv]
        obtain ⟨ih1, ih2, ih3⟩ :=
          ih (checkConvergenceRun env (runReviewersB env round env.reviewers st ictr).1
              round).1
            (runReviewersB env round env.reviewers st ictr).2 (round + 1)
        refine ⟨?_, ?_, ?_⟩
        · intro e he
          rcases ih1 e he with h | h
          · rcases hconvmem e h with h' | h' | h'
            · exact Or.inl h'
            · exact Or.inr ⟨fun r' hr' => le_of_eq (h'.1 r' hr').symm,
                fun r' v hr' => by rw [h'.2] at hr'; cases hr'⟩
            · subst h'
              exact Or.inr ⟨fun r' hr' => (by cases hr'),
                fun r' v hr' => by
                  simp only [judgeOf, Option.some.injEq, Prod.mk.injEq] at hr'
                  exact ⟨le_of_eq hr'.1, by omega, hopt⟩⟩
          · exact Or.inr ⟨fun r' hr' => le_trans (by omega) (h.1 r' hr'),
              fun r' v hr' => by
                obtain ⟨h1, h2, h3⟩ := h.2 r' v hr'
                exact ⟨by omega, h2, h3⟩⟩
        · intro k hk
          obtain ⟨hk1, hk2, hk3, hk4⟩ := ih2 k hk
          refine ⟨by omega, hk2, hk3, ?_⟩
          intro e he
          rcases hk4 e he with h | h
          · rcases hconvmem e h with h' | h' | h'
            · exact Or.inl h'
            · exact Or.inr ⟨fun r' hr' => (by have := h'.1 r' hr'; omega),
                fun r' v hr' => by rw [h'.2] at hr'; cases hr'⟩
            · subst h'
              exact Or.inr ⟨fun r' hr' => (by cases hr'),
                fun r' v hr' => by
                  simp only [judgeOf, Option.some.injEq, Prod.mk.injEq] at hr'
                  omega⟩
          · exact Or.inr h
        · intro k hk
          rcases ih3 k hk with h | h
          · rcases hconvmem _ h with h' | h' | h'
            · exact Or.inl h'
            · exact absurd h'.2 (by simp [judgeOf])
            · simp only [Bool.not_eq_true] at hv
              rw [hv] at h'
              simp only [CallEvent.judgeCall.injEq] at h'
              cases h'.2
          · exact Or.inr h
    · rw [if_neg hc]
      obtain ⟨ih1, ih2, ih3⟩ :=
        ih (runReviewersB env round env.reviewers st ictr).1
          (runReviewersB env round env.reviewers st ictr).2 (round + 1)
      refine ⟨?_, ?_, ?_⟩
      · intro e he
        rcases ih1 e he with h | h
        · rcases hinner e h with h' | h'
          · exact Or.inl h'
          · exact Or.inr ⟨fun r' hr' => le_of_eq (h'.1 r' hr').symm,
              fun r' v hr' => by rw [h'.2] at hr'; cases hr'⟩
        · exact Or.inr ⟨fun r' hr' => le_trans (by omega) (h.1 r' hr'),
            fun r' v hr' => by
              obtain ⟨h1, h2, h3⟩ := h.2 r' v hr'
              exact ⟨by omega, h2, h3⟩⟩
      · intro k hk
        obtain ⟨hk1, hk2, hk3, hk4⟩ := ih2 k hk
        refine ⟨by omega, hk2, hk3, ?_⟩
        intro e he
        rcases hk4 e he with h | h
        · rcases hinner e h with h' | h'
          · exact Or.inl h'
          · exact Or.inr ⟨fun r' hr' => by have := h'.1 r' hr'; omega,
              fun r' v hr' => by rw [h'.2] at hr'; cases hr'⟩
        · exact Or.inr h
      · intro k hk
        rcases ih3 k hk with h | h
        · rcases hinner _ h with h' | h'
          · exact Or.inl h'
          · exact absurd h'.2 (by simp [judgeOf])
        · exact Or.inr h

lemma runRoundsS_mem (env : Orchestrator) :
    ∀ (rem : Nat) (st : OrchState) (ictr round : Nat),
      (∀ e ∈ (runRoundsS env rem st ictr round).1.log,
        e ∈ st.log ∨
          ((∀ r', revCallRound e = some r' → round ≤ r') ∧
            (∀ r' v, judgeOf e = some (r', v) →
              round ≤ r' ∧ r' < env.maxRounds ∧ env.checkConvergenceOpt = true))) ∧
      (∀ k, (runRoundsS env rem st ictr round).2.2 = some k →
        round ≤ k ∧ k < env.maxRounds ∧ env.checkConvergenceOpt = true ∧
        ∀ e ∈ (runRoundsS env rem st ictr round).1.log,
          e ∈ st.log ∨
            ((∀ r', revCallRound e = some r' → r' ≤ k) ∧
              (∀ r' v, judgeOf e = some (r', v) → r' ≤ k))) ∧
      (∀ k, CallEvent.judgeCall k true ∈ (runRoundsS env rem st ictr round).1.log →
        CallEvent.judgeCall k true ∈ st.log ∨
          (runRoundsS env rem st ictr round).2.2 = some k) := by
  intro rem
  induction rem with
  | zero =>
    intro st ictr round
    refine ⟨fun e he => Or.inl he, fun k hk => (by cases hk), fun k hk => Or.inl hk⟩
  | succ n ih =>
    intro st ictr round
    rw [runRoundsS]
    by_cases hb : (interactStep env st ictr round).2.2 = true
    · rw [if_pos hb]
      refine ⟨?_, fun k hk => (by cases hk), ?_⟩
      · intro e he
        rcases interactStep_mem env st ictr round e he with h | h
        · exact Or.inl h
        · exact Or.inr ⟨fun r' hr' => (by rw [h.1] at hr'; cases hr'),
            fun r' v hr' => by rw [h.2] at hr'; cases hr'⟩
      · intro k hk
        rcases interactStep_mem env st ictr round _ hk with h | h
        · exact Or.inl h
        · exact absurd h.2 (by simp [judgeOf])
    · rw [if_neg hb]
      dsimp only
      have hbody := roundBodyS_mem env (interactStep env st ictr round).1 round
      have hbodyst : ∀ e ∈ (roundBodyS env (interactStep env st ictr round).1 round).log,
          e ∈ st.log ∨
            ((∀ r', revCallRound e = some r' → r' = round) ∧ judgeOf e = none) := by
        intro e he
        rcases hbody e he with h | h
        · rcases interactStep_mem env st ictr round e h with h' | h'
          · exact Or.inl h'
          · exact Or.inr ⟨fun r' hr' => (by rw [h'.1] at hr'; cases hr'), h'.2⟩
        · exact Or.inr h
      by_cases hc : (env.checkConvergenceOpt && decide (round < env.maxRounds)) = true
      · obtain ⟨hopt, hlt⟩ : env.checkConvergenceOpt = true ∧ round < env.maxRounds := by
          simpa [Bool.and_eq_true, decide_eq_true_eq] using hc
        rw [if_pos hc]
        obtain ⟨J, hJst, hJ⟩ := checkConvergenceRun_decomp env
          (roundBodyS env (interactStep env st ictr round).1 round) round
        have hconvmem : ∀ e ∈ (checkConvergenceRun env
            (roundBodyS env (interactStep env st ictr round).1 round) round).1.log,
            e ∈ st.log ∨
              ((∀ r', revCallRound e = some r' → r' = round) ∧ judgeOf e = none) ∨
              e = CallEvent.judgeCall round (checkConvergenceRun env
                (roundBodyS env (interactStep env st ictr round).1 round) round).2 := by
          intro e he
          rw [hJst] at he
          rcases List.mem_append.mp he with h | h
          · rcases hbodyst e h with h' | h'
            · exact Or.inl h'
            · exact Or.inr (Or.inl h')
          · rcases hJ with ⟨hnil, -⟩ | hJe
            · rw [hnil] at h; cases h
            · rw [hJe] at h
              simp only [List.mem_singleton] at h
              exact Or.inr (Or.inr h)
        by_cases hv : (checkConvergenceRun env
            (roundBodyS env (interactStep env st ictr round).1 round) round).2 = true
        · rw [if_pos hv]
          refine ⟨?_, ?_, ?_⟩
          · intro e he
            rcases hconvmem e he with h | h | h
            · exact Or.inl h
            · exact Or.inr ⟨fun r' hr' => le_of_eq (h.1 r' hr').symm,
                fun r' v hr' => by rw [h.2] at hr'; cases hr'⟩
            · subst h
              exact Or.inr ⟨fun r' hr' => (by cases hr'),
                fun r' v hr' => by
                  simp only [judgeOf, Option.some.injEq, Prod.mk.injEq] at hr'
                  exact ⟨le_of_eq hr'.1, by omega, hopt⟩⟩
          · intro k hk
            simp only [Option.some.injEq] at hk
            subst hk
            refine ⟨le_refl _, hlt, hopt, ?_⟩
            intro e he
            rcases hconvmem e he with h | h | h
            · exact Or.inl h
            · exact Or.inr ⟨fun r' hr' => le_of_eq (h.1 r' hr'),
                fun r' v hr' => by rw [h.2] at hr'; cases hr'⟩
            · subst h
              exact Or.inr ⟨fun r' hr' => (by cases hr'),
                fun r' v hr' => by
                  simp only [judgeOf, Option.some.injEq, Prod.mk.injEq] at hr'
                  omega⟩
          · intro k hk
            rcases hconvmem _ hk with h | h | h
            · exact Or.inl h
            · exact absurd h.2 (by simp [judgeOf])
            · rw [hv] at h
              simp only [CallEvent.judgeCall.injEq] at h
              exact Or.inr (by simp [h.1])
        · rw [if_neg hv]
          obtain ⟨ih1, ih2, ih3⟩ :=
            ih (checkConvergenceRun env
                (roundBodyS env (interactStep env st ictr round).1 round) round).1
              (interactStep env st ictr round).2.1 (round + 1)
          refine ⟨?_, ?_, ?_⟩
          · intro e he
            rcases ih1 e he with h | h
            · rcases hconvmem e h with h' | h' | h'
              · exact Or.inl h'
              · exact Or.inr ⟨fun r' hr' => le_of_eq (h'.1 r' hr').symm,
                  fun r' v hr' => by rw [h'.2] at hr'; cases hr'⟩
              · subst h'
                exact Or.inr ⟨fun r' hr' => (by cases hr'),
                  fun r' v hr' => by
                    simp only [judgeOf, Option.some.injEq, Prod.mk.injEq] at hr'
                    exact ⟨le_of_eq hr'.1, by omega, hopt⟩⟩
            · exact Or.inr ⟨fun r' hr' => le_trans (by omega) (h.1 r' hr'),
                fun r' v hr' => by
                  obtain ⟨h1, h2, h3⟩ := h.2 r' v hr'
                  exact ⟨by omega, h2, h3⟩⟩
          · intro k hk
            obtain ⟨hk1, hk2, hk3, hk4⟩ := ih2 k hk
            refine ⟨by omega, hk2, hk3, ?_⟩
            intro e he
            rcases hk4 e he with h | h
            · rcases hconvmem e h with h' | h' | h'
              · exact Or.inl h'
              · exact Or.inr ⟨fun r' hr' => (by have := h'.1 r' hr'; omega),
                  fun r' v hr' => by rw [h'.2] at hr'; cases hr'⟩
              · subst h'
                exact Or.inr ⟨fun r' hr' => (by cases hr'),
                  fun r' v hr' => by
                    simp only [judgeOf, Option.some.injEq, Prod.mk.injEq] at hr'
                    omega⟩
            · exact Or.inr h
          · intro k hk
            rcases ih3 k hk with h | h
            · rcases hconvmem _ h with h' | h' | h'
              · exact Or.inl h'
              · exact absurd h'.2 (by simp [judgeOf])
              · simp only [Bool.not_eq_true] at hv
                rw [hv] at h'
                simp only [CallEvent.judgeCall.injEq] at h'
                cases h'.2
            · exact Or.inr h
      · rw [if_neg hc]
        obtain ⟨ih1, ih2, ih3⟩ :=
          ih (roundBodyS env (interactStep env st ictr round).1 round)
            (interactStep env st ictr round).2.1 (round + 1)
        refine ⟨?_, ?_, ?_⟩
        · intro e he
          rcases ih1 e he with h | h
          · rcases hbodyst e h with h' | h'
            · exact Or.inl h'
            · exact Or.inr ⟨fun r' hr' => le_of_eq (h'.1 r' hr').symm,
                fun r' v hr' => by rw [h'.2] at hr'; cases hr'⟩
          · exact Or.inr ⟨fun r' hr' => le_trans (by omega) (h.1 r' hr'),
              fun r' v hr' => by
                obtain ⟨h1, h2, h3⟩ := h.2 r' v hr'
                exact ⟨by omega, h2, h3⟩⟩
        · intro k hk
          obtain ⟨hk1, hk2, hk3, hk4⟩ := ih2 k hk
          refine ⟨by omega, hk2, hk3, ?_⟩
          intro e he
          rcases hk4 e he with h | h
          · rcases hbodyst e h with h' | h'
            · exact Or.inl h'
            · exact Or.inr ⟨fun r' hr' => (by have := h'.1 r' hr'; omega),
                fun r' v hr' => by rw [h'.2] at hr'; cases hr'⟩
          · exact Or.inr h
        · intro k hk
          rcases ih3 k hk with h | h
          · rcases hbodyst _ h with h' | h'
            · exact Or.inl h'
            · exact absurd h'.2 (by simp [judgeOf])
          · exact Or.inr h

lemma preAnalyze_mem (env : Orchestrator) (st : OrchState) (p : String) :
    ∀ e ∈ (preAnalyze env st p).1.log, e ∈ st.log ∨ quietEvent e := by
  intro e he
  have he' : e ∈ st.log ++
      ([CallEvent.analyzerCall (env.analyzer.chatFn [⟨.user, p⟩] env.analyzer.systemPrompt)] ++
        [CallEvent.tokensEvent "analyzer"
          (estimateTokens (p ++ env.analyzer.systemPrompt))
          (estimateTokens (env.analyzer.chatFn [⟨.user, p⟩] env.analyzer.systemPrompt))]) := by
    simpa [preAnalyze, List.append_assoc] using he
  rcases List.mem_append.mp he' with h | h
  · exact Or.inl h
  · simp only [List.mem_append, List.mem_singleton] at h
    rcases h with h | h <;> (subst h; exact Or.inr ⟨rfl, rfl⟩)

lemma runQALoop_mem (env : Orchestrator) :
    ∀ (qs : List (String × String)) (st : OrchState),
      ∀ e ∈ (runQALoop env qs st).log, e ∈ st.log ∨ quietEvent e := by
  intro qs
  induction qs with
  | nil => intro st e he; exact Or.inl he
  | cons item rest ih =>
    obtain ⟨target, question⟩ := item
    intro st e he
    rw [runQALoop] at he
    cases hfind : qaFindTarget env target with
    | none =>
      rw [hfind] at he
      rcases ih _ e he with h | h
      · rcases List.mem_append.mp h with h' | h'
        · exact Or.inl h'
        · simp only [List.mem_singleton] at h'
          subst h'
          exact Or.inr ⟨rfl, rfl⟩
      · exact Or.inr h
    | some tr =>
      rw [hfind] at he
      rcases ih _ e he with h | h
      · have h' : e ∈ (st.log ++ [CallEvent.qaCall target (some tr.id)]) ++
            [CallEvent.tokensEvent tr.id
              (estimateTokens question)
              (estimateTokens (tr.chatFn [Message.mk Role.user (qaTurnPrompt question)]
                tr.systemPrompt))] := by
          simpa using h
        rcases List.mem_append.mp h' with h'' | h''
        · rcases List.mem_append.mp h'' with h3 | h3
          · exact Or.inl h3
          · simp only [List.mem_singleton] at h3
            subst h3
            exact Or.inr ⟨rfl, rfl⟩
        · simp only [List.mem_singleton] at h''
          subst h''
          exact Or.inr ⟨rfl, rfl⟩
      · exact Or.inr h

lemma collectSummaries_mem (env : Orchestrator) (sA : Bool) :
    ∀ (revs : List Reviewer) (st : OrchState),
      ∀ e ∈ (collectSummaries env sA revs st).1.log, e ∈ st.log ∨ quietEvent e := by
  intro revs
  induction revs with
  | nil => intro st e he; exact Or.inl he
  | cons r rest ih =>
    intro st e he
    rw [collectSummaries] at he
    rcases ih _ e he with h | h
    · have h' : e ∈ (st.log ++ [CallEvent.summaryCall r.id
          (r.chatFn (buildMessages env sA st r.id ++ [Message.mk Role.user summaryPromptText])
            r.systemPrompt)]) ++
          [CallEvent.tokensEvent r.id
            (estimateTokens (jsJoin "\n"
              ((buildMessages env sA st r.id ++ [Message.mk Role.user summaryPromptText]).map (·.content)) ++
              r.systemPrompt))
            (estimateTokens (r.chatFn
              (buildMessages env sA st r.id ++ [Message.mk Role.user summaryPromptText]) r.systemPrompt))] := by
        simpa using h
      rcases List.mem_append.mp h' with h'' | h''
      · rcases List.mem_append.mp h'' with h3 | h3
        · exact Or.inl h3
        · simp only [List.mem_singleton] at h3
          subst h3
          exact Or.inr ⟨rfl, rfl⟩
      · simp only [List.mem_singleton] at h''
        subst h''
        exact Or.inr ⟨rfl, rfl⟩
    · exact Or.inr h

lemma getFinalConclusion_mem (env : Orchestrator) (st : OrchState)
    (ss : List DebateSummary) :
    ∀ e ∈ (getFinalConclusion env st ss).1.log, e ∈ st.log ∨ quietEvent e := by
  intro e he
  simp only [getFinalConclusion, trackTokens_log, List.mem_append,
    List.mem_singleton] at he
  rcases he with (h | h) | h
  · exact Or.inl h
  · subst h; exact Or.inr ⟨rfl, rfl⟩
  · subst h; exact Or.inr ⟨rfl, rfl⟩

lemma getFinalConclusion_concl (env : Orchestrator) (st : OrchState)
    (ss : List DebateSummary) :
    ∃ resp, CallEvent.conclusionCall resp ∈ (getFinalConclusion env st ss).1.log := by
  unfold getFinalConclusion
  exact ⟨_, List.mem_append.mpr (Or.inl (List.mem_append.mpr (Or.inr
    (List.mem_singleton.mpr rfl))))⟩

lemma runRoundsB_hist_conv (env : Orchestrator) (h : env.interactive = false) :
    ∀ (rem : Nat) (st : OrchState) (ictr round k : Nat),
      (runRoundsB env rem st ictr round).2.2 = some k →
      ((runRoundsB env rem st ictr round).1.conversationHistory.map fun m => m.reviewerId) =
        (st.conversationHistory.map fun m => m.reviewerId) ++
          (List.replicate (k + 1 - round) (env.reviewers.map (·.id))).flatten := by
  intro rem
  induction rem with
  | zero => intro st ictr round k hk; cases hk
  | succ n ih =>
    intro st ictr round k hk
    rw [runRoundsB] at hk ⊢
    by_cases hc : (env.checkConvergenceOpt && decide (round < env.maxRounds)) = true
    · rw [if_pos hc] at hk ⊢
      by_cases hv : (checkConvergenceRun env
          (runReviewersB env round env.reviewers st ictr).1 round).2 = true
      · rw [if_pos hv] at hk ⊢
        simp only [Option.some.injEq] at hk
        subst hk
        rw [checkConvergenceRun_history, runReviewersB_history_ids env round h]
        have h1 : round + 1 - round = 1 := by omega
        rw [h1]
        simp
      · rw [if_neg hv] at hk ⊢
        have hge : round + 1 ≤ k :=
          ((runRoundsB_mem env n _ _ (round + 1)).2.1 k hk).1
        rw [ih _ _ _ _ hk, checkConvergenceRun_history,
          runReviewersB_history_ids env round h]
        have h1 : k + 1 - round = (k - round) + 1 := by omega
        have h2 : k + 1 - (round + 1) = k - round := by omega
        rw [h1, h2, List.replicate_succ]
        simp [List.append_assoc]
    · rw [if_neg hc] at hk ⊢
      simp only [Bool.false_eq_true, if_false] at hk ⊢
      have hge : round + 1 ≤ k :=
        ((runRoundsB_mem env n _ _ (round + 1)).2.1 k hk).1
      rw [ih _ _ _ _ hk, runReviewersB_history_ids env round h]
      have h1 : k + 1 - round = (k - round) + 1 := by omega
      have h2 : k + 1 - (round + 1) = k - round := by omega
      rw [h1, h2, List.replicate_succ]
      simp [List.append_assoc]

lemma runRoundsS_hist_conv (env : Orchestrator) (h : env.interactive = false) :
    ∀ (rem : Nat) (st : OrchState) (ictr round k : Nat),
      (runRoundsS env rem st ictr round).2.2 = some k →
      ((runRoundsS env rem st ictr round).1.conversationHistory.map fun m => m.reviewerId) =
        (st.conversationHistory.map fun m => m.reviewerId) ++
          (List.replicate (k + 1 - round) (env.reviewers.map (·.id))).flatten := by
  intro rem
  induction rem with
  | zero => intro st ictr round k hk; cases hk
  | succ n ih =>
    intro st ictr round k hk
    rw [runRoundsS, interactStep_noninteractive env st ictr round h] at hk ⊢
    simp only [Bool.false_eq_true, if_false] at hk ⊢
    by_cases hc : (env.checkConvergenceOpt && decide (round < env.maxRounds)) = true
    · rw [if_pos hc] at hk ⊢
      by_cases hv : (checkConvergenceRun env (roundBodyS env st round) round).2 = true
      · rw [if_pos hv] at hk ⊢
        simp only [Option.some.injEq] at hk
        subst hk
        rw [checkConvergenceRun_history, roundBodyS_history_ids]
        have h1 : round + 1 - round = 1 := by omega
        rw [h1]
        simp
      · rw [if_neg hv] at hk ⊢
        have hge : round + 1 ≤ k :=
          ((runRoundsS_mem env n _ _ (round + 1)).2.1 k hk).1
        rw [ih _ _ _ _ hk, checkConvergenceRun_history, roundBodyS_history_ids]
        have h1 : k + 1 - round = (k - round) + 1 := by omega
        have h2 : k + 1 - (round + 1) = k - round := by omega
        rw [h1, h2, List.replicate_succ]
        simp [List.append_assoc]
    · rw [if_neg hc] at hk ⊢
      simp only [Bool.false_eq_true, if_false] at hk ⊢
      have hge : round + 1 ≤ k :=
        ((runRoundsS_mem env n _ _ (round + 1)).2.1 k hk).1
      rw [ih _ _ _ _ hk, roundBodyS_history_ids]
      have h1 : k + 1 - round = (k - round) + 1 := by omega
      have h2 : k + 1 - (round + 1) = k - round := by omega
      rw [h1, h2, List.replicate_succ]
      simp [List.append_assoc]

/-- C4: if the Convergence Judge is consulted at loop round `k` and reports
converged (the trace holds a `judgeCall k true`), then — on either path —
convergence checking was enabled, `k < maxRounds`, the result records
`convergedAtRound = k`, no reviewer request is built or executed for any
round after `k` (every reviewer-request event in the whole trace has round
`≤ k`, as has every judge consultation), the summary phase still produces one
summary per reviewer, and the final-conclusion call still happens.
In a non-interactive run the committed turns are exactly rounds `1..k`, one
turn per reviewer per round in constructor order. -/
theorem claim_C4 (env : Orchestrator) (label prompt : String) (k : Nat) :
    ((CallEvent.judgeCall k true ∈ (runB env label prompt).2) →
      ((runB env label prompt).1.convergedAtRound = some k ∧
        k < env.maxRounds ∧ env.checkConvergenceOpt = true ∧
        (∀ r i req vis resp,
          CallEvent.reviewerCall r i req vis resp ∈ (runB env label prompt).2 → r ≤ k) ∧
        (∀ r v, CallEvent.judgeCall r v ∈ (runB env label prompt).2 → r ≤ k) ∧
        (runB env label prompt).1.summaries.length = env.reviewers.length ∧
        (∃ resp, CallEvent.conclusionCall resp ∈ (runB env label prompt).2) ∧
        (env.interactive = false →
          ((runB env label prompt).1.messages.map fun m => m.reviewerId) =
            (List.replicate k (env.reviewers.map (·.id))).flatten))) ∧
    ((CallEvent.judgeCall k true ∈ (runS env label prompt).2) →
      ((runS env label prompt).1.convergedAtRound = some k ∧
        k < env.maxRounds ∧ env.checkConvergenceOpt = true ∧
        (∀ r i req vis resp,
          CallEvent.reviewerCall r i req vis resp ∈ (runS env label prompt).2 → r ≤ k) ∧
        (∀ r v, CallEvent.judgeCall r v ∈ (runS env label prompt).2 → r ≤ k) ∧
        (runS env label prompt).1.summaries.length = env.reviewers.length ∧
        (∃ resp, CallEvent.conclusionCall resp ∈ (runS env label prompt).2) ∧
        (env.interactive = false → env.onPostAnalysisQA = none →
          ((runS env label prompt).1.messages.map fun m => m.reviewerId) =
            (List.replicate k (env.reviewers.map (·.id))).flatten))) := by
  constructor
  · intro hjudge
    have hpre : ∀ e ∈ (preStB env prompt).log, quietEvent e := by
      intro e he
      rcases preAnalyze_mem env (initState prompt) prompt e he with h | h
      · cases h
      · exact h
    have hloopmem := runRoundsB_mem env env.maxRounds (preStB env prompt) 0 1
    have htrace : ∀ e ∈ (runB env label prompt).2,
        e ∈ (loopB env prompt).1.log ∨ quietEvent e := by
      intro e he
      rcases getFinalConclusion_mem env (summB env prompt).1 (summB env prompt).2 e he
        with h | h
      · rcases collectSummaries_mem env false env.reviewers (loopB env prompt).1 e h
          with h' | h'
        · exact Or.inl h'
        · exact Or.inr h'
      · exact Or.inr h
    have hjl : CallEvent.judgeCall k true ∈ (loopB env prompt).1.log := by
      rcases htrace _ hjudge with h | h
      · exact h
      · exact absurd h.2 (by simp [judgeOf])
    have hconv : (loopB env prompt).2.2 = some k := by
      rcases hloopmem.2.2 k hjl with h | h
      · exact absurd (hpre _ h).2 (by simp [judgeOf])
      · exact h
    obtain ⟨-, hklt, hopt, hbound⟩ := hloopmem.2.1 k hconv
    refine ⟨hconv, hklt, hopt, ?_, ?_, ?_, ?_, ?_⟩
    · intro r i req vis resp hmem
      rcases htrace _ hmem with h | h
      · rcases hbound _ h with h' | h'
        · exact absurd (hpre _ h').1 (by simp [revCallRound])
        · exact h'.1 r rfl
      · exact absurd h.1 (by simp [revCallRound])
    · intro r v hmem
      rcases htrace _ hmem with h | h
      · rcases hbound _ h with h' | h'
        · exact absurd (hpre _ h').2 (by simp [judgeOf])
        · exact h'.2 r v rfl
      · exact absurd h.2 (by simp [judgeOf])
    · exact collectSummaries_length env false env.reviewers (loopB env prompt).1
    · obtain ⟨resp, hresp⟩ :=
        getFinalConclusion_concl env (summB env prompt).1 (summB env prompt).2
      exact ⟨resp, hresp⟩
    · intro hint
      have : ((runB env label prompt).1.messages.map fun m => m.reviewerId) =
          ((preStB env prompt).conversationHistory.map fun m => m.reviewerId) ++
            (List.replicate (k + 1 - 1) (env.reviewers.map (·.id))).flatten := by
        show (((fcB env prompt).1.conversationHistory).map fun m => m.reviewerId) = _
        unfold fcB summB loopB
        rw [getFinalConclusion_history, collectSummaries_history]
        exact runRoundsB_hist_conv env hint env.maxRounds (preStB env prompt) 0 1 k hconv
      rw [this]
      have hh : (preStB env prompt).conversationHistory = [] := by
        simp [preStB, preAnalyze, initState]
      rw [hh]
      have h1 : k + 1 - 1 = k := by omega
      rw [h1]
      simp
  · intro hjudge
    have hpre : ∀ e ∈ (preStS env prompt).log, quietEvent e := by
      intro e he
      unfold preStS at he
      have hpa : ∀ e ∈ (preAnalyzedS env prompt).log, quietEvent e := by
        intro e' he'
        simp only [preAnalyzedS, trackTokens_log, initState, List.nil_append,
          List.mem_append, List.mem_singleton] at he'
        rcases he' with h | h
        · subst h; exact ⟨rfl, rfl⟩
        · subst h; exact ⟨rfl, rfl⟩
      cases hqa : env.onPostAnalysisQA with
      | none => rw [hqa] at he; exact hpa e he
      | some qs =>
        rw [hqa] at he
        rcases runQALoop_mem env qs (preAnalyzedS env prompt) e he with h | h
        · exact hpa e h
        · exact h
    have hloopmem := runRoundsS_mem env env.maxRounds (preStS env prompt) 0 1
    have htrace : ∀ e ∈ (runS env label prompt).2,
        e ∈ (loopS env prompt).1.log ∨ quietEvent e := by
      intro e he
      rcases getFinalConclusion_mem env (summS env prompt).1 (summS env prompt).2 e he
        with h | h
      · rcases collectSummaries_mem env true env.reviewers (loopS env prompt).1 e h
          with h' | h'
        · exact Or.inl h'
        · exact Or.inr h'
      · exact Or.inr h
    have hjl : CallEvent.judgeCall k true ∈ (loopS env prompt).1.log := by
      rcases htrace _ hjudge with h | h
      · exact h
      · exact absurd h.2 (by simp [judgeOf])
    have hconv : (loopS env prompt).2.2 = some k := by
      rcases hloopmem.2.2 k hjl with h | h
      · exact absurd (hpre _ h).2 (by simp [judgeOf])
      · exact h
    obtain ⟨-, hklt, hopt, hbound⟩ := hloopmem.2.1 k hconv
    refine ⟨hconv, hklt, hopt, ?_, ?_, ?_, ?_, ?_⟩
    · intro r i req vis resp hmem
      rcases htrace _ hmem with h | h
      · rcases hbound _ h with h' | h'
        · exact absurd (hpre _ h').1 (by simp [revCallRound])
        · exact h'.1 r rfl
      · exact absurd h.1 (by simp [revCallRound])
    · intro r v hmem
      rcases htrace _ hmem with h | h
      · rcases hbound _ h with h' | h'
        · exact absurd (hpre _ h').2 (by simp [judgeOf])
        · exact h'.2 r v rfl
      · exact absurd h.2 (by simp [judgeOf])
    · exact collectSummaries_length env true env.reviewers (loopS env prompt).1
    · obtain ⟨resp, hresp⟩ :=
        getFinalConclusion_concl env (summS env prompt).1 (summS env prompt).2
      exact ⟨resp, hresp⟩
    · intro hint hqa
      have : ((runS env label prompt).1.messages.map fun m => m.reviewerId) =
          ((preStS env prompt).conversationHistory.map fun m => m.reviewerId) ++
            (List.replicate (k + 1 - 1) (env.reviewers.map (·.id))).flatten := by
        show (((fcS env prompt).1.conversationHistory).map fun m => m.reviewerId) = _
        unfold fcS summS loopS
        rw [getFinalConclusion_history, collectSummaries_history]
        exact runRoundsS_hist_conv env hint env.maxRounds (preStS env prompt) 0 1 k hconv
      rw [this]
      have hh : (preStS env prompt).conversationHistory = [] := by
        simp [preStS, hqa, preAnalyzedS, initState]
      rw [hh]
      have h1 : k + 1 - 1 = k := by omega
      rw [h1]
      simp

/-- C4 witness: with convergence enabled over three rounds and a judge that
always answers `CONVERGED`, both paths consult the judge at round 2, stop
there with `convergedAtRound = 2`, commit four turns and still summarize. -/
theorem claim_C4_witness :
    (CallEvent.judgeCall 2 true ∈ (runB envConv "L" "P").2 ∧
      (runB envConv "L" "P").1.convergedAtRound = some 2 ∧
      (runB envConv "L" "P").1.summaries.length = envConv.reviewers.length) ∧
    (CallEvent.judgeCall 2 true ∈ (runS envConv "L" "P").2 ∧
      ((runS envConv "L" "P").1.messages.map fun m => m.reviewerId) =
        (List.replicate 2 (envConv.reviewers.map (·.id))).flatten) := by
  refine ⟨⟨by decide, ?_, ?_⟩, ⟨by decide, ?_⟩⟩
  · exact ((claim_C4 envConv "L" "P" 2).1 (by decide)).1
  · exact ((claim_C4 envConv "L" "P" 2).1 (by decide)).2.2.2.2.2.1
  · exact ((claim_C4 envConv "L" "P" 2).2 (by decide)).2.2.2.2.2.2.2 rfl rfl

/-! ### C7 — token accounting -/

lemma aggStep_none {acc : List (String × Nat × Nat)} {e : CallEvent}
    (h : tokensOfEvent e = none) : aggStep acc e = acc := by
  simp [aggStep, h]

lemma aggStep_some {acc : List (String × Nat × Nat)} {e : CallEvent}
    {id : String} {i o : Nat} (h : tokensOfEvent e = some (id, i, o)) :
    aggStep acc e = bumpUsage acc id i o := by
  simp [aggStep, h]

lemma aggTokens_append (es L : List CallEvent) :
    aggTokens (es ++ L) = List.foldl aggStep (aggTokens es) L := by
  simp [aggTokens, List.foldl_append]

lemma foldl_aggStep_quiet :
    ∀ (L : List CallEvent) (acc : List (String × Nat × Nat)),
      (∀ e ∈ L, tokensOfEvent e = none) → List.foldl aggStep acc L = acc := by
  intro L
  induction L with
  | nil => intro acc _; rfl
  | cons e rest ih =>
    intro acc h
    rw [List.foldl_cons, aggStep_none (h e (by simp))]
    exact ih acc fun e' he' => h e' (by simp [he'])

lemma aggTokens_quiet (es L : List CallEvent) (h : ∀ e ∈ L, tokensOfEvent e = none) :
    aggTokens (es ++ L) = aggTokens es := by
  rw [aggTokens_append]
  exact foldl_aggStep_quiet L _ h

lemma aggTokens_snoc_token (es : List CallEvent) (id : String) (i o : Nat) :
    aggTokens (es ++ [.tokensEvent id i o]) = bumpUsage (aggTokens es) id i o := by
  rw [aggTokens_append]
  rfl

lemma usagePair_bump (m : List (String × Nat × Nat)) (id' : String) (i o : Nat)
    (id : String) :
    usagePair (bumpUsage m id' i o) id =
      if id' = id then addPair (usagePair m id') (i, o) else usagePair m id := by
  unfold usagePair bumpUsage addPair
  rw [alistGet_alistSet]
  by_cases h : id' = id <;> simp [h]

lemma sumPairs_aux :
    ∀ (l : List (Nat × Nat)) (p : Nat × Nat),
      List.foldl (fun p e => (p.1 + e.1, p.2 + e.2)) p l = addPair p (sumPairs l) := by
  intro l
  induction l with
  | nil =>
    intro p
    show p = addPair p (sumPairs [])
    simp [sumPairs, addPair]
  | cons e rest ih =>
    intro p
    have h2 : sumPairs (e :: rest) = addPair e (sumPairs rest) := by
      show List.foldl (fun p e => (p.1 + e.1, p.2 + e.2)) (0, 0) (e :: rest) = _
      rw [List.foldl_cons, ih]
      show addPair (0 + e.1, 0 + e.2) (sumPairs rest) = _
      simp [addPair]
    rw [List.foldl_cons, ih, h2]
    show addPair (p.1 + e.1, p.2 + e.2) (sumPairs rest) = _
    simp only [addPair, Prod.mk.injEq]
    constructor <;> omega

lemma sumPairs_cons (p : Nat × Nat) (l : List (Nat × Nat)) :
    sumPairs (p :: l) = addPair p (sumPairs l) := by
  show List.foldl (fun p e => (p.1 + e.1, p.2 + e.2)) (0, 0) (p :: l) = _
  rw [List.foldl_cons, sumPairs_aux]
  show addPair (0 + p.1, 0 + p.2) (sumPairs l) = _
  simp [addPair]

lemma incrementsFor_cons_none {e : CallEvent} (L : List CallEvent) (id : String)
    (h : tokensOfEvent e = none) :
    incrementsFor (e :: L) id = incrementsFor L id := by
  simp [incrementsFor, List.filterMap_cons, h]

lemma incrementsFor_cons_some {e : CallEvent} (L : List CallEvent)
    {id' : String} {i o : Nat} (id : String)
    (h : tokensOfEvent e = some (id', i, o)) :
    incrementsFor (e :: L) id =
      if id' = id then (i, o) :: incrementsFor L id else incrementsFor L id := by
  by_cases hid : id' = id <;> simp [incrementsFor, List.filterMap_cons, h, hid]

lemma usagePair_foldl_sum :
    ∀ (L : List CallEvent) (acc : List (String × Nat × Nat)) (id : String),
      usagePair (List.foldl aggStep acc L) id =
        addPair (usagePair acc id) (sumPairs (incrementsFor L id)) := by
  intro L
  induction L with
  | nil =>
    intro acc id
    simp [incrementsFor, sumPairs, addPair]
  | cons e rest ih =>
    intro acc id
    rw [List.foldl_cons]
    cases h : tokensOfEvent e with
    | none =>
      rw [aggStep_none h, ih, incrementsFor_cons_none rest id h]
    | some t =>
      obtain ⟨id', i, o⟩ := t
      rw [aggStep_some h, ih, usagePair_bump,
        incrementsFor_cons_some rest id h]
      by_cases hid : id' = id
      · subst hid
        rw [if_pos rfl, if_pos rfl, sumPairs_cons]
        simp only [addPair, Prod.mk.injEq]
        constructor <;> omega
      · rw [if_neg hid, if_neg hid]

lemma usagePair_agg_sum (L : List CallEvent) (id : String) :
    usagePair (aggTokens L) id = sumPairs (incrementsFor L id) := by
  have h := usagePair_foldl_sum L [] id
  rw [aggTokens]
  rw [h]
  simp [usagePair, alistGet, addPair]

lemma usagePair_aggStep_le (acc : List (String × Nat × Nat)) (e : CallEvent)
    (id : String) :
    (usagePair acc id).1 ≤ (usagePair (aggStep acc e) id).1 ∧
      (usagePair acc id).2 ≤ (usagePair (aggStep acc e) id).2 := by
  cases h : tokensOfEvent e with
  | none => rw [aggStep_none h]; exact ⟨le_refl _, le_refl _⟩
  | some t =>
    obtain ⟨id', i, o⟩ := t
    rw [aggStep_some h, usagePair_bump]
    by_cases hid : id' = id
    · subst hid
      rw [if_pos rfl]
      simp only [addPair]
      exact ⟨by omega, by omega⟩
    · rw [if_neg hid]
      exact ⟨le_refl _, le_refl _⟩

lemma usagePair_take_mono (L : List CallEvent) (n : Nat) (id : String) :
    (usagePair (aggTokens (L.take n)) id).1 ≤
      (usagePair (aggTokens (L.take (n + 1))) id).1 ∧
    (usagePair (aggTokens (L.take n)) id).2 ≤
      (usagePair (aggTokens (L.take (n + 1))) id).2 := by
  rw [List.take_succ]
  cases h : L[n]? with
  | none => simp
  | some e =>
    rw [show (some e).toList = [e] from rfl, aggTokens_append, List.foldl_cons,
      List.foldl_nil]
    exact usagePair_aggStep_le _ e id

lemma usageInv_trackTokens (st : OrchState) (id i o : String)
    (h : usageInv st) : usageInv (trackTokens st id i o) := by
  unfold usageInv at h ⊢
  rw [trackTokens_usage, trackTokens_log, aggTokens_snoc_token, h]

lemma usageInv_pushTurn (st : OrchState) (id c : String)
    (h : usageInv st) : usageInv (pushTurn st id c) := h

lemma usageInv_markAsSeen (st : OrchState) (id : String)
    (h : usageInv st) : usageInv (markAsSeen st id) := h

lemma usageInv_appendQuiet (st : OrchState) (L : List CallEvent)
    (hL : ∀ e ∈ L, tokensOfEvent e = none)
    (h : usageInv st) : usageInv { st with log := st.log ++ L } := by
  unfold usageInv at h ⊢
  rw [aggTokens_quiet _ _ hL]
  exact h

lemma mem_singleton_token_none {e : CallEvent} (h : tokensOfEvent e = none) :
    ∀ x ∈ [e], tokensOfEvent x = none := by
  intro x hx
  simp only [List.mem_singleton] at hx
  subst hx
  exact h

lemma usageInv_interactStep (env : Orchestrator) (st : OrchState) (ictr round : Nat)
    (h : usageInv st) : usageInv (interactStep env st ictr round).1 := by
  unfold interactStep
  cases env.interactive
  · exact h
  · cases env.onInteractive with
    | none => exact h
    | some f =>
      dsimp only
      have hq1 : usageInv { st with log := st.log ++ [.interactCall round (f ictr)] } :=
        usageInv_appendQuiet st _ (mem_singleton_token_none rfl) h
      rcases hfi : f ictr with _ | s
      · rw [hfi] at hq1
        rw [if_neg (by simp : ¬ (none : Option String) = some "q")]
        exact hq1
      · rw [hfi] at hq1
        by_cases hsq : (some s : Option String) = some "q"
        · rw [if_pos hsq]
          exact hq1
        · rw [if_neg hsq]
          dsimp only
          by_cases hs : s = ""
          · rw [if_pos hs]
            exact hq1
          · rw [if_neg hs]
            exact usageInv_pushTurn _ _ _ hq1

lemma usageInv_reviewerStepB (env : Orchestrator) (round : Nat) (r : Reviewer)
    (st : OrchState) (h : usageInv st) : usageInv (reviewerStepB env round r st) := by
  unfold reviewerStepB
  exact usageInv_markAsSeen _ _ (usageInv_pushTurn _ _ _ (usageInv_trackTokens _ _ _ _
    (usageInv_appendQuiet st _ (mem_singleton_token_none rfl) h)))

lemma usageInv_runReviewersB (env : Orchestrator) (round : Nat) :
    ∀ (revs : List Reviewer) (st : OrchState) (ictr : Nat),
      usageInv st → usageInv (runReviewersB env round revs st ictr).1 := by
  intro revs
  induction revs with
  | nil => intro st ictr h; exact h
  | cons r rest ih =>
    intro st ictr h
    rw [runReviewersB]
    by_cases hb : (interactStep env st ictr round).2.2 = true
    · rw [if_pos hb]
      exact usageInv_interactStep env st ictr round h
    · rw [if_neg hb]
      exact ih _ _ (usageInv_reviewerStepB env round r _
        (usageInv_interactStep env st ictr round h))

lemma usageInv_checkConvergenceRun (env : Orchestrator) (st : OrchState) (round : Nat)
    (h : usageInv st) : usageInv (checkConvergenceRun env st round).1 := by
  obtain ⟨J, hJ, hJc⟩ := checkConvergenceRun_decomp env st round
  rw [hJ]
  refine usageInv_appendQuiet st J ?_ h
  intro e he
  rcases hJc with ⟨hnil, -⟩ | hJe
  · rw [hnil] at he; cases he
  · rw [hJe] at he
    simp only [List.mem_singleton] at he
    subst he
    rfl

lemma usageInv_runRoundsB (env : Orchestrator) :
    ∀ (rem : Nat) (st : OrchState) (ictr round : Nat),
      usageInv st → usageInv (runRoundsB env rem st ictr round).1 := by
  intro rem
  induction rem with
  | zero => intro st ictr round h; exact h
  | succ n ih =>
    intro st ictr round h
    rw [runRoundsB]
    have hinner := usageInv_runReviewersB env round env.reviewers st ictr h
    by_cases hc : (env.checkConvergenceOpt && decide (round < env.maxRounds)) = true
    · rw [if_pos hc]
      have hconv := usageInv_checkConvergenceRun env
        (runReviewersB env round env.reviewers st ictr).1 round hinner
      by_cases hv : (checkConvergenceRun env
          (runReviewersB env round env.reviewers st ictr).1 round).2 = true
      · rw [if_pos hv]; exact hconv
      · rw [if_neg hv]; exact ih _ _ _ hconv
    · rw [if_neg hc]
      simp only [Bool.false_eq_true, if_false]
      exact ih _ _ _ hinner

lemma usageInv_runQALoop (env : Orchestrator) :
    ∀ (qs : List (String × String)) (st : OrchState),
      usageInv st → usageInv (runQALoop env qs st) := by
  intro qs
  induction qs with
  | nil => intro st h; exact h
  | cons item rest ih =>
    obtain ⟨target, question⟩ := item
    intro st h
    rw [runQALoop]
    cases hfind : qaFindTarget env target with
    | none =>
      exact ih _ (usageInv_appendQuiet st _ (mem_singleton_token_none rfl) h)
    | some tr =>
      exact ih _ (usageInv_markAsSeen _ _ (usageInv_pushTurn _ _ _
        (usageInv_pushTurn _ _ _ (usageInv_trackTokens _ _ _ _
          (usageInv_appendQuiet st _ (mem_singleton_token_none rfl) h)))))

lemma usageInv_commitTask (st : OrchState) (t : RoundTask)
    (h : usageInv st) : usageInv (commitTask st t) := by
  unfold commitTask
  exact usageInv_markAsSeen _ _ (usageInv_pushTurn _ _ _
    (usageInv_trackTokens _ _ _ _ h))

lemma usageInv_commitTasks :
    ∀ (tasks : List RoundTask) (st : OrchState),
      usageInv st → usageInv (tasks.foldl commitTask st) := by
  intro tasks
  induction tasks with
  | nil => intro st h; exact h
  | cons t rest ih =>
    intro st h
    rw [List.foldl_cons]
    exact ih _ (usageInv_commitTask st t h)

lemma usageInv_roundBodyS (env : Orchestrator) (st : OrchState) (round : Nat)
    (h : usageInv st) : usageInv (roundBodyS env st round) := by
  unfold roundBodyS
  refine usageInv_commitTasks _ _ (usageInv_appendQuiet st _ ?_ h)
  intro e he
  obtain ⟨t, -, rfl⟩ := List.mem_map.mp he
  rfl

lemma usageInv_runRoundsS (env : Orchestrator) :
    ∀ (rem : Nat) (st : OrchState) (ictr round : Nat),
      usageInv st → usageInv (runRoundsS env rem st ictr round).1 := by
  intro rem
  induction rem with
  | zero => intro st ictr round h; exact h
  | succ n ih =>
    intro st ictr round h
    rw [runRoundsS]
    by_cases hb : (interactStep env st ictr round).2.2 = true
    · rw [if_pos hb]
      exact usageInv_interactStep env st ictr round h
    · rw [if_neg hb]
      dsimp only
      have hbody := usageInv_roundBodyS env (interactStep env st ictr round).1 round
        (usageInv_interactStep env st ictr round h)
      by_cases hc : (env.checkConvergenceOpt && decide (round < env.maxRounds)) = true
      · rw [if_pos hc]
        have hconv := usageInv_checkConvergenceRun env
          (roundBodyS env (interactStep env st ictr round).1 round) round hbody
        by_cases hv : (checkConvergenceRun env
            (roundBodyS env (interactStep env st ictr round).1 round) round).2 = true
        · rw [if_pos hv]; exact hconv
        · rw [if_neg hv]; exact ih _ _ _ hconv
      · rw [if_neg hc]
        simp only [Bool.false_eq_true, if_false]
        exact ih _ _ _ hbody

lemma usageInv_collectSummaries (env : Orchestrator) (sA : Bool) :
    ∀ (revs : List Reviewer) (st : OrchState),
      usageInv st → usageInv (collectSummaries env sA revs st).1 := by
  intro revs
  induction revs with
  | nil => intro st h; exact h
  | cons r rest ih =>
    intro st h
    rw [collectSummaries]
    exact ih _ (usageInv_trackTokens _ _ _ _ (usageInv_appendQuiet st _
      (mem_singleton_token_none rfl) h))

lemma usageInv_getFinalConclusion (env : Orchestrator) (st : OrchState)
    (ss : List DebateSummary) (h : usageInv st) :
    usageInv (getFinalConclusion env st ss).1 := by
  unfold getFinalConclusion
  exact usageInv_trackTokens _ _ _ _ (usageInv_appendQuiet st _
    (mem_singleton_token_none rfl) h)

lemma usageInv_preAnalyze (env : Orchestrator) (st : OrchState) (p : String)
    (h : usageInv st) : usageInv (preAnalyze env st p).1 := by
  unfold preAnalyze
  exact usageInv_trackTokens _ _ _ _ (usageInv_appendQuiet st _
    (mem_singleton_token_none rfl) h)

lemma usageInv_initState (prompt : String) : usageInv (initState prompt) := rfl

lemma usageInv_fcB (env : Orchestrator) (prompt : String) :
    usageInv (fcB env prompt).1 := by
  have h0 : usageInv (preStB env prompt) :=
    usageInv_preAnalyze env (initState prompt) prompt (usageInv_initState prompt)
  exact usageInv_getFinalConclusion env _ _
    (usageInv_collectSummaries env false env.reviewers _
      (usageInv_runRoundsB env env.maxRounds _ 0 1 h0))

lemma usageInv_fcS (env : Orchestrator) (prompt : String) :
    usageInv (fcS env prompt).1 := by
  have h1 : usageInv (preAnalyzedS env prompt) := by
    unfold preAnalyzedS
    exact usageInv_trackTokens _ _ _ _ (usageInv_appendQuiet (initState prompt) _
      (mem_singleton_token_none rfl) (usageInv_initState prompt))
  have h0 : usageInv (preStS env prompt) := by
    unfold preStS
    cases env.onPostAnalysisQA with
    | none => exact h1
    | some qs => exact usageInv_runQALoop env qs _ h1
  exact usageInv_getFinalConclusion env _ _
    (usageInv_collectSummaries env true env.reviewers _
      (usageInv_runRoundsS env env.maxRounds _ 0 1 h0))

/-- C7: on both paths, the usage table returned in the `DebateResult` is the
rendering of the aggregation of all input/output increments recorded during
the run (so, per participant, its cumulative pair is the componentwise sum of
all recorded increments, and `estimatedCost = (input + output) * 0.00001`),
and after every recorded event the cumulative per-participant counts are
monotonically non-decreasing (over every prefix of the trace). -/
theorem claim_C7 (env : Orchestrator) (label prompt : String) :
    ((runB env label prompt).1.tokenUsage =
      renderUsage (aggTokens (runB env label prompt).2)) ∧
    (∀ id, usagePair (aggTokens (runB env label prompt).2) id =
      sumPairs (incrementsFor (runB env label prompt).2 id)) ∧
    (∀ n id,
      (usagePair (aggTokens ((runB env label prompt).2.take n)) id).1 ≤
        (usagePair (aggTokens ((runB env label prompt).2.take (n + 1))) id).1 ∧
      (usagePair (aggTokens ((runB env label prompt).2.take n)) id).2 ≤
        (usagePair (aggTokens ((runB env label prompt).2.take (n + 1))) id).2) ∧
    (∀ u ∈ (runB env label prompt).1.tokenUsage,
      u.estimatedCost = ((u.inputTokens : ℚ) + (u.outputTokens : ℚ)) * (1 / 100000)) ∧
    ((runS env label prompt).1.tokenUsage =
      renderUsage (aggTokens (runS env label prompt).2)) ∧
    (∀ id, usagePair (aggTokens (runS env label prompt).2) id =
      sumPairs (incrementsFor (runS env label prompt).2 id)) ∧
    (∀ n id,
      (usagePair (aggTokens ((runS env label prompt).2.take n)) id).1 ≤
        (usagePair (aggTokens ((runS env label prompt).2.take (n + 1))) id).1 ∧
      (usagePair (aggTokens ((runS env label prompt).2.take n)) id).2 ≤
        (usagePair (aggTokens ((runS env label prompt).2.take (n + 1))) id).2) ∧
    (∀ u ∈ (runS env label prompt).1.tokenUsage,
      u.estimatedCost = ((u.inputTokens : ℚ) + (u.outputTokens : ℚ)) * (1 / 100000)) := by
  have hB : (runB env label prompt).1.tokenUsage =
      renderUsage (aggTokens (runB env label prompt).2) := by
    have h := usageInv_fcB env prompt
    unfold usageInv at h
    show getTokenUsage (fcB env prompt).1 = renderUsage (aggTokens (fcB env prompt).1.log)
    rw [← h]
    rfl
  have hS : (runS env label prompt).1.tokenUsage =
      renderUsage (aggTokens (runS env label prompt).2) := by
    have h := usageInv_fcS env prompt
    unfold usageInv at h
    show getTokenUsage (fcS env prompt).1 = renderUsage (aggTokens (fcS env prompt).1.log)
    rw [← h]
    rfl
  have hcost : ∀ (m : List (String × Nat × Nat)) (u : TokenUsage), u ∈ renderUsage m →
      u.estimatedCost = ((u.inputTokens : ℚ) + (u.outputTokens : ℚ)) * (1 / 100000) := by
    intro m u hu
    obtain ⟨e, -, rfl⟩ := List.mem_map.mp hu
    rfl
  refine ⟨hB, fun id => usagePair_agg_sum _ id,
    fun n id => usagePair_take_mono _ n id, ?_, hS,
    fun id => usagePair_agg_sum _ id,
    fun n id => usagePair_take_mono _ n id, ?_⟩
  · intro u hu
    rw [hB] at hu
    exact hcost _ u hu
  · intro u hu
    rw [hS] at hu
    exact hcost _ u hu

set_option maxRecDepth 8000 in
/-- C7 witness: in the two-reviewer fixture the analyzer's entry of the usage
table carries the recorded totals with the stated cost expression. -/
theorem claim_C7_witness :
    ((⟨"analyzer", 3, 1, (((3 : Nat) : ℚ) + ((1 : Nat) : ℚ)) * (1 / 100000)⟩ : TokenUsage) ∈
      (runB envTwo "L" "P").1.tokenUsage) ∧
    (⟨"analyzer", 3, 1, (((3 : Nat) : ℚ) + ((1 : Nat) : ℚ)) * (1 / 100000)⟩ : TokenUsage).estimatedCost =
      (((3 : Nat) : ℚ) + ((1 : Nat) : ℚ)) * (1 / 100000) := by
  have hmem : (⟨"analyzer", 3, 1,
      (((3 : Nat) : ℚ) + ((1 : Nat) : ℚ)) * (1 / 100000)⟩ : TokenUsage) ∈
      (runB envTwo "L" "P").1.tokenUsage := by
    rw [(claim_C7 envTwo "L" "P").1]
    have hagg : aggTokens (runB envTwo "L" "P").2 =
        [("analyzer", 3, 1), ("a", 270, 3), ("b", 270, 3), ("summarizer", 66, 1)] := by
      decide
    rw [hagg]
    exact List.mem_map.mpr ⟨("analyzer", 3, 1), by simp, rfl⟩
  exact ⟨hmem, (claim_C7 envTwo "L" "P").2.2.2.1 _ hmem⟩

/-- C8 witness: a session-backed reviewer that has already spoken and seen
everything gets the continue instruction on a nonempty request. -/
theorem claim_C8_witness :
    (hasSessionFor envSession true "a" = true ∧
      isFirstCallFor stOneSeen "a" = false ∧
      newVisible stOneSeen "a" = []) ∧
    buildMessages envSession true stOneSeen "a" =
      [⟨.user, "Please continue with your review."⟩] ∧
    buildMessages envSession true stOneSeen "a" ≠ [] := by
  refine ⟨⟨by decide, by decide, by decide⟩, ?_, ?_⟩
  · exact (claim_C8 envSession true stOneSeen "a").2 (by decide) (by decide) (by decide)
  · exact (claim_C8 envSession true stOneSeen "a").1

/-! ### C6 — interjection handling at round boundaries -/

lemma interactStep_quit (env : Orchestrator) (f : Nat → Option String)
    (hi : env.interactive = true) (hf : env.onInteractive = some f)
    (st : OrchState) (ictr round : Nat) (hq : f ictr = some "q") :
    interactStep env st ictr round =
      ({ st with log := st.log ++ [CallEvent.interactCall round (some "q")] },
        ictr + 1, true) := by
  unfold interactStep
  rw [hi, hf]
  dsimp only
  rw [hq, if_pos rfl]

lemma runRoundsS_quit (env : Orchestrator) (f : Nat → Option String)
    (hi : env.interactive = true) (hf : env.onInteractive = some f)
    (hq : ∀ n, f n = some "q") (rem : Nat) (st : OrchState) (ictr round : Nat) :
    runRoundsS env (rem + 1) st ictr round =
      ({ st with log := st.log ++ [CallEvent.interactCall round (some "q")] },
        ictr + 1, none) := by
  rw [runRoundsS, interactStep_quit env f hi hf st ictr round (hq ictr)]
  rfl

lemma runReviewersB_quit (env : Orchestrator) (f : Nat → Option String)
    (hi : env.interactive = true) (hf : env.onInteractive = some f)
    (hq : ∀ n, f n = some "q") (round : Nat) (r : Reviewer) (rest : List Reviewer)
    (st : OrchState) (ictr : Nat) :
    runReviewersB env round (r :: rest) st ictr =
      ({ st with log := st.log ++ [CallEvent.interactCall round (some "q")] },
        ictr + 1) := by
  rw [runReviewersB, interactStep_quit env f hi hf st ictr round (hq ictr)]
  rfl

lemma quit_log_step (L : List CallEvent) (round n : Nat) :
    (L ++ [CallEvent.interactCall round (some "q")]) ++
      (List.range (n + 1)).map
        (fun i => CallEvent.interactCall (round + 1 + i) (some "q")) =
    L ++ (List.range (n + 1 + 1)).map
      (fun i => CallEvent.interactCall (round + i) (some "q")) := by
  rw [List.append_assoc]
  congr 1
  conv_rhs => rw [List.range_succ_eq_map]
  simp only [List.map_cons, List.map_map, List.singleton_append]
  congr 1
  refine List.map_congr_left fun a _ => ?_
  simp only [Function.comp_apply]
  congr 1
  omega

lemma runRoundsB_quit (env : Orchestrator) (f : Nat → Option String)
    (r0 : Reviewer) (rest0 : List Reviewer)
    (hi : env.interactive = true) (hf : env.onInteractive = some f)
    (hq : ∀ n, f n = some "q") (hc : env.checkConvergenceOpt = false)
    (hrev : env.reviewers = r0 :: rest0) :
    ∀ (rem : Nat) (st : OrchState) (ictr round : Nat),
      runRoundsB env (rem + 1) st ictr round =
        ({ st with log := st.log ++ (List.range (rem + 1)).map (fun i => CallEvent.interactCall (round + i) (some "q")) },
          ictr + (rem + 1), none) := by
  intro rem
  induction rem with
  | zero =>
    intro st ictr round
    rw [runRoundsB]
    simp only [hc, Bool.false_and, Bool.false_eq_true, if_false]
    rw [hrev, runReviewersB_quit env f hi hf hq round r0 rest0 st ictr]
    rw [runRoundsB]
    rfl
  | succ n ih =>
    intro st ictr round
    rw [runRoundsB]
    simp only [hc, Bool.false_and, Bool.false_eq_true, if_false]
    rw [hrev, runReviewersB_quit env f hi hf hq round r0 rest0 st ictr]
    dsimp only
    rw [ih]
    dsimp only
    rw [quit_log_step st.log round n]
    refine congrArg₂ Prod.mk rfl (congrArg₂ Prod.mk (by omega) rfl)

/-- C6 (amended): the interjection provider is consulted ahead of request
building, but the two paths handle `'q'` differently. In `runStreaming` the
check sits at the round boundary and `'q'` aborts the whole round loop: under
an always-`'q'` provider the loop performs exactly one consultation, builds no
request, commits nothing and stops, and the run still proceeds to the summary
and conclusion phases. In the buffered `run` the check sits inside the
per-reviewer loop and `'q'` only breaks that inner loop: under the same
provider every round up to `maxRounds` still executes (one consultation per
round), so the round loop is not aborted — though no reviewer request is ever
built and nothing is committed; the summary and conclusion phases run as
well. -/
theorem claim_C6 (env : Orchestrator) (f : Nat → Option String) (r0 : Reviewer)
    (rest0 : List Reviewer) (label prompt : String)
    (hi : env.interactive = true) (hf : env.onInteractive = some f)
    (hq : ∀ n, f n = some "q") (hc : env.checkConvergenceOpt = false)
    (hqa : env.onPostAnalysisQA = none) (hrev : env.reviewers = r0 :: rest0)
    (rem : Nat) (st : OrchState) (ictr round : Nat) :
    runRoundsS env (rem + 1) st ictr round =
      ({ st with log := st.log ++ [CallEvent.interactCall round (some "q")] },
        ictr + 1, none) ∧
    runRoundsB env (rem + 1) st ictr round =
      ({ st with log := st.log ++ (List.range (rem + 1)).map (fun i => CallEvent.interactCall (round + i) (some "q")) },
        ictr + (rem + 1), none) ∧
    (runS env label prompt).1.messages = [] ∧
    (runS env label prompt).1.summaries.length = env.reviewers.length ∧
    (runB env label prompt).1.messages = [] ∧
    (runB env label prompt).1.summaries.length = env.reviewers.length := by
  have hS := runRoundsS_quit env f hi hf hq rem st ictr round
  have hB := runRoundsB_quit env f r0 rest0 hi hf hq hc hrev rem st ictr round
  have hpreS : (preStS env prompt).conversationHistory = [] := by
    rw [preStS, hqa]
    rfl
  have hSmsg : (runS env label prompt).1.messages = [] := by
    show (fcS env prompt).1.conversationHistory = []
    unfold fcS summS loopS
    rw [getFinalConclusion_history, collectSummaries_history]
    cases hm : env.maxRounds with
    | zero => rw [runRoundsS]; exact hpreS
    | succ m =>
      rw [runRoundsS_quit env f hi hf hq m (preStS env prompt) 0 1]
      exact hpreS
  have hSsum : (runS env label prompt).1.summaries.length = env.reviewers.length := by
    show (summS env prompt).2.length = env.reviewers.length
    unfold summS
    exact collectSummaries_length env true env.reviewers _
  have hBmsg : (runB env label prompt).1.messages = [] := by
    show (fcB env prompt).1.conversationHistory = []
    unfold fcB summB loopB
    rw [getFinalConclusion_history, collectSummaries_history]
    cases hm : env.maxRounds with
    | zero => rw [runRoundsB]; rfl
    | succ m =>
      rw [runRoundsB_quit env f r0 rest0 hi hf hq hc hrev m (preStB env prompt) 0 1]
      rfl
  have hBsum : (runB env label prompt).1.summaries.length = env.reviewers.length := by
    show (summB env prompt).2.length = env.reviewers.length
    unfold summB
    exact collectSummaries_length env false env.reviewers _
  exact ⟨hS, hB, hSmsg, hSsum, hBmsg, hBsum⟩

/-- C6 witness: in the always-`'q'` two-reviewer fixture, the streaming round
loop stops after one consultation while the buffered round loop consults once
per round for both rounds; neither path commits any turn. -/
theorem claim_C6_witness :
    (envQuitAll.interactive = true ∧
      envQuitAll.onInteractive = some (fun _ => some "q") ∧
      envQuitAll.checkConvergenceOpt = false ∧
      envQuitAll.onPostAnalysisQA = none ∧
      envQuitAll.reviewers = mkRev "a" "ra" :: [mkRev "b" "rb"]) ∧
    runRoundsS envQuitAll 2 (initState "P") 0 1 =
      ({ initState "P" with log := [CallEvent.interactCall 1 (some "q")] },
        1, none) ∧
    runRoundsB envQuitAll 2 (initState "P") 0 1 =
      ({ initState "P" with log := [CallEvent.interactCall 1 (some "q"),
          CallEvent.interactCall 2 (some "q")] }, 2, none) ∧
    (runS envQuitAll "L" "P").1.messages = [] ∧
    (runB envQuitAll "L" "P").1.messages = [] := by
  have h := claim_C6 envQuitAll (fun _ => some "q") (mkRev "a" "ra") [mkRev "b" "rb"]
    "L" "P" rfl rfl (fun _ => rfl) rfl rfl rfl 1 (initState "P") 0 1
  exact ⟨⟨rfl, rfl, rfl, rfl, rfl⟩, h.1, h.2.1, h.2.2.1, h.2.2.2.2.1⟩

/-! ### C2 — round-1 requests are the independent-assessment prompt -/

lemma interactStep_fields (env : Orchestrator) (st : OrchState) (ictr round : Nat) :
    (interactStep env st ictr round).1.lastSeenIndex = st.lastSeenIndex ∧
    (interactStep env st ictr round).1.taskPrompt = st.taskPrompt ∧
    (interactStep env st ictr round).1.analysis = st.analysis := by
  unfold interactStep
  cases env.interactive with
  | false => exact ⟨rfl, rfl, rfl⟩
  | true =>
    cases env.onInteractive with
    | none => exact ⟨rfl, rfl, rfl⟩
    | some f =>
      dsimp only
      rcases f ictr with _ | s
      · exact ⟨rfl, rfl, rfl⟩
      · by_cases hq : (some s : Option String) = some "q"
        · rw [if_pos hq]
          exact ⟨rfl, rfl, rfl⟩
        · rw [if_neg hq]
          dsimp only
          by_cases hs : s = ""
          · rw [if_pos hs]
            exact ⟨rfl, rfl, rfl⟩
          · rw [if_neg hs]
            exact ⟨pushTurn_lastSeen _ _ _, pushTurn_taskPrompt _ _ _,
              pushTurn_analysis _ _ _⟩

lemma isFirstCallFor_of_none (st : OrchState) (id : String)
    (h : alistGet st.lastSeenIndex id = none) : isFirstCallFor st id = true := by
  unfold isFirstCallFor
  rw [h]
  rfl

lemma buildMessagesV_first (env : Orchestrator) (sA : Bool) (st : OrchState)
    (id : String) (h : alistGet st.lastSeenIndex id = none) :
    buildMessagesV env sA st id =
      ([⟨.user, independentPrompt st.taskPrompt st.analysis id⟩], []) := by
  unfold buildMessagesV
  rw [isFirstCallFor_of_none st id h]
  rfl

lemma runReviewersB_indep (env : Orchestrator) (round : Nat) :
    ∀ (revs : List Reviewer) (st : OrchState) (ictr : Nat),
      (∀ r ∈ revs, alistGet st.lastSeenIndex r.id = none) →
      (revs.map fun r => r.id).Nodup →
      ∀ e ∈ (runReviewersB env round revs st ictr).1.log,
        e ∈ st.log ∨ revCallRound e = none ∨
        ∃ id resp, e = CallEvent.reviewerCall round id
          [⟨.user, independentPrompt st.taskPrompt st.analysis id⟩] [] resp := by
  intro revs
  induction revs with
  | nil => intro st ictr _ _ e he; exact Or.inl he
  | cons r rest ih =>
    intro st ictr hfresh hnd e he
    rw [runReviewersB] at he
    by_cases hb : (interactStep env st ictr round).2.2 = true
    · rw [if_pos hb] at he
      rcases interactStep_mem env st ictr round e he with h | h
      · exact Or.inl h
      · exact Or.inr (Or.inl h.1)
    · rw [if_neg hb] at he
      obtain ⟨hls, htp, han⟩ := interactStep_fields env st ictr round
      simp only [List.map_cons, List.nodup_cons] at hnd
      have hfresh0 : alistGet (interactStep env st ictr round).1.lastSeenIndex r.id =
          none := by
        rw [hls]; exact hfresh r (List.mem_cons_self _ _)
      have hfresh1 : ∀ r' ∈ rest,
          alistGet (reviewerStepB env round r
            (interactStep env st ictr round).1).lastSeenIndex r'.id = none := by
        intro r' hr'
        rw [reviewerStepB_lastSeen, alistGet_alistSet]
        have hne : r.id ≠ r'.id := by
          intro hEq
          exact hnd.1 (by rw [hEq]; exact List.mem_map.mpr ⟨r', hr', rfl⟩)
        rw [if_neg hne, hls]
        exact hfresh r' (List.mem_cons_of_mem _ hr')
      rcases ih _ _ hfresh1 hnd.2 e he with h | h | h
      · rw [reviewerStepB_log] at h
        rcases List.mem_append.mp h with h' | h'
        · rcases interactStep_mem env st ictr round e h' with h'' | h''
          · exact Or.inl h''
          · exact Or.inr (Or.inl h''.1)
        · simp only [List.mem_cons, List.mem_singleton] at h'
          rcases h' with h' | h' | h'
          · refine Or.inr (Or.inr ⟨r.id,
              r.chatFn (buildMessagesV env false
                (interactStep env st ictr round).1 r.id).1 r.systemPrompt, ?_⟩)
            rw [h', buildMessagesV_first env false _ r.id hfresh0, htp, han]
          · exact Or.inr (Or.inl (by rw [h']; rfl))
          · cases h'
      · exact Or.inr (Or.inl h)
      · obtain ⟨id, resp, hE⟩ := h
        refine Or.inr (Or.inr ⟨id, resp, ?_⟩)
        rw [hE, reviewerStepB_taskPrompt, reviewerStepB_analysis, htp, han]

lemma runRoundsB_round1 (env : Orchestrator)
    (hnd : (env.reviewers.map fun r => r.id).Nodup) :
    ∀ (rem : Nat) (st : OrchState) (ictr : Nat),
      (∀ r ∈ env.reviewers, alistGet st.lastSeenIndex r.id = none) →
      ∀ e ∈ (runRoundsB env rem st ictr 1).1.log,
        e ∈ st.log ∨
        ∀ id req vis resp, e = CallEvent.reviewerCall 1 id req vis resp →
          req = [⟨.user, independentPrompt st.taskPrompt st.analysis id⟩] ∧
          vis = [] := by
  intro rem st ictr hfresh
  cases rem with
  | zero => intro e he; exact Or.inl he
  | succ n =>
    have hinner : ∀ e ∈ (runReviewersB env 1 env.reviewers st ictr).1.log,
        e ∈ st.log ∨
        ∀ id req vis resp, e = CallEvent.reviewerCall 1 id req vis resp →
          req = [⟨.user, independentPrompt st.taskPrompt st.analysis id⟩] ∧
          vis = [] := by
      intro e he
      rcases runReviewersB_indep env 1 env.reviewers st ictr hfresh hnd e he with
        h | h | h
      · exact Or.inl h
      · refine Or.inr ?_
        intro id req vis resp hE
        rw [hE] at h
        simp [revCallRound] at h
      · obtain ⟨id0, resp0, hE0⟩ := h
        refine Or.inr ?_
        intro id req vis resp hE
        rw [hE] at hE0
        simp only [CallEvent.reviewerCall.injEq] at hE0
        obtain ⟨-, hid, hreq, hvis, -⟩ := hE0
        subst hid
        exact ⟨hreq, hvis⟩
    intro e he
    rw [runRoundsB] at he
    by_cases hcg : (env.checkConvergenceOpt && decide (1 < env.maxRounds)) = true
    · rw [if_pos hcg] at he
      obtain ⟨J, hJst, hJ⟩ :=
        checkConvergenceRun_decomp env (runReviewersB env 1 env.reviewers st ictr).1 1
      have hconvm : ∀ e ∈ (checkConvergenceRun env
          (runReviewersB env 1 env.reviewers st ictr).1 1).1.log,
          e ∈ st.log ∨
          ∀ id req vis resp, e = CallEvent.reviewerCall 1 id req vis resp →
            req = [⟨.user, independentPrompt st.taskPrompt st.analysis id⟩] ∧
            vis = [] := by
        intro e' he'
        rw [hJst] at he'
        rcases List.mem_append.mp he' with h | h
        · exact hinner e' h
        · rcases hJ with ⟨hnil, -⟩ | hJe
          · rw [hnil] at h; cases h
          · rw [hJe] at h
            simp only [List.mem_singleton] at h
            refine Or.inr ?_
            intro id req vis resp hE
            rw [hE] at h
            cases h
      by_cases hv : (checkConvergenceRun env
          (runReviewersB env 1 env.reviewers st ictr).1 1).2 = true
      · rw [if_pos hv] at he
        exact hconvm e he
      · rw [if_neg hv] at he
        rcases (runRoundsB_mem env n _ _ 2).1 e he with h | h
        · exact hconvm e h
        · refine Or.inr ?_
          intro id req vis resp hE
          have h2 := h.1 1 (by rw [hE]; rfl)
          exact absurd h2 (by omega)
    · rw [if_neg hcg] at he
      rcases (runRoundsB_mem env n _ _ 2).1 e he with h | h
      · exact hinner e h
      · refine Or.inr ?_
        intro id req vis resp hE
        have h2 := h.1 1 (by rw [hE]; rfl)
        exact absurd h2 (by omega)

lemma runQALoop_lastSeen_unmatched (env : Orchestrator) (id : String) :
    ∀ (qs : List (String × String)) (st : OrchState),
      (∀ p ∈ qs, ∀ r, qaFindTarget env p.1 = some r → r.id ≠ id) →
      alistGet (runQALoop env qs st).lastSeenIndex id =
        alistGet st.lastSeenIndex id := by
  intro qs
  induction qs with
  | nil => intro st _; rfl
  | cons item rest ih =>
    obtain ⟨target, question⟩ := item
    intro st hum
    rw [runQALoop]
    rcases hft : qaFindTarget env target with _ | tr
    · exact ih _ fun p hp => hum p (List.mem_cons_of_mem _ hp)
    · have hne : tr.id ≠ id := hum (target, question) (List.mem_cons_self _ _) tr hft
      dsimp only
      rw [ih _ fun p hp => hum p (List.mem_cons_of_mem _ hp)]
      rw [markAsSeen_lastSeen, alistGet_alistSet, if_neg hne]
      rfl

lemma runQALoop_fields (env : Orchestrator) :
    ∀ (qs : List (String × String)) (st : OrchState),
      (runQALoop env qs st).taskPrompt = st.taskPrompt ∧
      (runQALoop env qs st).analysis = st.analysis := by
  intro qs
  induction qs with
  | nil => intro st; exact ⟨rfl, rfl⟩
  | cons item rest ih =>
    obtain ⟨target, question⟩ := item
    intro st
    rw [runQALoop]
    rcases hft : qaFindTarget env target with _ | tr
    · exact ⟨(ih _).1, (ih _).2⟩
    · exact ⟨(ih _).1, (ih _).2⟩

lemma roundBodyS_indep (env : Orchestrator) (st : OrchState) (round : Nat) :
    ∀ e ∈ (roundBodyS env st round).log,
      e ∈ st.log ∨ revCallRound e = none ∨
      ∃ id resp, e = CallEvent.reviewerCall round id
        (buildMessagesV env true st id).1 (buildMessagesV env true st id).2 resp := by
  intro e he
  unfold roundBodyS at he
  rcases commitTasks_mem _ _ e he with h | h
  · rcases List.mem_append.mp h with h' | h'
    · exact Or.inl h'
    · obtain ⟨t, ht, rfl⟩ := List.mem_map.mp h'
      simp only [roundTasksS, List.mem_map] at ht
      obtain ⟨r, hr, rfl⟩ := ht
      exact Or.inr (Or.inr ⟨r.id, _, rfl⟩)
  · exact Or.inr (Or.inl h.1)

lemma runRoundsS_round1 (env : Orchestrator) :
    ∀ (rem : Nat) (st : OrchState) (ictr : Nat),
      ∀ e ∈ (runRoundsS env rem st ictr 1).1.log,
        e ∈ st.log ∨
        ∀ id req vis resp, e = CallEvent.reviewerCall 1 id req vis resp →
          alistGet st.lastSeenIndex id = none →
          req = [⟨.user, independentPrompt st.taskPrompt st.analysis id⟩] ∧
          vis = [] := by
  intro rem st ictr
  cases rem with
  | zero => intro e he; exact Or.inl he
  | succ n =>
    intro e he
    rw [runRoundsS] at he
    by_cases hb : (interactStep env st ictr 1).2.2 = true
    · rw [if_pos hb] at he
      rcases interactStep_mem env st ictr 1 e he with h | h
      · exact Or.inl h
      · refine Or.inr ?_
        intro id req vis resp hE
        have h1 := h.1
        rw [hE] at h1
        simp [revCallRound] at h1
    · rw [if_neg hb] at he
      dsimp only at he
      obtain ⟨hls, htp, han⟩ := interactStep_fields env st ictr 1
      have hbody : ∀ e ∈ (roundBodyS env (interactStep env st ictr 1).1 1).log,
          e ∈ st.log ∨
          ∀ id req vis resp, e = CallEvent.reviewerCall 1 id req vis resp →
            alistGet st.lastSeenIndex id = none →
            req = [⟨.user, independentPrompt st.taskPrompt st.analysis id⟩] ∧
            vis = [] := by
        intro e' he'
        rcases roundBodyS_indep env _ 1 e' he' with h | h | h
        · rcases interactStep_mem env st ictr 1 e' h with h' | h'
          · exact Or.inl h'
          · refine Or.inr ?_
            intro id req vis resp hE
            have h1 := h'.1
            rw [hE] at h1
            simp [revCallRound] at h1
        · refine Or.inr ?_
          intro id req vis resp hE
          rw [hE] at h
          simp [revCallRound] at h
        · obtain ⟨id0, resp0, hE0⟩ := h
          refine Or.inr ?_
          intro id req vis resp hE hfid
          rw [hE] at hE0
          simp only [CallEvent.reviewerCall.injEq] at hE0
          obtain ⟨-, hid, hreq, hvis, -⟩ := hE0
          subst hid
          have hfresh0 : alistGet (interactStep env st ictr 1).1.lastSeenIndex id =
              none := by
            rw [hls]; exact hfid
          rw [buildMessagesV_first env true _ id hfresh0] at hreq hvis
          rw [htp, han] at hreq
          exact ⟨hreq, hvis⟩
      by_cases hcg : (env.checkConvergenceOpt && decide (1 < env.maxRounds)) = true
      · rw [if_pos hcg] at he
        obtain ⟨J, hJst, hJ⟩ := checkConvergenceRun_decomp env
          (roundBodyS env (interactStep env st ictr 1).1 1) 1
        have hconvm : ∀ e ∈ (checkConvergenceRun env
            (roundBodyS env (interactStep env st ictr 1).1 1) 1).1.log,
            e ∈ st.log ∨
            ∀ id req vis resp, e = CallEvent.reviewerCall 1 id req vis resp →
              alistGet st.lastSeenIndex id = none →
              req = [⟨.user, independentPrompt st.taskPrompt st.analysis id⟩] ∧
              vis = [] := by
          intro e' he'
          rw [hJst] at he'
          rcases List.mem_append.mp he' with h | h
          · exact hbody e' h
          · rcases hJ with ⟨hnil, -⟩ | hJe
            · rw [hnil] at h; cases h
            · rw [hJe] at h
              simp only [List.mem_singleton] at h
              refine Or.inr ?_
              intro id req vis resp hE
              rw [hE] at h
              cases h
        by_cases hv : (checkConvergenceRun env
            (roundBodyS env (interactStep env st ictr 1).1 1) 1).2 = true
        · rw [if_pos hv] at he
          exact hconvm e he
        · rw [if_neg hv] at he
          rcases (runRoundsS_mem env n _ _ 2).1 e he with h | h
          · exact hconvm e h
          · refine Or.inr ?_
            intro id req vis resp hE
            have h2 := h.1 1 (by rw [hE]; rfl)
            exact absurd h2 (by omega)
      · rw [if_neg hcg] at he
        rcases (runRoundsS_mem env n _ _ 2).1 e he with h | h
        · exact hbody e h
        · refine Or.inr ?_
          intro id req vis resp hE
          have h2 := h.1 1 (by rw [hE]; rfl)
          exact absurd h2 (by omega)

/-- C2 (amended): with pairwise-distinct reviewer ids, every round-1 reviewer
request of the buffered `run` is exactly the single independent-assessment
prompt holding the task prompt, the pre-analysis text and the reviewer\x27s
own id, with an empty other-reviewer visibility set. On the `runStreaming`
path the same holds for every reviewer that no post-analysis Q&A question was
routed to; a reviewer that answered a Q&A question is no longer on its first
call at round 1 and takes the debate-framing branch instead (see the
counterexample). -/
theorem claim_C2 (env : Orchestrator) (label prompt : String)
    (hnd : (env.reviewers.map fun r => r.id).Nodup) :
    (∀ e ∈ (runB env label prompt).2, ∀ id req vis resp,
        e = CallEvent.reviewerCall 1 id req vis resp →
        req = [⟨.user, independentPrompt prompt
          (env.analyzer.chatFn [⟨.user, prompt⟩] env.analyzer.systemPrompt) id⟩] ∧
        vis = []) ∧
    (∀ e ∈ (runS env label prompt).2, ∀ id req vis resp,
        e = CallEvent.reviewerCall 1 id req vis resp →
        (∀ p ∈ env.onPostAnalysisQA.getD [], ∀ r,
          qaFindTarget env p.1 = some r → r.id ≠ id) →
        req = [⟨.user, independentPrompt prompt
          (env.analyzer.chatFn [⟨.user, prompt⟩] env.analyzer.systemPrompt) id⟩] ∧
        vis = []) := by
  constructor
  · intro e he id req vis resp hE
    subst hE
    have he' : CallEvent.reviewerCall 1 id req vis resp ∈ (fcB env prompt).1.log := he
    unfold fcB at he'
    rcases getFinalConclusion_mem env _ _ _ he' with h | h
    · unfold summB at h
      rcases collectSummaries_mem env false env.reviewers _ _ h with h2 | h2
      · unfold loopB at h2
        have hfresh : ∀ r ∈ env.reviewers,
            alistGet (preStB env prompt).lastSeenIndex r.id = none := by
          intro r _
          rfl
        rcases runRoundsB_round1 env hnd env.maxRounds (preStB env prompt) 0 hfresh
            _ h2 with h3 | h3
        · have hL : (preStB env prompt).log =
              [CallEvent.analyzerCall
                  (env.analyzer.chatFn [⟨.user, prompt⟩] env.analyzer.systemPrompt),
                CallEvent.tokensEvent "analyzer"
                  (estimateTokens (prompt ++ env.analyzer.systemPrompt))
                  (estimateTokens
                    (env.analyzer.chatFn [⟨.user, prompt⟩] env.analyzer.systemPrompt))] :=
            rfl
          rw [hL] at h3
          simp at h3
        · exact h3 id req vis resp rfl
      · simp [quietEvent, revCallRound] at h2
    · simp [quietEvent, revCallRound] at h
  · intro e he id req vis resp hE hunm
    subst hE
    have he' : CallEvent.reviewerCall 1 id req vis resp ∈ (fcS env prompt).1.log := he
    unfold fcS at he'
    rcases getFinalConclusion_mem env _ _ _ he' with h | h
    · unfold summS at h
      rcases collectSummaries_mem env true env.reviewers _ _ h with h2 | h2
      · unfold loopS at h2
        rcases runRoundsS_round1 env env.maxRounds (preStS env prompt) 0 _ h2 with
          h3 | h3
        · have hq0 : ∀ e' ∈ (preAnalyzedS env prompt).log, revCallRound e' = none := by
            intro e' he''
            have hL : (preAnalyzedS env prompt).log =
                [CallEvent.analyzerCall
                    (env.analyzer.chatFn [⟨.user, prompt⟩] env.analyzer.systemPrompt),
                  CallEvent.tokensEvent "analyzer"
                    (estimateTokens (prompt ++ env.analyzer.systemPrompt))
                    (estimateTokens
                      (env.analyzer.chatFn [⟨.user, prompt⟩]
                        env.analyzer.systemPrompt))] := rfl
            rw [hL] at he''
            simp only [List.mem_cons, List.not_mem_nil, or_false] at he''
            rcases he'' with h' | h'
            · rw [h']; rfl
            · rw [h']; rfl
          have hqs : ∀ e' ∈ (preStS env prompt).log, revCallRound e' = none := by
            intro e' he''
            rw [preStS] at he''
            rcases hqa : env.onPostAnalysisQA with _ | qs
            · rw [hqa] at he''
              exact hq0 e' he''
            · rw [hqa] at he''
              rcases runQALoop_mem env qs _ e' he'' with h6 | h6
              · exact hq0 e' h6
              · exact h6.1
          have hz := hqs _ h3
          simp [revCallRound] at hz
        · have hfreshid : alistGet (preStS env prompt).lastSeenIndex id = none := by
            rw [preStS]
            rcases hqa : env.onPostAnalysisQA with _ | qs
            · rfl
            · rw [runQALoop_lastSeen_unmatched env id qs _ (by
                intro p hp r' hr'
                refine hunm p ?_ r' hr'
                rw [hqa]
                exact hp)]
              rfl
          have htpS : (preStS env prompt).taskPrompt = prompt := by
            rw [preStS]
            rcases hqa : env.onPostAnalysisQA with _ | qs
            · rfl
            · exact (runQALoop_fields env qs _).1
          have hanS : (preStS env prompt).analysis =
              env.analyzer.chatFn [⟨.user, prompt⟩] env.analyzer.systemPrompt := by
            rw [preStS]
            rcases hqa : env.onPostAnalysisQA with _ | qs
            · rfl
            · exact (runQALoop_fields env qs _).2
          have h4 := h3 id req vis resp rfl hfreshid
          rw [htpS, hanS] at h4
          exact h4
      · simp [quietEvent, revCallRound] at h2
    · simp [quietEvent, revCallRound] at h

/-- C2 witness: in the three-reviewer fixture with a Q&A phase questioning
`a` and `b`, the round-1 independence property holds for the buffered run and,
for reviewers not targeted by the Q&A, for the streaming run. -/
theorem claim_C2_witness :
    ((envThreeQA.reviewers.map fun r => r.id).Nodup) ∧
    (∀ e ∈ (runB envThreeQA "L" "P").2, ∀ id req vis resp,
        e = CallEvent.reviewerCall 1 id req vis resp →
        req = [⟨.user, independentPrompt "P"
          (envThreeQA.analyzer.chatFn [⟨.user, "P"⟩]
            envThreeQA.analyzer.systemPrompt) id⟩] ∧
        vis = []) ∧
    (∀ e ∈ (runS envThreeQA "L" "P").2, ∀ id req vis resp,
        e = CallEvent.reviewerCall 1 id req vis resp →
        (∀ p ∈ envThreeQA.onPostAnalysisQA.getD [], ∀ r,
          qaFindTarget envThreeQA p.1 = some r → r.id ≠ id) →
        req = [⟨.user, independentPrompt "P"
          (envThreeQA.analyzer.chatFn [⟨.user, "P"⟩]
            envThreeQA.analyzer.systemPrompt) id⟩] ∧
        vis = []) := by
  have h := claim_C2 envThreeQA "L" "P" (by decide)
  exact ⟨by decide, h.1, h.2⟩

/-! ### C1 — cross-reviewer visibility symmetry -/

lemma prevRoundsFilter_author (cur j : String) (hcj : j ≠ cur) (hju : j ≠ "user")
    (mc : Nat) :
    ∀ (msgs : List DebateMessage) (counts : List (String × Nat)),
      ((prevRoundsFilter cur mc counts msgs).filter fun m => m.reviewerId == j) =
        (msgs.filter fun m => m.reviewerId == j).take
          (mc - (alistGet counts j).getD 0) := by
  intro msgs
  induction msgs with
  | nil => intro counts; simp [prevRoundsFilter]
  | cons m rest ih =>
    intro counts
    rw [prevRoundsFilter]
    by_cases h1 : m.reviewerId = cur
    · rw [if_pos h1]
      have hb : (m.reviewerId == j) = false := by
        rw [h1]
        simp [Ne.symm hcj]
      rw [ih]
      simp only [List.filter_cons, hb, Bool.false_eq_true, if_false]
    · rw [if_neg h1]
      by_cases h2 : m.reviewerId = "user"
      · rw [if_pos h2]
        have hb : (m.reviewerId == j) = false := by
          rw [h2]
          simp [Ne.symm hju]
        simp only [List.filter_cons, hb, Bool.false_eq_true, if_false]
        exact ih counts
      · rw [if_neg h2]
        dsimp only
        by_cases h3 : (alistGet counts m.reviewerId).getD 0 < mc
        · rw [if_pos h3]
          by_cases h4 : m.reviewerId = j
          · have hb : (m.reviewerId == j) = true := by
              rw [h4]
              simp
            simp only [List.filter_cons, hb, if_true]
            rw [ih]
            rw [h4] at h3
            have hset : (alistGet (alistSet counts m.reviewerId
                ((alistGet counts m.reviewerId).getD 0 + 1)) j).getD 0 =
                (alistGet counts j).getD 0 + 1 := by
              rw [alistGet_alistSet, if_pos h4, h4]
              rfl
            rw [hset]
            have hsub : mc - (alistGet counts j).getD 0 =
                (mc - ((alistGet counts j).getD 0 + 1)) + 1 := by omega
            rw [hsub, List.take_succ_cons]
          · have hb : (m.reviewerId == j) = false := by simp [h4]
            simp only [List.filter_cons, hb, Bool.false_eq_true, if_false]
            rw [ih]
            rw [alistGet_alistSet, if_neg h4]
        · rw [if_neg h3]
          rw [ih]
          by_cases h4 : m.reviewerId = j
          · have hb : (m.reviewerId == j) = true := by
              rw [h4]
              simp
            simp only [List.filter_cons, hb, if_true]
            rw [h4] at h3
            have h0 : mc - (alistGet counts j).getD 0 = 0 := by omega
            rw [h0]
            rfl
          · have hb : (m.reviewerId == j) = false := by simp [h4]
            simp only [List.filter_cons, hb, Bool.false_eq_true, if_false]

lemma visibleOthers_filter (st : OrchState) (x j : String) (hjx : j ≠ x)
    (hju : j ≠ "user") :
    ((visibleOthers st x).filter fun m => m.reviewerId == j) =
      (st.conversationHistory.filter fun m => m.reviewerId == j).take
        (myMessageCount st x) := by
  unfold visibleOthers
  rw [prevRoundsFilter_author x j hjx hju]
  simp [alistGet]

lemma buildMessagesV_vis (env : Orchestrator) (sA : Bool) (st : OrchState)
    (x : String) :
    (buildMessagesV env sA st x).2 =
      if isFirstCallFor st x = true then [] else visibleOthers st x := by
  unfold buildMessagesV
  by_cases h : isFirstCallFor st x = true
  · rw [if_pos h, if_pos h]
  · rw [if_neg h, if_neg h]
    dsimp only
    by_cases hs : hasSessionFor env sA x = true
    · rw [if_pos hs]
      by_cases hn : newVisible st x = []
      · rw [if_pos hn]
      · rw [if_neg hn]
    · rw [if_neg hs]

lemma filter_id_length (l : List DebateMessage) (j : String) :
    (l.filter fun m => m.reviewerId == j).length =
      ((l.map fun m => m.reviewerId).filter fun s => s == j).length := by
  induction l with
  | nil => rfl
  | cons m rest ih =>
    simp only [List.filter_cons, List.map_cons]
    by_cases h : (m.reviewerId == j) = true
    · rw [if_pos h, if_pos h]
      simp [ih]
    · rw [if_neg h, if_neg h]
      exact ih

lemma filter_beq_length_nodup :
    ∀ (l : List String), l.Nodup → ∀ j : String,
      ((l.filter fun s => s == j).length) = if j ∈ l then 1 else 0 := by
  intro l
  induction l with
  | nil => intro _ j; simp
  | cons a t ih =>
    intro hnd j
    rcases List.nodup_cons.mp hnd with ⟨ha, ht⟩
    simp only [List.filter_cons, List.mem_cons]
    by_cases h : a = j
    · subst h
      rw [if_pos (by simp), List.length_cons, ih ht a, if_neg ha,
        if_pos (Or.inl rfl)]
    · rw [if_neg (by simp [h]), ih ht j]
      by_cases hm : j ∈ t
      · rw [if_pos hm, if_pos (Or.inr hm)]
      · rw [if_neg hm, if_neg (by
          intro hc
          rcases hc with hc | hc
          · exact h hc.symm
          · exact hm hc)]

lemma counts_step (hnew hist : List DebateMessage) (ids : List String)
    (hnd : ids.Nodup) (k : Nat)
    (hmap : hnew.map (fun m => m.reviewerId) =
      hist.map (fun m => m.reviewerId) ++ ids)
    (hcounts : ∀ j, (hist.filter fun m => m.reviewerId == j).length =
      if j ∈ ids then k else 0) :
    ∀ j, (hnew.filter fun m => m.reviewerId == j).length =
      if j ∈ ids then k + 1 else 0 := by
  intro j
  rw [filter_id_length, hmap, List.filter_append, List.length_append,
    ← filter_id_length, hcounts j, filter_beq_length_nodup ids hnd j]
  by_cases hm : j ∈ ids
  · rw [if_pos hm, if_pos hm, if_pos hm]
  · rw [if_neg hm, if_neg hm, if_neg hm]

lemma reviewerStepB_firstcall (env : Orchestrator) (ρ : Nat) (r : Reviewer)
    (st : OrchState) (id : String) :
    isFirstCallFor (reviewerStepB env ρ r st) id =
      if r.id = id then false else isFirstCallFor st id := by
  unfold isFirstCallFor
  rw [reviewerStepB_lastSeen, alistGet_alistSet]
  by_cases h : r.id = id
  · rw [if_pos h, if_pos h]
    refine decide_eq_false ?_
    simp only [Option.getD_some, List.length_append, List.length_singleton]
    omega
  · rw [if_neg h, if_neg h]

lemma runReviewersB_firstcall (env : Orchestrator) (ρ : Nat)
    (hint : env.interactive = false) :
    ∀ (revs : List Reviewer) (st : OrchState) (ictr : Nat) (id : String),
      isFirstCallFor (runReviewersB env ρ revs st ictr).1 id =
        if id ∈ revs.map (fun r => r.id) then false else isFirstCallFor st id := by
  intro revs
  induction revs with
  | nil => intro st ictr id; simp [runReviewersB]
  | cons r rest ih =>
    intro st ictr id
    rw [runReviewersB, interactStep_noninteractive env st ictr ρ hint]
    simp only [Bool.false_eq_true, if_false]
    rw [ih, reviewerStepB_firstcall]
    simp only [List.map_cons, List.mem_cons]
    by_cases h1 : id ∈ rest.map (fun r => r.id)
    · rw [if_pos h1, if_pos (Or.inr h1)]
    · rw [if_neg h1]
      by_cases h2 : r.id = id
      · rw [if_pos h2, if_pos (Or.inl h2.symm)]
      · rw [if_neg h2, if_neg (by
          intro hmem
          rcases hmem with h | h
          · exact h2 h.symm
          · exact h1 h)]

lemma commitTask_firstcall (st : OrchState) (t : RoundTask) (id : String) :
    isFirstCallFor (commitTask st t) id =
      if t.reviewer.id = id then false else isFirstCallFor st id := by
  unfold isFirstCallFor commitTask
  dsimp only
  rw [markAsSeen_lastSeen, alistGet_alistSet]
  by_cases h : t.reviewer.id = id
  · rw [if_pos h, if_pos h]
    refine decide_eq_false ?_
    rw [pushTurn_history, trackTokens_history]
    simp only [Option.getD_some, List.length_append, List.length_singleton]
    omega
  · rw [if_neg h, if_neg h]
    rfl

lemma commitTasks_firstcall :
    ∀ (tasks : List RoundTask) (st : OrchState) (id : String),
      isFirstCallFor (tasks.foldl commitTask st) id =
        if id ∈ tasks.map (fun t => t.reviewer.id) then false
        else isFirstCallFor st id := by
  intro tasks
  induction tasks with
  | nil => intro st id; simp
  | cons t rest ih =>
    intro st id
    simp only [List.foldl_cons, List.map_cons, List.mem_cons]
    rw [ih, commitTask_firstcall]
    by_cases h1 : id ∈ rest.map (fun t => t.reviewer.id)
    · rw [if_pos h1, if_pos (Or.inr h1)]
    · rw [if_neg h1]
      by_cases h2 : t.reviewer.id = id
      · rw [if_pos h2, if_pos (Or.inl h2.symm)]
      · rw [if_neg h2, if_neg (by
          intro hmem
          rcases hmem with h | h
          · exact h2 h.symm
          · exact h1 h)]

lemma roundTasksS_ids (env : Orchestrator) (st : OrchState) :
    (roundTasksS env st).map (fun t => t.reviewer.id) =
      env.reviewers.map (fun r => r.id) := by
  unfold roundTasksS
  rw [List.map_map]
  rfl

lemma roundBodyS_firstcall (env : Orchestrator) (st : OrchState) (ρ : Nat)
    (id : String) :
    isFirstCallFor (roundBodyS env st ρ) id =
      if id ∈ env.reviewers.map (fun r => r.id) then false
      else isFirstCallFor st id := by
  unfold roundBodyS
  dsimp only
  rw [commitTasks_firstcall, roundTasksS_ids]
  rfl

lemma roundBodyS_tasks_mem (env : Orchestrator) (st : OrchState) (ρ : Nat) :
    ∀ e ∈ (roundBodyS env st ρ).log,
      e ∈ st.log ∨ revCallRound e = none ∨
      ∃ r, r ∈ env.reviewers ∧ ∃ resp, e = CallEvent.reviewerCall ρ r.id
        (buildMessagesV env true st r.id).1 (buildMessagesV env true st r.id).2
        resp := by
  intro e he
  unfold roundBodyS at he
  rcases commitTasks_mem _ _ e he with h | h
  · rcases List.mem_append.mp h with h' | h'
    · exact Or.inl h'
    · obtain ⟨t, ht, rfl⟩ := List.mem_map.mp h'
      simp only [roundTasksS, List.mem_map] at ht
      obtain ⟨r, hr, rfl⟩ := ht
      exact Or.inr (Or.inr ⟨r, hr, _, rfl⟩)
  · exact Or.inr (Or.inl h.1)

lemma filter_nil_of_none {p : DebateMessage → Bool} :
    ∀ (l : List DebateMessage), (∀ m ∈ l, p m = false) → l.filter p = [] := by
  intro l
  induction l with
  | nil => intro _; rfl
  | cons m rest ih =>
    intro h
    simp only [List.filter_cons, h m (List.mem_cons_self _ _), Bool.false_eq_true,
      if_false]
    exact ih fun m' hm' => h m' (List.mem_cons_of_mem _ hm')

lemma runReviewersB_visChar (env : Orchestrator) (ρ k : Nat)
    (hint : env.interactive = false) (ids : List String) (hnd : ids.Nodup) :
    ∀ (revs : List Reviewer) (done : List String) (h0 δ : List DebateMessage)
      (st : OrchState) (ictr : Nat),
      ids = done ++ revs.map (fun r => r.id) →
      st.conversationHistory = h0 ++ δ →
      δ.map (fun m => m.reviewerId) = done →
      (∀ j, (h0.filter fun m => m.reviewerId == j).length =
        if j ∈ ids then k else 0) →
      (∀ r ∈ revs, isFirstCallFor st r.id = decide (k = 0)) →
      ∀ e ∈ (runReviewersB env ρ revs st ictr).1.log,
        e ∈ st.log ∨ revCallRound e = none ∨
        ∃ x req vis resp, e = CallEvent.reviewerCall ρ x req vis resp ∧
          ∀ j, j ≠ x → j ≠ "user" →
            vis.filter (fun m => m.reviewerId == j) =
              (h0.filter fun m => m.reviewerId == j).take k := by
  intro revs
  induction revs with
  | nil =>
    intro done h0 δ st ictr _ _ _ _ _ e he
    exact Or.inl he
  | cons r rest ih =>
    intro done h0 δ st ictr hpart hhist hdone hcounts hfc e he
    rw [runReviewersB, interactStep_noninteractive env st ictr ρ hint] at he
    simp only [Bool.false_eq_true, if_false] at he
    have hridmem : r.id ∈ ids := by
      rw [hpart]
      exact List.mem_append.mpr (Or.inr (by simp))
    have hnd' := hnd
    rw [hpart] at hnd'
    rcases List.nodup_append.mp hnd' with ⟨-, hcons, hdisj⟩
    simp only [List.map_cons, List.nodup_cons] at hcons
    have hnotdone : r.id ∉ done := fun hmem => hdisj hmem (by simp)
    have hnotrest : r.id ∉ rest.map (fun r => r.id) := hcons.1
    have hbuild : ∀ j, j ≠ r.id → j ≠ "user" →
        ((buildMessagesV env false st r.id).2.filter fun m => m.reviewerId == j) =
          (h0.filter fun m => m.reviewerId == j).take k := by
      intro j hjx hju
      rw [buildMessagesV_vis]
      by_cases hk : k = 0
      · subst hk
        rw [hfc r (List.mem_cons_self _ _)]
        simp
      · rw [hfc r (List.mem_cons_self _ _), if_neg (by simp [hk])]
        rw [visibleOthers_filter st r.id j hjx hju]
        have hmc : myMessageCount st r.id = k := by
          show (st.conversationHistory.filter fun m => m.reviewerId == r.id).length = k
          rw [hhist, List.filter_append, List.length_append]
          have hδ : (δ.filter fun m => m.reviewerId == r.id) = [] := by
            refine filter_nil_of_none δ fun m hm => ?_
            have hmem : m.reviewerId ∈ done := by
              rw [← hdone]
              exact List.mem_map.mpr ⟨m, hm, rfl⟩
            have hne : m.reviewerId ≠ r.id := fun hEq => hnotdone (hEq ▸ hmem)
            simp [hne]
          rw [hδ]
          have h1 := hcounts r.id
          rw [if_pos hridmem] at h1
          simp [h1]
        rw [hmc, hhist, List.filter_append]
        by_cases hjid : j ∈ ids
        · have h1 := hcounts j
          rw [if_pos hjid] at h1
          rw [List.take_append_of_le_length (by omega)]
        · have h1 := hcounts j
          rw [if_neg hjid] at h1
          have h0nil : (h0.filter fun m => m.reviewerId == j) = [] :=
            List.length_eq_zero.mp h1
          have hδnil : (δ.filter fun m => m.reviewerId == j) = [] := by
            refine filter_nil_of_none δ fun m hm => ?_
            have hmem : m.reviewerId ∈ done := by
              rw [← hdone]
              exact List.mem_map.mpr ⟨m, hm, rfl⟩
            have hne : m.reviewerId ≠ j := fun hEq => hjid (by
              rw [hpart]
              exact List.mem_append.mpr (Or.inl (hEq ▸ hmem)))
            simp [hne]
          rw [h0nil, hδnil]
          simp
    have hpart' : ids = (done ++ [r.id]) ++ rest.map (fun r => r.id) := by
      rw [hpart, List.append_assoc]
      rfl
    have hhist' : (reviewerStepB env ρ r st).conversationHistory =
        h0 ++ (δ ++ [DebateMessage.mk r.id
          (r.chatFn (buildMessagesV env false st r.id).1 r.systemPrompt)
          st.clock]) := by
      rw [reviewerStepB_history, hhist, List.append_assoc]
    have hdone' : (δ ++ [DebateMessage.mk r.id
        (r.chatFn (buildMessagesV env false st r.id).1 r.systemPrompt)
        st.clock]).map (fun m => m.reviewerId) = done ++ [r.id] := by
      rw [List.map_append, hdone]
      rfl
    have hfc' : ∀ r' ∈ rest,
        isFirstCallFor (reviewerStepB env ρ r st) r'.id = decide (k = 0) := by
      intro r' hr'
      rw [reviewerStepB_firstcall]
      have hne : r.id ≠ r'.id := fun hEq =>
        hnotrest (by rw [hEq]; exact List.mem_map.mpr ⟨r', hr', rfl⟩)
      rw [if_neg hne]
      exact hfc r' (List.mem_cons_of_mem _ hr')
    rcases ih (done ++ [r.id]) h0
        (δ ++ [DebateMessage.mk r.id
          (r.chatFn (buildMessagesV env false st r.id).1 r.systemPrompt) st.clock])
        (reviewerStepB env ρ r st) ictr hpart' hhist' hdone' hcounts hfc' e he with
      h | h | h
    · rw [reviewerStepB_log] at h
      rcases List.mem_append.mp h with h' | h'
      · exact Or.inl h'
      · simp only [List.mem_cons, List.mem_singleton] at h'
        rcases h' with h' | h' | h'
        · exact Or.inr (Or.inr ⟨r.id, _, _, _, h', hbuild⟩)
        · exact Or.inr (Or.inl (by rw [h']; rfl))
        · cases h'
    · exact Or.inr (Or.inl h)
    · exact Or.inr (Or.inr h)

lemma runRoundsB_visPairs (env : Orchestrator) (hint : env.interactive = false)
    (hnd : (env.reviewers.map fun r => r.id).Nodup) :
    ∀ (rem : Nat) (st : OrchState) (ictr ρ k : Nat),
      ρ = k + 1 →
      (∀ j, (st.conversationHistory.filter fun m => m.reviewerId == j).length =
        if j ∈ env.reviewers.map (fun r => r.id) then k else 0) →
      (∀ r ∈ env.reviewers, isFirstCallFor st r.id = decide (k = 0)) →
      (∀ e ∈ st.log, ∀ ρ', revCallRound e = some ρ' → ρ' < ρ) →
      visPairOK st.log →
      (∀ e ∈ (runRoundsB env rem st ictr ρ).1.log, ∀ ρ', revCallRound e = some ρ' →
        ρ' ≤ ρ + rem) ∧
      visPairOK (runRoundsB env rem st ictr ρ).1.log := by
  intro rem
  induction rem with
  | zero =>
    intro st ictr ρ k hρ hcounts hfc hbound hpair
    refine ⟨?_, hpair⟩
    intro e he ρ' hr
    have := hbound e he ρ' hr
    omega
  | succ n ih =>
    intro st ictr ρ k hρ hcounts hfc hbound hpair
    have hinner := runReviewersB_visChar env ρ k hint _ hnd env.reviewers []
      st.conversationHistory [] st ictr rfl (List.append_nil _).symm rfl hcounts hfc
    have hinnerBound : ∀ e ∈ (runReviewersB env ρ env.reviewers st ictr).1.log,
        ∀ ρ'', revCallRound e = some ρ'' → ρ'' ≤ ρ := by
      intro e he ρ'' hr
      rcases hinner e he with h | h | h
      · exact le_of_lt (hbound e h ρ'' hr)
      · rw [h] at hr; cases hr
      · obtain ⟨x, req, vis, resp, hE, -⟩ := h
        rw [hE] at hr
        simp only [revCallRound, Option.some.injEq] at hr
        omega
    have hinnerPair : visPairOK (runReviewersB env ρ env.reviewers st ictr).1.log := by
      intro ρ' x reqx visx respx y reqy visy respy hex hey j hjx hjy hju
      rcases hinner _ hex with hx | hx | hx
      · rcases hinner _ hey with hy | hy | hy
        · exact hpair ρ' x reqx visx respx y reqy visy respy hx hy j hjx hjy hju
        · simp [revCallRound] at hy
        · obtain ⟨y0, req0, vis0, resp0, hE, -⟩ := hy
          have h1 := hbound _ hx ρ' rfl
          simp only [CallEvent.reviewerCall.injEq] at hE
          exact absurd hE.1 (by omega)
      · simp [revCallRound] at hx
      · rcases hinner _ hey with hy | hy | hy
        · obtain ⟨x0, req0, vis0, resp0, hE, -⟩ := hx
          have h1 := hbound _ hy ρ' rfl
          simp only [CallEvent.reviewerCall.injEq] at hE
          exact absurd hE.1 (by omega)
        · simp [revCallRound] at hy
        · obtain ⟨x0, req0, vis0, resp0, hEx, hvx⟩ := hx
          obtain ⟨y0, req1, vis1, resp1, hEy, hvy⟩ := hy
          simp only [CallEvent.reviewerCall.injEq] at hEx hEy
          obtain ⟨-, hx0, -, hvisx, -⟩ := hEx
          obtain ⟨-, hy0, -, hvisy, -⟩ := hEy
          subst hx0
          subst hy0
          rw [hvisx, hvisy]
          exact (hvx j hjx hju).trans (hvy j hjy hju).symm
    obtain ⟨J, hJst, hJ⟩ := checkConvergenceRun_decomp env
      (runReviewersB env ρ env.reviewers st ictr).1 ρ
    have hcounts1 := counts_step
      (runReviewersB env ρ env.reviewers st ictr).1.conversationHistory
      st.conversationHistory (env.reviewers.map fun r => r.id) hnd k
      (runReviewersB_history_ids env ρ hint env.reviewers st ictr) hcounts
    have hfc1 : ∀ r ∈ env.reviewers,
        isFirstCallFor (runReviewersB env ρ env.reviewers st ictr).1 r.id =
          decide (k + 1 = 0) := by
      intro r hr
      rw [runReviewersB_firstcall env ρ hint env.reviewers st ictr r.id,
        if_pos (List.mem_map.mpr ⟨r, hr, rfl⟩)]
      simp
    have hcvCounts : ∀ j, ((checkConvergenceRun env
        (runReviewersB env ρ env.reviewers st ictr).1 ρ).1.conversationHistory.filter
          fun m => m.reviewerId == j).length =
        if j ∈ env.reviewers.map (fun r => r.id) then k + 1 else 0 := by
      intro j
      rw [checkConvergenceRun_history]
      exact hcounts1 j
    have hcvFc : ∀ r ∈ env.reviewers,
        isFirstCallFor (checkConvergenceRun env
          (runReviewersB env ρ env.reviewers st ictr).1 ρ).1 r.id =
          decide (k + 1 = 0) := by
      intro r hr
      rw [hJst]
      exact hfc1 r hr
    have hJrev : ∀ e ∈ J, revCallRound e = none := by
      rcases hJ with ⟨hnil, -⟩ | hJe
      · rw [hnil]; intro e he; cases he
      · rw [hJe]
        intro e he
        rw [List.mem_singleton] at he
        rw [he]
        rfl
    have hcvBound : ∀ e ∈ (checkConvergenceRun env
        (runReviewersB env ρ env.reviewers st ictr).1 ρ).1.log,
        ∀ ρ'', revCallRound e = some ρ'' → ρ'' ≤ ρ := by
      intro e he ρ'' hr
      rw [hJst] at he
      rcases List.mem_append.mp he with h | h
      · exact hinnerBound e h ρ'' hr
      · rw [hJrev e h] at hr
        cases hr
    have hcvPair : visPairOK (checkConvergenceRun env
        (runReviewersB env ρ env.reviewers st ictr).1 ρ).1.log := by
      intro ρ' x reqx visx respx y reqy visy respy hex hey j hjx hjy hju
      rw [hJst] at hex hey
      have hex' : CallEvent.reviewerCall ρ' x reqx visx respx ∈
          (runReviewersB env ρ env.reviewers st ictr).1.log := by
        rcases List.mem_append.mp hex with h | h
        · exact h
        · have := hJrev _ h
          simp [revCallRound] at this
      have hey' : CallEvent.reviewerCall ρ' y reqy visy respy ∈
          (runReviewersB env ρ env.reviewers st ictr).1.log := by
        rcases List.mem_append.mp hey with h | h
        · exact h
        · have := hJrev _ h
          simp [revCallRound] at this
      exact hinnerPair ρ' x reqx visx respx y reqy visy respy hex' hey' j hjx hjy hju
    rw [runRoundsB]
    by_cases hcg : (env.checkConvergenceOpt && decide (ρ < env.maxRounds)) = true
    · rw [if_pos hcg]
      by_cases hv : (checkConvergenceRun env
          (runReviewersB env ρ env.reviewers st ictr).1 ρ).2 = true
      · rw [if_pos hv]
        refine ⟨?_, hcvPair⟩
        intro e he ρ'' hr
        have := hcvBound e he ρ'' hr
        omega
      · rw [if_neg hv]
        obtain ⟨ihb, ihp⟩ := ih (checkConvergenceRun env
            (runReviewersB env ρ env.reviewers st ictr).1 ρ).1
          (runReviewersB env ρ env.reviewers st ictr).2 (ρ + 1) (k + 1)
          (by omega) hcvCounts hcvFc
          (fun e he ρ'' hr => lt_of_le_of_lt (hcvBound e he ρ'' hr) (by omega))
          hcvPair
        refine ⟨?_, ihp⟩
        intro e he ρ'' hr
        have := ihb e he ρ'' hr
        omega
    · rw [if_neg hcg]
      obtain ⟨ihb, ihp⟩ := ih (runReviewersB env ρ env.reviewers st ictr).1
        (runReviewersB env ρ env.reviewers st ictr).2 (ρ + 1) (k + 1)
        (by omega) hcounts1 hfc1
        (fun e he ρ'' hr => lt_of_le_of_lt (hinnerBound e he ρ'' hr) (by omega))
        hinnerPair
      refine ⟨?_, ihp⟩
      intro e he ρ'' hr
      have := ihb e he ρ'' hr
      omega

lemma roundBodyS_visChar (env : Orchestrator) (st : OrchState) (ρ k : Nat)
    (hcounts : ∀ j, (st.conversationHistory.filter fun m => m.reviewerId == j).length =
      if j ∈ env.reviewers.map (fun r => r.id) then k else 0)
    (hfc : ∀ r ∈ env.reviewers, isFirstCallFor st r.id = decide (k = 0)) :
    ∀ e ∈ (roundBodyS env st ρ).log,
      e ∈ st.log ∨ revCallRound e = none ∨
      ∃ x req vis resp, e = CallEvent.reviewerCall ρ x req vis resp ∧
        ∀ j, j ≠ x → j ≠ "user" →
          vis.filter (fun m => m.reviewerId == j) =
            (st.conversationHistory.filter fun m => m.reviewerId == j).take k := by
  intro e he
  rcases roundBodyS_tasks_mem env st ρ e he with h | h | h
  · exact Or.inl h
  · exact Or.inr (Or.inl h)
  · obtain ⟨r, hr, resp, hE⟩ := h
    refine Or.inr (Or.inr ⟨r.id, _, _, _, hE, ?_⟩)
    intro j hjx hju
    rw [buildMessagesV_vis]
    by_cases hk : k = 0
    · subst hk
      rw [hfc r hr]
      simp
    · rw [hfc r hr, if_neg (by simp [hk])]
      rw [visibleOthers_filter st r.id j hjx hju]
      have hmc : myMessageCount st r.id = k := by
        show (st.conversationHistory.filter fun m => m.reviewerId == r.id).length = k
        have h1 := hcounts r.id
        rw [if_pos (List.mem_map.mpr ⟨r, hr, rfl⟩)] at h1
        exact h1
      rw [hmc]

lemma runRoundsS_visPairs (env : Orchestrator) (hint : env.interactive = false)
    (hnd : (env.reviewers.map fun r => r.id).Nodup) :
    ∀ (rem : Nat) (st : OrchState) (ictr ρ k : Nat),
      ρ = k + 1 →
      (∀ j, (st.conversationHistory.filter fun m => m.reviewerId == j).length =
        if j ∈ env.reviewers.map (fun r => r.id) then k else 0) →
      (∀ r ∈ env.reviewers, isFirstCallFor st r.id = decide (k = 0)) →
      (∀ e ∈ st.log, ∀ ρ', revCallRound e = some ρ' → ρ' < ρ) →
      visPairOK st.log →
      (∀ e ∈ (runRoundsS env rem st ictr ρ).1.log, ∀ ρ', revCallRound e = some ρ' →
        ρ' ≤ ρ + rem) ∧
      visPairOK (runRoundsS env rem st ictr ρ).1.log := by
  intro rem
  induction rem with
  | zero =>
    intro st ictr ρ k hρ hcounts hfc hbound hpair
    refine ⟨?_, hpair⟩
    intro e he ρ' hr
    have := hbound e he ρ' hr
    omega
  | succ n ih =>
    intro st ictr ρ k hρ hcounts hfc hbound hpair
    have hinner := roundBodyS_visChar env st ρ k hcounts hfc
    have hinnerBound : ∀ e ∈ (roundBodyS env st ρ).log,
        ∀ ρ'', revCallRound e = some ρ'' → ρ'' ≤ ρ := by
      intro e he ρ'' hr
      rcases hinner e he with h | h | h
      · exact le_of_lt (hbound e h ρ'' hr)
      · rw [h] at hr; cases hr
      · obtain ⟨x, req, vis, resp, hE, -⟩ := h
        rw [hE] at hr
        simp only [revCallRound, Option.some.injEq] at hr
        omega
    have hinnerPair : visPairOK (roundBodyS env st ρ).log := by
      intro ρ' x reqx visx respx y reqy visy respy hex hey j hjx hjy hju
      rcases hinner _ hex with hx | hx | hx
      · rcases hinner _ hey with hy | hy | hy
        · exact hpair ρ' x reqx visx respx y reqy visy respy hx hy j hjx hjy hju
        · simp [revCallRound] at hy
        · obtain ⟨y0, req0, vis0, resp0, hE, -⟩ := hy
          have h1 := hbound _ hx ρ' rfl
          simp only [CallEvent.reviewerCall.injEq] at hE
          exact absurd hE.1 (by omega)
      · simp [revCallRound] at hx
      · rcases hinner _ hey with hy | hy | hy
        · obtain ⟨x0, req0, vis0, resp0, hE, -⟩ := hx
          have h1 := hbound _ hy ρ' rfl
          simp only [CallEvent.reviewerCall.injEq] at hE
          exact absurd hE.1 (by omega)
        · simp [revCallRound] at hy
        · obtain ⟨x0, req0, vis0, resp0, hEx, hvx⟩ := hx
          obtain ⟨y0, req1, vis1, resp1, hEy, hvy⟩ := hy
          simp only [CallEvent.reviewerCall.injEq] at hEx hEy
          obtain ⟨-, hx0, -, hvisx, -⟩ := hEx
          obtain ⟨-, hy0, -, hvisy, -⟩ := hEy
          subst hx0
          subst hy0
          rw [hvisx, hvisy]
          exact (hvx j hjx hju).trans (hvy j hjy hju).symm
    obtain ⟨J, hJst, hJ⟩ := checkConvergenceRun_decomp env (roundBodyS env st ρ) ρ
    have hcounts1 := counts_step (roundBodyS env st ρ).conversationHistory
      st.conversationHistory (env.reviewers.map fun r => r.id) hnd k
      (roundBodyS_history_ids env st ρ) hcounts
    have hfc1 : ∀ r ∈ env.reviewers,
        isFirstCallFor (roundBodyS env st ρ) r.id = decide (k + 1 = 0) := by
      intro r hr
      rw [roundBodyS_firstcall, if_pos (List.mem_map.mpr ⟨r, hr, rfl⟩)]
      simp
    have hcvCounts : ∀ j, ((checkConvergenceRun env
        (roundBodyS env st ρ) ρ).1.conversationHistory.filter
          fun m => m.reviewerId == j).length =
        if j ∈ env.reviewers.map (fun r => r.id) then k + 1 else 0 := by
      intro j
      rw [checkConvergenceRun_history]
      exact hcounts1 j
    have hcvFc : ∀ r ∈ env.reviewers,
        isFirstCallFor (checkConvergenceRun env (roundBodyS env st ρ) ρ).1 r.id =
          decide (k + 1 = 0) := by
      intro r hr
      rw [hJst]
      exact hfc1 r hr
    have hJrev : ∀ e ∈ J, revCallRound e = none := by
      rcases hJ with ⟨hnil, -⟩ | hJe
      · rw [hnil]; intro e he; cases he
      · rw [hJe]
        intro e he
        rw [List.mem_singleton] at he
        rw [he]
        rfl
    have hcvBound : ∀ e ∈ (checkConvergenceRun env (roundBodyS env st ρ) ρ).1.log,
        ∀ ρ'', revCallRound e = some ρ'' → ρ'' ≤ ρ := by
      intro e he ρ'' hr
      rw [hJst] at he
      rcases List.mem_append.mp he with h | h
      · exact hinnerBound e h ρ'' hr
      · rw [hJrev e h] at hr
        cases hr
    have hcvPair : visPairOK (checkConvergenceRun env (roundBodyS env st ρ) ρ).1.log := by
      intro ρ' x reqx visx respx y reqy visy respy hex hey j hjx hjy hju
      rw [hJst] at hex hey
      have hex' : CallEvent.reviewerCall ρ' x reqx visx respx ∈
          (roundBodyS env st ρ).log := by
        rcases List.mem_append.mp hex with h | h
        · exact h
        · have := hJrev _ h
          simp [revCallRound] at this
      have hey' : CallEvent.reviewerCall ρ' y reqy visy respy ∈
          (roundBodyS env st ρ).log := by
        rcases List.mem_append.mp hey with h | h
        · exact h
        · have := hJrev _ h
          simp [revCallRound] at this
      exact hinnerPair ρ' x reqx visx respx y reqy visy respy hex' hey' j hjx hjy hju
    rw [runRoundsS, interactStep_noninteractive env st ictr ρ hint]
    simp only [Bool.false_eq_true, if_false]
    by_cases hcg : (env.checkConvergenceOpt && decide (ρ < env.maxRounds)) = true
    · rw [if_pos hcg]
      by_cases hv : (checkConvergenceRun env (roundBodyS env st ρ) ρ).2 = true
      · rw [if_pos hv]
        refine ⟨?_, hcvPair⟩
        intro e he ρ'' hr
        have := hcvBound e he ρ'' hr
        omega
      · rw [if_neg hv]
        obtain ⟨ihb, ihp⟩ := ih (checkConvergenceRun env (roundBodyS env st ρ) ρ).1
          ictr (ρ + 1) (k + 1) (by omega) hcvCounts hcvFc
          (fun e he ρ'' hr => lt_of_le_of_lt (hcvBound e he ρ'' hr) (by omega))
          hcvPair
        refine ⟨?_, ihp⟩
        intro e he ρ'' hr
        have := ihb e he ρ'' hr
        omega
    · rw [if_neg hcg]
      obtain ⟨ihb, ihp⟩ := ih (roundBodyS env st ρ) ictr (ρ + 1) (k + 1)
        (by omega) hcounts1 hfc1
        (fun e he ρ'' hr => lt_of_le_of_lt (hinnerBound e he ρ'' hr) (by omega))
        hinnerPair
      refine ⟨?_, ihp⟩
      intro e he ρ'' hr
      have := ihb e he ρ'' hr
      omega

/-- C1 (amended): in runs without interactive interjections and without a
post-analysis Q&A phase, and with pairwise-distinct reviewer ids, any two
reviewer requests built in the same round saw exactly the same set of a third
author\x27s turns — on both the buffered `run` and the streaming `runStreaming`
path. A Q&A exchange before round 1 advances the questioned reviewer\x27s
visibility cap and breaks this symmetry (see the counterexample). -/
theorem claim_C1 (env : Orchestrator) (label prompt : String)
    (hnd : (env.reviewers.map fun r => r.id).Nodup)
    (hint : env.interactive = false) (hqa : env.onPostAnalysisQA = none) :
    (∀ (ρ : Nat) (x : String) (reqx : List Message) (visx : List DebateMessage)
      (respx : String) (y : String) (reqy : List Message)
      (visy : List DebateMessage) (respy : String),
      CallEvent.reviewerCall ρ x reqx visx respx ∈ (runB env label prompt).2 →
      CallEvent.reviewerCall ρ y reqy visy respy ∈ (runB env label prompt).2 →
      ∀ j, j ≠ x → j ≠ y → j ≠ "user" →
        visx.filter (fun m => m.reviewerId == j) =
          visy.filter (fun m => m.reviewerId == j)) ∧
    (∀ (ρ : Nat) (x : String) (reqx : List Message) (visx : List DebateMessage)
      (respx : String) (y : String) (reqy : List Message)
      (visy : List DebateMessage) (respy : String),
      CallEvent.reviewerCall ρ x reqx visx respx ∈ (runS env label prompt).2 →
      CallEvent.reviewerCall ρ y reqy visy respy ∈ (runS env label prompt).2 →
      ∀ j, j ≠ x → j ≠ y → j ≠ "user" →
        visx.filter (fun m => m.reviewerId == j) =
          visy.filter (fun m => m.reviewerId == j)) := by
  have hlift : ∀ (L1 L2 : List CallEvent),
      (∀ e ∈ L2, e ∈ L1 ∨ quietEvent e) → visPairOK L1 → visPairOK L2 := by
    intro L1 L2 hmem hp ρ x reqx visx respx y reqy visy respy hex hey j hjx hjy hju
    rcases hmem _ hex with h1 | h1
    · rcases hmem _ hey with h2 | h2
      · exact hp ρ x reqx visx respx y reqy visy respy h1 h2 j hjx hjy hju
      · have := h2.1
        simp [revCallRound] at this
    · have := h1.1
      simp [revCallRound] at this
  have hquietB : ∀ e ∈ (preStB env prompt).log, revCallRound e = none := by
    intro e he
    have hL : (preStB env prompt).log =
        [CallEvent.analyzerCall
            (env.analyzer.chatFn [⟨.user, prompt⟩] env.analyzer.systemPrompt),
          CallEvent.tokensEvent "analyzer"
            (estimateTokens (prompt ++ env.analyzer.systemPrompt))
            (estimateTokens
              (env.analyzer.chatFn [⟨.user, prompt⟩] env.analyzer.systemPrompt))] :=
      rfl
    rw [hL] at he
    simp only [List.mem_cons, List.not_mem_nil, or_false] at he
    rcases he with h | h
    · rw [h]; rfl
    · rw [h]; rfl
  have hpairB0 : visPairOK (preStB env prompt).log := by
    intro ρ x reqx visx respx y reqy visy respy hex hey j hjx hjy hju
    have := hquietB _ hex
    simp [revCallRound] at this
  have hloopB : visPairOK (loopB env prompt).1.log := by
    unfold loopB
    refine (runRoundsB_visPairs env hint hnd env.maxRounds (preStB env prompt) 0 1 0
      rfl ?_ (fun r _ => rfl) ?_ hpairB0).2
    · intro j
      show (([] : List DebateMessage).filter fun m => m.reviewerId == j).length = _
      simp
    · intro e he ρ' hr
      rw [hquietB e he] at hr
      cases hr
  have hB : visPairOK (runB env label prompt).2 := by
    show visPairOK (fcB env prompt).1.log
    unfold fcB
    refine hlift _ _ (getFinalConclusion_mem env _ _) ?_
    unfold summB
    exact hlift _ _ (collectSummaries_mem env false env.reviewers _) hloopB
  have hpre : preStS env prompt = preAnalyzedS env prompt := by
    rw [preStS, hqa]
  have hquietS : ∀ e ∈ (preStS env prompt).log, revCallRound e = none := by
    rw [hpre]
    intro e he
    have hL : (preAnalyzedS env prompt).log =
        [CallEvent.analyzerCall
            (env.analyzer.chatFn [⟨.user, prompt⟩] env.analyzer.systemPrompt),
          CallEvent.tokensEvent "analyzer"
            (estimateTokens (prompt ++ env.analyzer.systemPrompt))
            (estimateTokens
              (env.analyzer.chatFn [⟨.user, prompt⟩] env.analyzer.systemPrompt))] :=
      rfl
    rw [hL] at he
    simp only [List.mem_cons, List.not_mem_nil, or_false] at he
    rcases he with h | h
    · rw [h]; rfl
    · rw [h]; rfl
  have hpairS0 : visPairOK (preStS env prompt).log := by
    intro ρ x reqx visx respx y reqy visy respy hex hey j hjx hjy hju
    have := hquietS _ hex
    simp [revCallRound] at this
  have hloopS : visPairOK (loopS env prompt).1.log := by
    unfold loopS
    refine (runRoundsS_visPairs env hint hnd env.maxRounds (preStS env prompt) 0 1 0
      rfl ?_ ?_ ?_ hpairS0).2
    · intro j
      rw [hpre]
      show (([] : List DebateMessage).filter fun m => m.reviewerId == j).length = _
      simp
    · intro r _
      rw [hpre]
      rfl
    · intro e he ρ' hr
      rw [hquietS e he] at hr
      cases hr
  have hS : visPairOK (runS env label prompt).2 := by
    show visPairOK (fcS env prompt).1.log
    unfold fcS
    refine hlift _ _ (getFinalConclusion_mem env _ _) ?_
    unfold summS
    exact hlift _ _ (collectSummaries_mem env true env.reviewers _) hloopS
  exact ⟨hB, hS⟩

/-- C1 witness: the three-reviewer fixture without Q&A satisfies the
cross-reviewer visibility symmetry on both paths. -/
theorem claim_C1_witness :
    ((envThree.reviewers.map fun r => r.id).Nodup ∧
      envThree.interactive = false ∧ envThree.onPostAnalysisQA = none) ∧
    (∀ (ρ : Nat) (x : String) (reqx : List Message) (visx : List DebateMessage)
      (respx : String) (y : String) (reqy : List Message)
      (visy : List DebateMessage) (respy : String),
      CallEvent.reviewerCall ρ x reqx visx respx ∈ (runB envThree "L" "P").2 →
      CallEvent.reviewerCall ρ y reqy visy respy ∈ (runB envThree "L" "P").2 →
      ∀ j, j ≠ x → j ≠ y → j ≠ "user" →
        visx.filter (fun m => m.reviewerId == j) =
          visy.filter (fun m => m.reviewerId == j)) ∧
    (∀ (ρ : Nat) (x : String) (reqx : List Message) (visx : List DebateMessage)
      (respx : String) (y : String) (reqy : List Message)
      (visy : List DebateMessage) (respy : String),
      CallEvent.reviewerCall ρ x reqx visx respx ∈ (runS envThree "L" "P").2 →
      CallEvent.reviewerCall ρ y reqy visy respy ∈ (runS envThree "L" "P").2 →
      ∀ j, j ≠ x → j ≠ y → j ≠ "user" →
        visx.filter (fun m => m.reviewerId == j) =
          visy.filter (fun m => m.reviewerId == j)) := by
  have h := claim_C1 envThree "L" "P" (by decide) rfl rfl
  exact ⟨⟨by decide, rfl, rfl⟩, h.1, h.2⟩

end Magpie
